import Mathlib

/-!
Allocation accounting of `util/memory_manager.cpp`.

A shallow embedding of the accounting layer that wraps the host allocator:
the process-wide counters, the per-thread deltas of the thread-local version,
the merge (`synchronize_counters`), the allocate / deallocate / reallocate
entry points of both build variants (thread-local and `SINGLE_THREAD`) under
both size-recovery strategies (`HAS_MALLOC_USABLE_SIZE` defined or not), and
the lifecycle functions and setters.

Conventions of the embedding:

* `long long` values are `Int`s; every C++ assignment to one stores
  `wrap64` of the mathematical result (two's complement, 64 bit).
* `size_t` values are non-negative `Int`s below `2^64`; `size_t`
  arithmetic is reduced with `u64`.
* `throw` and `exit` are outcomes of a call; the state recorded with such an
  outcome is the state at the moment of the `throw` / `exit`.
* The host allocator is an oracle: what `malloc` / `realloc` answer is an
  argument of the call.
-/

/-! ## Machine integers -/

/-- Two to the power 64, the number of `size_t` / `long long` bit patterns. -/
def two64 : Int := 18446744073709551616

/-- Two to the power 63, one more than the largest `long long`. -/
def two63 : Int := 9223372036854775808

/-- The value a `long long` holds after a result `x` is stored in it. -/
def wrap64 (x : Int) : Int := (x + two63) % two64 - two63

/-- The value of a `size_t` (or `unsigned long long`) expression whose
mathematical result is `x`. -/
def u64 (x : Int) : Int := x % two64

/-- Size of `size_t` in bytes, the width of the header field. -/
def sizeof_size_t : Int := 8

/-- The constant `UINT_MAX` of `<climits>` (32-bit `unsigned`). -/
def UINT_MAX : Int := 4294967295

/-- The macro `SYNCH_THRESHOLD`. -/
def SYNCH_THRESHOLD : Int := 100000

/-! ## Data model -/

/-- Modelled from the spec: the two exit statuses of `util/error_codes.h`
(a header that is not part of the sources at hand) that this file passes to
`exit`; the spec calls them distinct. -/
inductive error_code where
  | ERR_MEMOUT
  | ERR_ALLOC_EXCEEDED
  deriving DecidableEq, Repr

/-- How a call ends: it returns a value, it throws `out_of_memory_error`, or
it terminates the process through `exit(code)`. -/
inductive Outcome (α : Type) where
  | returned (v : α)
  | thrown
  | exited (code : error_code)
  deriving DecidableEq, Repr

/-- The file-level statics of `memory_manager.cpp`. -/
structure Globals where
  g_memory_out_of_memory : Bool
  g_memory_initialized : Bool
  g_memory_alloc_size : Int
  g_memory_max_size : Int
  g_memory_max_used_size : Int
  g_memory_watermark : Int
  g_memory_alloc_count : Int
  g_memory_max_alloc_count : Int
  g_exit_when_out_of_memory : Bool
  g_out_of_memory_msg : String
  g_finalizing : Bool
  deriving DecidableEq, Repr

/-- The `thread_local` counters of the calling thread. -/
structure ThreadCounters where
  g_memory_thread_alloc_size : Int
  g_memory_thread_alloc_count : Int
  deriving DecidableEq, Repr

/-- A live block of the host allocator: its address, the size
`malloc_usable_size` reports for it, and the `size_t` stored in its first
word (the header of the header-prefixed strategy). -/
structure Block where
  ptr : Nat
  usable : Int
  word0 : Int
  deriving DecidableEq, Repr

/-- What the host allocator hands back on success: an address and the usable
size of the block at that address. -/
structure HostBlock where
  ptr : Nat
  usable : Int
  deriving DecidableEq, Repr

/-- The build-time choice of size recovery: `native` is
`HAS_MALLOC_USABLE_SIZE` defined, `header` is the size field stored in front
of the block. -/
inductive SizeRecovery where
  | native
  | header
  deriving DecidableEq, Repr

/-- The state the accounting layer works on, seen from one thread. -/
structure Mem where
  g : Globals
  t : ThreadCounters
  heap : List Block
  deriving DecidableEq, Repr

/-- A call's final state together with how the call ended. -/
structure Result (α : Type) where
  state : Mem
  outcome : Outcome α

/-- The generated `mem_initialize()` / `mem_finalize()` and
`scoped_timer::finalize()`, which live outside `memory_manager.cpp`. -/
structure Hooks where
  mem_initialize : Mem → Mem
  mem_finalize : Mem → Mem
  scoped_timer_finalize : Mem → Mem

/-- Hooks that do nothing. -/
def Hooks.none : Hooks := ⟨id, id, id⟩

/-- The statics as the C++ initialisers leave them. -/
def Globals.init : Globals :=
  { g_memory_out_of_memory := false
    g_memory_initialized := false
    g_memory_alloc_size := 0
    g_memory_max_size := 0
    g_memory_max_used_size := 0
    g_memory_watermark := 0
    g_memory_alloc_count := 0
    g_memory_max_alloc_count := 0
    g_exit_when_out_of_memory := false
    g_out_of_memory_msg := "ERROR: out of memory"
    g_finalizing := false }

/-- The state at process start: initial statics, zero deltas, empty heap. -/
def Mem.init : Mem := ⟨Globals.init, ⟨0, 0⟩, []⟩

/-! ## The host heap -/

/-- The live block at address `p`, if there is one. -/
def find_block (heap : List Block) (p : Nat) : Option Block :=
  heap.find? (fun b => b.ptr == p)

/-- The host call `malloc_usable_size(p)`; `0` stands for the unspecified
answer on an address that is not a live block. -/
def malloc_usable_size (heap : List Block) (p : Nat) : Int :=
  match find_block heap p with
  | some b => b.usable
  | none => 0

/-- The read `*sz_p` of the header word of the block at address `real_p`. -/
def read_header (heap : List Block) (real_p : Nat) : Int :=
  match find_block heap real_p with
  | some b => b.word0
  | none => 0

/-- The host call `free(real_p)`. -/
def free (heap : List Block) (real_p : Nat) : List Block :=
  heap.filter (fun b => b.ptr != real_p)

/-- The size handed to the host allocator for a request of `s` bytes: `s`
itself, or after `s = s + sizeof(size_t)` when the header is in use. -/
def request_size (cfg : SizeRecovery) (s : Int) : Int :=
  match cfg with
  | .native => s
  | .header => u64 (s + sizeof_size_t)

/-- The address `real_p` of the host block behind the user pointer `p`: `p`
itself, or one `size_t` before it when the header is in use. -/
def real_pointer (cfg : SizeRecovery) (p : Nat) : Nat :=
  match cfg with
  | .native => p
  | .header => p - 8

/-- The size the strategy recovers for the user pointer `p`. -/
def consumed_size (cfg : SizeRecovery) (heap : List Block) (p : Nat) : Int :=
  match cfg with
  | .native => malloc_usable_size heap p
  | .header => read_header heap (real_pointer .header p)


/-- The store `*(static_cast<size_t*>(r)) = s` into the first word of the
block at address `r`. -/
def write_header (heap : List Block) (r : Nat) (s : Int) : List Block :=
  heap.map (fun b => if b.ptr == r then { b with word0 := s } else b)

/-- The heap after a successful `malloc` that answered `hb`. -/
def malloc_heap (heap : List Block) (hb : HostBlock) : List Block :=
  ⟨hb.ptr, hb.usable, 0⟩ :: heap

/-- The heap after a successful `realloc(real_p, _)` that answered `hb`: the
old block is gone, the new one carries the old contents. -/
def realloc_heap (heap : List Block) (real_p : Nat) (hb : HostBlock) : List Block :=
  ⟨hb.ptr, hb.usable, read_header heap real_p⟩ :: free heap real_p

/-! ## Control flow -/

/-- Sequencing of statements: the rest `k` of a function body runs, from the
state the call left, only when the call returned; a `throw` or an `exit`
inside the call ends the enclosing function with the same outcome. -/
def Result.andThen {α β : Type} (r : Result α) (k : Mem → Result β) : Result β :=
  match r.outcome with
  | .returned _ => k r.state
  | .thrown => ⟨r.state, .thrown⟩
  | .exited c => ⟨r.state, .exited c⟩

/-! ## Failure paths -/

/-- The static function `throw_out_of_memory`. -/
def throw_out_of_memory {α : Type} (m : Mem) : Result α :=
  let m1 : Mem := { m with g := { m.g with g_memory_out_of_memory := true } }
  if m1.g.g_exit_when_out_of_memory then
    ⟨m1, .exited .ERR_MEMOUT⟩
  else
    ⟨m1, .thrown⟩

/-- The static function `throw_alloc_counts_exceeded`. -/
def throw_alloc_counts_exceeded {α : Type} (m : Mem) : Result α :=
  ⟨m, .exited .ERR_ALLOC_EXCEEDED⟩

/-! ## Lifecycle, setters and queries -/

/-- The function `memory::exit_when_out_of_memory`; `msg = none` is a null
pointer. -/
def memory.exit_when_out_of_memory (flag : Bool) (msg : Option String) (m : Mem) : Mem :=
  let g1 := { m.g with g_exit_when_out_of_memory := flag }
  match flag, msg with
  | true, some text => { m with g := { g1 with g_out_of_memory_msg := text } }
  | _, _ => { m with g := g1 }

/-- The function `memory::initialize(size_t max_size)`. -/
def memory.initialize (hk : Hooks) (max_size : Int) (m : Mem) : Mem :=
  let m1 : Mem :=
    if max_size ≠ UINT_MAX then
      { m with g := { m.g with g_memory_max_size := wrap64 max_size } }
    else m
  if m1.g.g_memory_initialized then
    m1
  else
    let m2 : Mem := { m1 with g := { m1.g with g_memory_out_of_memory := false } }
    let m3 : Mem := hk.mem_initialize m2
    { m3 with g := { m3.g with g_memory_initialized := true } }

/-- The function `memory::is_out_of_memory`. -/
def memory.is_out_of_memory (m : Mem) : Bool :=
  m.g.g_memory_out_of_memory

/-- The function `memory::set_high_watermark`. -/
def memory.set_high_watermark (watermark : Int) (m : Mem) : Mem :=
  { m with g := { m.g with g_memory_watermark := wrap64 watermark } }

/-- The function `memory::above_high_watermark`. -/
def memory.above_high_watermark (m : Mem) : Bool :=
  if m.g.g_memory_watermark = 0 then false
  else decide (m.g.g_memory_watermark < m.g.g_memory_alloc_size)

/-- The function `memory::set_max_size`. -/
def memory.set_max_size (max_size : Int) (m : Mem) : Mem :=
  { m with g := { m.g with g_memory_max_size := wrap64 max_size } }

/-- The function `memory::set_max_alloc_count`. -/
def memory.set_max_alloc_count (max_count : Int) (m : Mem) : Mem :=
  { m with g := { m.g with g_memory_max_alloc_count := wrap64 max_count } }

/-- The function `memory::finalize(bool shutdown)`. -/
def memory.finalize (hk : Hooks) (shutdown : Bool) (m : Mem) : Mem :=
  if m.g.g_memory_initialized then
    let m1 : Mem := { m with g := { m.g with g_finalizing := true } }
    let m2 : Mem := hk.mem_finalize m1
    let m3 : Mem :=
      { m2 with g := { m2.g with g_memory_initialized := false, g_finalizing := false } }
    if shutdown then hk.scoped_timer_finalize m3 else m3
  else m

/-- The function `memory::get_allocation_size`. -/
def memory.get_allocation_size (m : Mem) : Int :=
  let r := m.g.g_memory_alloc_size
  let r := if r < 0 then 0 else r
  u64 r

/-- The function `memory::get_max_used_memory`. -/
def memory.get_max_used_memory (m : Mem) : Int :=
  u64 m.g.g_memory_max_used_size

/-- The function `memory::get_allocation_count`. -/
def memory.get_allocation_count (m : Mem) : Int :=
  u64 m.g.g_memory_alloc_count

/-- The function `memory::get_configured_max_size`. -/
def memory.get_configured_max_size (m : Mem) : Int :=
  u64 m.g.g_memory_max_size

/-! ## Thread-local version -/

/-- The static function `synchronize_counters(bool allocating)`. -/
def synchronize_counters (allocating : Bool) (m : Mem) : Result Unit :=
  let alloc_size := wrap64 (m.g.g_memory_alloc_size + m.t.g_memory_thread_alloc_size)
  let alloc_count := wrap64 (m.g.g_memory_alloc_count + m.t.g_memory_thread_alloc_count)
  let max_used :=
    if alloc_size > m.g.g_memory_max_used_size then alloc_size
    else m.g.g_memory_max_used_size
  let out_of_mem : Bool :=
    decide (m.g.g_memory_max_size ≠ 0) && decide (alloc_size > m.g.g_memory_max_size)
  let counts_exceeded : Bool :=
    decide (m.g.g_memory_max_alloc_count ≠ 0) &&
      decide (alloc_count > m.g.g_memory_max_alloc_count)
  let m1 : Mem :=
    { m with
      g := { m.g with
        g_memory_alloc_size := alloc_size
        g_memory_alloc_count := alloc_count
        g_memory_max_used_size := max_used }
      t := { m.t with g_memory_thread_alloc_size := 0 } }
  if out_of_mem && allocating then
    throw_out_of_memory m1
  else if counts_exceeded && allocating then
    throw_alloc_counts_exceeded m1
  else
    ⟨m1, .returned ()⟩

/-- The statement `if (g_memory_thread_alloc_size > SYNCH_THRESHOLD)
synchronize_counters(true);` of the allocating entry points. -/
def synchronize_if_above (m : Mem) : Result Unit :=
  if m.t.g_memory_thread_alloc_size > SYNCH_THRESHOLD then
    synchronize_counters true m
  else
    ⟨m, .returned ()⟩

/-- The function `memory::deallocate(void * p)` of the thread-local version. -/
def thread_local_version.deallocate (cfg : SizeRecovery) (p : Nat) (m : Mem) :
    Result Unit :=
  let sz := consumed_size cfg m.heap p
  let real_p := real_pointer cfg p
  let m1 : Mem :=
    { m with
      t := { m.t with
        g_memory_thread_alloc_size := wrap64 (m.t.g_memory_thread_alloc_size - sz) }
      heap := free m.heap real_p }
  if m1.t.g_memory_thread_alloc_size < -SYNCH_THRESHOLD then
    synchronize_counters false m1
  else
    ⟨m1, .returned ()⟩

/-- The function `memory::allocate(size_t s)` of the thread-local version;
`host` is the answer of `malloc`, `none` for a null pointer. -/
def thread_local_version.allocate (cfg : SizeRecovery) (host : Option HostBlock)
    (s : Int) (m : Mem) : Result Nat :=
  let s := request_size cfg s
  let m1 : Mem :=
    { m with
      t := { g_memory_thread_alloc_size := wrap64 (m.t.g_memory_thread_alloc_size + s)
             g_memory_thread_alloc_count := wrap64 (m.t.g_memory_thread_alloc_count + 1) } }
  (synchronize_if_above m1).andThen fun m2 =>
    match host with
    | none => throw_out_of_memory m2
    | some hb =>
      match cfg with
      | .native =>
        ⟨{ m2 with
            t := { m2.t with
              g_memory_thread_alloc_size :=
                wrap64 (m2.t.g_memory_thread_alloc_size + u64 (hb.usable - s)) }
            heap := malloc_heap m2.heap hb },
          .returned hb.ptr⟩
      | .header =>
        ⟨{ m2 with heap := write_header (malloc_heap m2.heap hb) hb.ptr s },
          .returned (hb.ptr + 8)⟩

/-- The function `memory::reallocate(void *p, size_t s)` of the thread-local
version; `host` is the answer of `realloc`, `none` for a null pointer. -/
def thread_local_version.reallocate (cfg : SizeRecovery) (host : Option HostBlock)
    (p : Nat) (s : Int) (m : Mem) : Result Nat :=
  let sz := consumed_size cfg m.heap p
  let real_p := real_pointer cfg p
  if cfg = .native ∧ sz ≥ s then
    ⟨m, .returned p⟩
  else
    let s := request_size cfg s
    let m1 : Mem :=
      { m with
        t := { g_memory_thread_alloc_size :=
                 wrap64 (m.t.g_memory_thread_alloc_size + u64 (s - sz))
               g_memory_thread_alloc_count := wrap64 (m.t.g_memory_thread_alloc_count + 1) } }
    (synchronize_if_above m1).andThen fun m2 =>
      match host with
      | none => throw_out_of_memory m2
      | some hb =>
        match cfg with
        | .native =>
          ⟨{ m2 with
              t := { m2.t with
                g_memory_thread_alloc_size :=
                  wrap64 (m2.t.g_memory_thread_alloc_size + u64 (hb.usable - s)) }
              heap := realloc_heap m2.heap real_p hb },
            .returned hb.ptr⟩
        | .header =>
          ⟨{ m2 with heap := write_header (realloc_heap m2.heap real_p hb) hb.ptr s },
            .returned (hb.ptr + 8)⟩

/-! ## Single-thread mode -/

/-- The three statements that follow the counter update in the allocating
entry points of the single-thread mode: raise the high-water mark, then the
byte-ceiling check, then the count-ceiling check. -/
def single_thread_mode.check_limits (m : Mem) : Result Unit :=
  let m1 : Mem :=
    if m.g.g_memory_alloc_size > m.g.g_memory_max_used_size then
      { m with g := { m.g with g_memory_max_used_size := m.g.g_memory_alloc_size } }
    else m
  if m1.g.g_memory_max_size ≠ 0 ∧ m1.g.g_memory_alloc_size > m1.g.g_memory_max_size then
    throw_out_of_memory m1
  else if m1.g.g_memory_max_alloc_count ≠ 0 ∧
      m1.g.g_memory_alloc_count > m1.g.g_memory_max_alloc_count then
    throw_alloc_counts_exceeded m1
  else
    ⟨m1, .returned ()⟩

/-- The function `memory::deallocate(void * p)` of the single-thread mode. -/
def single_thread_mode.deallocate (cfg : SizeRecovery) (p : Nat) (m : Mem) :
    Result Unit :=
  let sz := consumed_size cfg m.heap p
  let real_p := real_pointer cfg p
  ⟨{ m with
      g := { m.g with g_memory_alloc_size := wrap64 (m.g.g_memory_alloc_size - sz) }
      heap := free m.heap real_p },
    .returned ()⟩

/-- The function `memory::allocate(size_t s)` of the single-thread mode;
`host` is the answer of `malloc`, `none` for a null pointer. -/
def single_thread_mode.allocate (cfg : SizeRecovery) (host : Option HostBlock)
    (s : Int) (m : Mem) : Result Nat :=
  let s := request_size cfg s
  let m1 : Mem :=
    { m with
      g := { m.g with
        g_memory_alloc_size := wrap64 (m.g.g_memory_alloc_size + s)
        g_memory_alloc_count := wrap64 (m.g.g_memory_alloc_count + 1) } }
  (single_thread_mode.check_limits m1).andThen fun m2 =>
    match host with
    | none => throw_out_of_memory m2
    | some hb =>
      match cfg with
      | .native =>
        ⟨{ m2 with
            g := { m2.g with
              g_memory_alloc_size :=
                wrap64 (m2.g.g_memory_alloc_size + u64 (hb.usable - s)) }
            heap := malloc_heap m2.heap hb },
          .returned hb.ptr⟩
      | .header =>
        ⟨{ m2 with heap := write_header (malloc_heap m2.heap hb) hb.ptr s },
          .returned (hb.ptr + 8)⟩

/-- The function `memory::reallocate(void *p, size_t s)` of the single-thread
mode; `host` is the answer of `realloc`, `none` for a null pointer. -/
def single_thread_mode.reallocate (cfg : SizeRecovery) (host : Option HostBlock)
    (p : Nat) (s : Int) (m : Mem) : Result Nat :=
  let sz := consumed_size cfg m.heap p
  let real_p := real_pointer cfg p
  if cfg = .native ∧ sz ≥ s then
    ⟨m, .returned p⟩
  else
    let s := request_size cfg s
    let m1 : Mem :=
      { m with
        g := { m.g with
          g_memory_alloc_size := wrap64 (m.g.g_memory_alloc_size + u64 (s - sz))
          g_memory_alloc_count := wrap64 (m.g.g_memory_alloc_count + 1) } }
    (single_thread_mode.check_limits m1).andThen fun m2 =>
      match host with
      | none => throw_out_of_memory m2
      | some hb =>
        match cfg with
        | .native =>
          ⟨{ m2 with
              g := { m2.g with
                g_memory_alloc_size :=
                  wrap64 (m2.g.g_memory_alloc_size + u64 (hb.usable - s)) }
              heap := realloc_heap m2.heap real_p hb },
            .returned hb.ptr⟩
        | .header =>
          ⟨{ m2 with heap := write_header (realloc_heap m2.heap real_p hb) hb.ptr s },
            .returned (hb.ptr + 8)⟩

/-! ## The operations of the layer as one transition function -/

/-- The build variant: the default thread-local version, or `SINGLE_THREAD`. -/
inductive Variant where
  | thread_local_version
  | single_thread_mode
  deriving DecidableEq, Repr

/-- A call into the layer, with the host allocator's answer where the call
reaches the host allocator. `merge` is a direct run of
`synchronize_counters`, which only the thread-local version has. -/
inductive Op where
  | init (max_size : Int)
  | fini (shutdown : Bool)
  | allocate (s : Int) (host : Option HostBlock)
  | deallocate (p : Nat)
  | reallocate (p : Nat) (s : Int) (host : Option HostBlock)
  | merge (allocating : Bool)
  | set_max_size (max_size : Int)
  | set_max_alloc_count (max_count : Int)
  | set_high_watermark (watermark : Int)
  | exit_when_out_of_memory (flag : Bool) (msg : Option String)
  deriving DecidableEq, Repr

/-- Forget the value a call returned. -/
def Outcome.void {α : Type} : Outcome α → Outcome Unit
  | .returned _ => .returned ()
  | .thrown => .thrown
  | .exited c => .exited c

/-- Forget the value a call returned, keeping state and kind of outcome. -/
def Result.void {α : Type} (r : Result α) : Result Unit :=
  ⟨r.state, r.outcome.void⟩

/-- One call into the layer. -/
def step (v : Variant) (cfg : SizeRecovery) (hk : Hooks) (op : Op) (m : Mem) :
    Result Unit :=
  match op with
  | .init max_size => ⟨ memory.initialize hk max_size m, .returned ()⟩
  | .fini shutdown => ⟨ memory.finalize hk shutdown m, .returned ()⟩
  | .allocate s host =>
    match v with
    | .thread_local_version => (thread_local_version.allocate cfg host s m).void
    | .single_thread_mode => (single_thread_mode.allocate cfg host s m).void
  | .deallocate p =>
    match v with
    | .thread_local_version => thread_local_version.deallocate cfg p m
    | .single_thread_mode => single_thread_mode.deallocate cfg p m
  | .reallocate p s host =>
    match v with
    | .thread_local_version => (thread_local_version.reallocate cfg host p s m).void
    | .single_thread_mode => (single_thread_mode.reallocate cfg host p s m).void
  | .merge allocating =>
    match v with
    | .thread_local_version => synchronize_counters allocating m
    | .single_thread_mode => ⟨m, .returned ()⟩
  | .set_max_size max_size => ⟨ memory.set_max_size max_size m, .returned ()⟩
  | .set_max_alloc_count max_count => ⟨ memory.set_max_alloc_count max_count m, .returned ()⟩
  | .set_high_watermark watermark => ⟨ memory.set_high_watermark watermark m, .returned ()⟩
  | .exit_when_out_of_memory flag msg =>
    ⟨ memory.exit_when_out_of_memory flag msg m, .returned ()⟩


/-! ## Variable renaming of `elim_unused_vars` (`var_subst.cpp`) -/

/-- The value of an `unsigned` (32 bit) expression whose mathematical result
is `x`. -/
def u32 (x : Int) : Int := x % 4294967296

/-- The value an `int` (32 bit) holds after a result `x` is stored in it. -/
def wrap32 (x : Int) : Int := (x + 2147483648) % 4294967296 - 2147483648

/-- The loop `for (unsigned i = lo; i < hi; ++i) body(i)` run on the locals
`st`. -/
def for_loop {α : Type} (body : Nat → α → α) (lo hi : Nat) (st : α) : α :=
  (List.range' lo (hi - lo)).foldl (fun acc i => body i acc) st

/-- What the `used_vars` object answers; the class lives in used_vars.h,
outside the sources at hand, and is taken as a parameter. `contains i` is the
sort of variable `i` when the variable was found and `none` for a null
pointer. -/
structure used_vars (σ : Type) where
  contains : Nat → Option σ
  get_max_found_var_idx_plus_1 : Nat

/-- What `elim_unused_vars` reads of the declarations of the quantifier `q`;
the class lives in ast.h, outside the sources at hand. -/
structure quantifier (σ ν : Type) where
  get_num_decls : Nat
  get_decl_sort : Nat → σ
  get_decl_name : Nat → ν

/-- The node `m.mk_var(idx, s)`. -/
structure var (σ : Type) where
  idx : Int
  sort : σ
  deriving DecidableEq, Repr

/-- The locals of `elim_unused_vars` that its three loops write. -/
structure elim_unused_vars.locals (σ ν : Type) where
  used_decl_sorts : List σ
  used_decl_names : List ν
  num_removed : Int
  var_mapping : List (Option (var σ))
  next_idx : Int
  deriving DecidableEq, Repr

/-- The locals as declared, before the loops. -/
def elim_unused_vars.locals.init {σ ν : Type} : elim_unused_vars.locals σ ν :=
  ⟨[], [], 0, [], 0⟩

/-- The body of the loop that collects the declarations that stay. -/
def elim_unused_vars.keep_decl {σ ν : Type} (q : quantifier σ ν) (used : used_vars σ)
    (i : Nat) (l : elim_unused_vars.locals σ ν) : elim_unused_vars.locals σ ν :=
  if (used.contains (q.get_num_decls - i - 1)).isSome then
    { l with
      used_decl_sorts := l.used_decl_sorts ++ [q.get_decl_sort i]
      used_decl_names := l.used_decl_names ++ [q.get_decl_name i] }
  else l

/-- The body of the loop over the bound variables, `i < num_decls`. -/
def elim_unused_vars.map_bound {σ ν : Type} (used : used_vars σ)
    (i : Nat) (l : elim_unused_vars.locals σ ν) : elim_unused_vars.locals σ ν :=
  match used.contains i with
  | some s =>
    { l with
      var_mapping := l.var_mapping ++ [some ⟨u32 l.next_idx, s⟩]
      next_idx := wrap32 (l.next_idx + 1) }
  | none =>
    { l with
      num_removed := u32 (l.num_removed + 1)
      var_mapping := l.var_mapping ++ [none] }

/-- The body of the loop over the free variables, `num_decls ≤ i < sz`. -/
def elim_unused_vars.map_free {σ ν : Type} (used : used_vars σ)
    (i : Nat) (l : elim_unused_vars.locals σ ν) : elim_unused_vars.locals σ ν :=
  match used.contains i with
  | some s => { l with var_mapping := l.var_mapping ++ [some ⟨u32 (i - l.num_removed), s⟩] }
  | none => { l with var_mapping := l.var_mapping ++ [none] }

/-- The locals of `elim_unused_vars` after its three loops, that is, right
before `var_mapping` is reversed. -/
def elim_unused_vars.build {σ ν : Type} (q : quantifier σ ν) (used : used_vars σ) :
    elim_unused_vars.locals σ ν :=
  let num_decls := q.get_num_decls
  let l1 := for_loop (elim_unused_vars.keep_decl q used) 0 num_decls
    elim_unused_vars.locals.init
  let sz := used.get_max_found_var_idx_plus_1
  let l2 := for_loop (elim_unused_vars.map_bound used) 0 num_decls l1
  for_loop (elim_unused_vars.map_free used) num_decls sz l2
/-! ## Auxiliary definitions for the statements -/

/-- The state `synchronize_counters` leaves when it does not reach a failure
path: totals merged, high-water mark raised, size delta reset. -/
def merge_state (m : Mem) : Mem :=
  { m with
    g := { m.g with
      g_memory_alloc_size := wrap64 (m.g.g_memory_alloc_size + m.t.g_memory_thread_alloc_size)
      g_memory_alloc_count :=
        wrap64 (m.g.g_memory_alloc_count + m.t.g_memory_thread_alloc_count)
      g_memory_max_used_size :=
        max m.g.g_memory_max_used_size
          (wrap64 (m.g.g_memory_alloc_size + m.t.g_memory_thread_alloc_size)) }
    t := { m.t with g_memory_thread_alloc_size := 0 } }

/-- The state after the high-water-mark statement of the single-thread mode. -/
def raise_mark (m : Mem) : Mem :=
  { m with g := { m.g with
      g_memory_max_used_size := max m.g.g_memory_max_used_size m.g.g_memory_alloc_size } }


/-- The pointer the caller gets for the host block `hb`: its address, or the
address after the header. -/
def user_pointer (cfg : SizeRecovery) (hb : HostBlock) : Nat :=
  match cfg with
  | .native => hb.ptr
  | .header => hb.ptr + 8

/-- The consumed size of the block a request `q = (s, hb)` leaves once it is
served: the usable size the host reports, or the size written to the header. -/
def served_size (cfg : SizeRecovery) (q : Int × HostBlock) : Int :=
  match cfg with
  | .native => q.2.usable
  | .header => request_size .header q.1

/-- The sum of the consumed sizes of the blocks the requests leave. -/
def served_total (cfg : SizeRecovery) (reqs : List (Int × HostBlock)) : Int :=
  (reqs.map (served_size cfg)).sum

/-- No request of the list crosses the byte limit `N`: counting from `a`
bytes, the bytes counted before each request plus the size it hands to the
host allocator stay within `N`. -/
def fits (cfg : SizeRecovery) (N : Int) : Int → List (Int × HostBlock) → Bool
  | _, [] => true
  | a, q :: rest =>
    decide (a + request_size cfg q.1 ≤ N) && fits cfg N (a + served_size cfg q) rest

/-- A request the host allocator can be asked for: a `size_t` that leaves
room for the header, answered by a block with a `size_t` usable size. -/
def request_ok (q : Int × HostBlock) : Bool :=
  decide (0 ≤ q.1) && decide (q.1 + sizeof_size_t < two64) &&
    decide (0 ≤ q.2.usable) && decide (q.2.usable < two64)

/-- The outcomes of a sequence of allocate calls of the single-thread mode,
each served by the host allocator and run from the state the call before it
left. -/
def single_thread_mode.allocate_outcomes (cfg : SizeRecovery) :
    List (Int × HostBlock) → Mem → List (Outcome Nat)
  | [], _ => []
  | q :: rest, m =>
    (single_thread_mode.allocate cfg (some q.2) q.1 m).outcome ::
      single_thread_mode.allocate_outcomes cfg rest
        (single_thread_mode.allocate cfg (some q.2) q.1 m).state

/-- The size the strategy recovers for the live block `b`: its usable size,
or the content of its header word. -/
def recovered_size (cfg : SizeRecovery) (b : Block) : Int :=
  match cfg with
  | .native => b.usable
  | .header => b.word0

/-- The user pointer of the live block `b`. -/
def block_user_pointer (cfg : SizeRecovery) (b : Block) : Nat :=
  user_pointer cfg ⟨b.ptr, b.usable⟩

/-- The sum, over the blocks currently outstanding, of the consumed size the
strategy recovers from the block's user pointer. -/
def outstanding_bytes (cfg : SizeRecovery) (heap : List Block) : Int :=
  (heap.map (fun b => consumed_size cfg heap (block_user_pointer cfg b))).sum

/-- A call of an allocate / deallocate sequence that is well formed in the
state `m`: an allocate that the host allocator serves with an address that is
not a live block, or a deallocate of the pointer of an outstanding block. -/
def call_ok (cfg : SizeRecovery) (op : Op) (m : Mem) : Bool :=
  match op with
  | .allocate _ (some hb) => (find_block m.heap hb.ptr).isNone
  | .deallocate p =>
    (find_block m.heap (real_pointer cfg p)).isSome &&
      decide (user_pointer cfg ⟨real_pointer cfg p, 0⟩ = p)
  | _ => false

/-- The state after a sequence of calls, each run from the state the call
before it left. -/
def run (v : Variant) (cfg : SizeRecovery) (hk : Hooks) : List Op → Mem → Mem
  | [], m => m
  | op :: ops, m => run v cfg hk ops (step v cfg hk op m).state

/-- Every call of the sequence is a well-formed allocate or deallocate, and
returns normally. -/
def all_served (v : Variant) (cfg : SizeRecovery) (hk : Hooks) : List Op → Mem → Bool
  | [], _ => true
  | op :: ops, m =>
    call_ok cfg op m && decide ((step v cfg hk op m).outcome = .returned ()) &&
      all_served v cfg hk ops (step v cfg hk op m).state

/-- The accounting invariant of an allocate / deallocate sequence: live
blocks have distinct addresses, alloc_size plus the thread's delta_size is
the sum of the recovered sizes of the live blocks modulo 2^64, alloc_size is
a `long long`, and the single-thread mode leaves the thread's delta at 0. -/
def accounted (v : Variant) (cfg : SizeRecovery) (m : Mem) : Prop :=
  (m.heap.map Block.ptr).Nodup ∧
  (m.g.g_memory_alloc_size + m.t.g_memory_thread_alloc_size
    - (m.heap.map (recovered_size cfg)).sum) % two64 = 0 ∧
  -two63 ≤ m.g.g_memory_alloc_size ∧ m.g.g_memory_alloc_size < two63 ∧
  (v = .single_thread_mode → m.t.g_memory_thread_alloc_size = 0)

/-- The number of allocate calls in a sequence of calls. -/
def allocate_calls : List Op → Nat
  | [] => 0
  | .allocate _ _ :: ops => allocate_calls ops + 1
  | _ :: ops => allocate_calls ops

/-- The outcomes of a sequence of allocate calls of the thread-local version,
each served by the host allocator and run from the state the call before it
left. -/
def thread_local_version.allocate_outcomes (cfg : SizeRecovery) :
    List (Int × HostBlock) → Mem → List (Outcome Nat)
  | [], _ => []
  | q :: rest, m =>
    (thread_local_version.allocate cfg (some q.2) q.1 m).outcome ::
      thread_local_version.allocate_outcomes cfg rest
        (thread_local_version.allocate cfg (some q.2) q.1 m).state

/-- A call of an allocate / deallocate / reallocate sequence on which the
host allocator does not fail. -/
def host_serves : Op → Bool
  | .allocate _ (some _) => true
  | .deallocate _ => true
  | .reallocate _ _ (some _) => true
  | _ => false

/-- The byte accounting of the single-thread state `ms` and of the
thread-local state `mt` agree: same live blocks, no limits configured, and
the single-thread alloc_size is the thread-local alloc_size plus delta_size
as a 64-bit value. -/
def bytes_agree (ms mt : Mem) : Prop :=
  ms.heap = mt.heap ∧
  ms.g.g_memory_alloc_size
    = wrap64 (mt.g.g_memory_alloc_size + mt.t.g_memory_thread_alloc_size) ∧
  ms.g.g_memory_max_size = 0 ∧ ms.g.g_memory_max_alloc_count = 0 ∧
  mt.g.g_memory_max_size = 0 ∧ mt.g.g_memory_max_alloc_count = 0

/-- A process with several threads: the statics, the `thread_local` counters
of each thread (thread `i` owns entry `i`), and the host heap. -/
structure Process where
  g : Globals
  threads : List ThreadCounters
  heap : List Block
  deriving DecidableEq, Repr

/-- The state as thread `i` sees it: the shared statics and heap, and its own
counters. -/
def Process.view (P : Process) (i : Nat) : Mem :=
  ⟨P.g, P.threads.getD i ⟨0, 0⟩, P.heap⟩

/-- One call of thread `i` as one step of the process. The statics are only
written inside `synchronize_counters`, under the lock, and the rest of a call
touches the caller's own counters and the host heap, so a call is taken as
atomic. -/
def thread_step (cfg : SizeRecovery) (hk : Hooks) (i : Nat) (op : Op) (P : Process) :
    Process × Outcome Unit :=
  ((⟨(step .thread_local_version cfg hk op (P.view i)).state.g,
      P.threads.set i (step .thread_local_version cfg hk op (P.view i)).state.t,
      (step .thread_local_version cfg hk op (P.view i)).state.heap⟩ : Process),
    (step .thread_local_version cfg hk op (P.view i)).outcome)

/-- The process after an interleaving of calls, given as the list of
(thread, call) in the order in which they take effect. -/
def run_threads (cfg : SizeRecovery) (hk : Hooks) : List (Nat × Op) → Process → Process
  | [], P => P
  | (i, op) :: rest, P => run_threads cfg hk rest (thread_step cfg hk i op P).1

/-- Every step of the interleaving is made by an existing thread, is a
well-formed allocate or deallocate, and returns normally. -/
def threads_served (cfg : SizeRecovery) (hk : Hooks) : List (Nat × Op) → Process → Bool
  | [], _ => true
  | (i, op) :: rest, P =>
    decide (i < P.threads.length) && call_ok cfg op (P.view i) &&
      decide ((thread_step cfg hk i op P).2 = .returned ()) &&
      threads_served cfg hk rest (thread_step cfg hk i op P).1

/-- The sum of the size deltas of all threads. -/
def Process.delta_total (P : Process) : Int :=
  (P.threads.map ThreadCounters.g_memory_thread_alloc_size).sum

/-- The number of used variable indices below `i`. -/
def used_below {σ : Type} (used : used_vars σ) (i : Nat) : Nat :=
  ((List.range i).filter (fun j => (used.contains j).isSome)).length

/-- The number of unused variable indices below `i`. -/
def unused_below {σ : Type} (used : used_vars σ) (i : Nat) : Nat :=
  ((List.range i).filter (fun j => (used.contains j).isNone)).length

/-- The index the renaming of `elim_unused_vars` gives to the used variable
`i` of a quantifier with `n` declarations: the number of used indices below
`i` for a bound variable, `i` minus the number of unused bound variables for
a free one. -/
def renamed_idx {σ : Type} (used : used_vars σ) (n i : Nat) : Int :=
  if i < n then (used_below used i : Int) else (i : Int) - (unused_below used n : Int)
/-! ## Basic facts about the embedding -/

theorem wrap64_lower (x : Int) : -two63 ≤ wrap64 x := by
  unfold wrap64 two63 two64; omega

theorem wrap64_upper (x : Int) : wrap64 x < two63 := by
  unfold wrap64 two63 two64; omega

theorem wrap64_of_range (x : Int) (hlo : -two63 ≤ x) (hhi : x < two63) : wrap64 x = x := by
  unfold wrap64 two63 two64 at *; omega

theorem wrap64_add_u64 (a d : Int) : wrap64 (a + u64 d) = wrap64 (a + d) := by
  unfold wrap64 u64 two63 two64; omega

@[simp] theorem throw_out_of_memory_state {α : Type} (m : Mem) :
    (throw_out_of_memory m : Result α).state
      = { m with g := { m.g with g_memory_out_of_memory := true } } := by
  by_cases h : m.g.g_exit_when_out_of_memory = true <;> simp [throw_out_of_memory, h]

@[simp] theorem throw_out_of_memory_outcome {α : Type} (m : Mem) :
    (throw_out_of_memory m : Result α).outcome
      = if m.g.g_exit_when_out_of_memory then .exited .ERR_MEMOUT else .thrown := by
  by_cases h : m.g.g_exit_when_out_of_memory = true <;> simp [throw_out_of_memory, h]

theorem Result.andThen_returned {α β : Type} (r : Result α) (k : Mem → Result β) (v : α)
    (h : r.outcome = .returned v) : r.andThen k = k r.state := by
  simp [Result.andThen, h]

theorem Result.andThen_thrown {α β : Type} (r : Result α) (k : Mem → Result β)
    (h : r.outcome = .thrown) : r.andThen k = ⟨r.state, .thrown⟩ := by
  simp [Result.andThen, h]

theorem Result.andThen_exited {α β : Type} (r : Result α) (k : Mem → Result β)
    (c : error_code) (h : r.outcome = .exited c) : r.andThen k = ⟨r.state, .exited c⟩ := by
  simp [Result.andThen, h]

theorem synchronize_counters_false (m : Mem) :
    synchronize_counters false m = ⟨merge_state m, .returned ()⟩ := by
  have hmax : ∀ a b : Int, (if a > b then a else b) = max b a := by
    intro a b; rw [max_def]; split_ifs <;> omega
  simp [synchronize_counters, merge_state, hmax]

theorem synchronize_counters_true (m : Mem) :
    synchronize_counters true m =
      if m.g.g_memory_max_size ≠ 0 ∧
          (merge_state m).g.g_memory_alloc_size > m.g.g_memory_max_size then
        throw_out_of_memory (merge_state m)
      else if m.g.g_memory_max_alloc_count ≠ 0 ∧
          (merge_state m).g.g_memory_alloc_count > m.g.g_memory_max_alloc_count then
        ⟨merge_state m, .exited .ERR_ALLOC_EXCEEDED⟩
      else ⟨merge_state m, .returned ()⟩ := by
  have hmax : ∀ a b : Int, (if a > b then a else b) = max b a := by
    intro a b; rw [max_def]; split_ifs <;> omega
  simp only [synchronize_counters, merge_state, hmax, throw_alloc_counts_exceeded]
  simp only [Bool.and_true, Bool.and_eq_true, decide_eq_true_eq]

theorem synchronize_if_above_eq (m : Mem) :
    synchronize_if_above m =
      if m.t.g_memory_thread_alloc_size > SYNCH_THRESHOLD then synchronize_counters true m
      else ⟨m, .returned ()⟩ := rfl

theorem check_limits_eq (m : Mem) :
    single_thread_mode.check_limits m =
      if m.g.g_memory_max_size ≠ 0 ∧ m.g.g_memory_alloc_size > m.g.g_memory_max_size then
        throw_out_of_memory (raise_mark m)
      else if m.g.g_memory_max_alloc_count ≠ 0 ∧
          m.g.g_memory_alloc_count > m.g.g_memory_max_alloc_count then
        ⟨raise_mark m, .exited .ERR_ALLOC_EXCEEDED⟩
      else ⟨raise_mark m, .returned ()⟩ := by
  have hm : (if m.g.g_memory_alloc_size > m.g.g_memory_max_used_size then
        ({ m with g := { m.g with g_memory_max_used_size := m.g.g_memory_alloc_size } } : Mem)
      else m) = raise_mark m := by
    unfold raise_mark
    split_ifs with h
    · rw [max_eq_right (le_of_lt h)]
    · rw [max_eq_left (not_lt.mp h)]
  simp only [single_thread_mode.check_limits, hm, throw_alloc_counts_exceeded]
  rfl


/-! ## What every entry point does to the flag and to the high-water mark -/

theorem synchronize_counters_flag_mark (allocating : Bool) (m : Mem) :
    ((synchronize_counters allocating m).outcome = .thrown →
      (synchronize_counters allocating m).state.g.g_memory_out_of_memory = true) ∧
    (m.g.g_memory_out_of_memory = true →
      (synchronize_counters allocating m).state.g.g_memory_out_of_memory = true) ∧
    m.g.g_memory_max_used_size
      ≤ (synchronize_counters allocating m).state.g.g_memory_max_used_size := by
  cases allocating
  · simp +contextual [synchronize_counters_false, merge_state]
  · rw [synchronize_counters_true]
    split_ifs <;> simp +contextual [merge_state]

theorem thread_local_allocate_flag_mark (cfg : SizeRecovery) (host : Option HostBlock)
    (s : Int) (m : Mem) :
    ((thread_local_version.allocate cfg host s m).outcome = .thrown →
      (thread_local_version.allocate cfg host s m).state.g.g_memory_out_of_memory = true) ∧
    (m.g.g_memory_out_of_memory = true →
      (thread_local_version.allocate cfg host s m).state.g.g_memory_out_of_memory = true) ∧
    m.g.g_memory_max_used_size
      ≤ (thread_local_version.allocate cfg host s m).state.g.g_memory_max_used_size := by
  simp only [thread_local_version.allocate, synchronize_if_above_eq, synchronize_counters_true]
  cases host <;> cases cfg <;> split_ifs <;>
    simp +contextual [Result.andThen, merge_state] <;> split_ifs <;> simp

theorem thread_local_reallocate_flag_mark (cfg : SizeRecovery) (host : Option HostBlock)
    (p : Nat) (s : Int) (m : Mem) :
    ((thread_local_version.reallocate cfg host p s m).outcome = .thrown →
      (thread_local_version.reallocate cfg host p s m).state.g.g_memory_out_of_memory = true) ∧
    (m.g.g_memory_out_of_memory = true →
      (thread_local_version.reallocate cfg host p s m).state.g.g_memory_out_of_memory = true) ∧
    m.g.g_memory_max_used_size
      ≤ (thread_local_version.reallocate cfg host p s m).state.g.g_memory_max_used_size := by
  simp only [thread_local_version.reallocate, synchronize_if_above_eq, synchronize_counters_true]
  cases host <;> cases cfg <;> split_ifs <;>
    simp +contextual [Result.andThen, merge_state] <;> split_ifs <;> simp

theorem thread_local_deallocate_flag_mark (cfg : SizeRecovery) (p : Nat) (m : Mem) :
    ((thread_local_version.deallocate cfg p m).outcome = .thrown →
      (thread_local_version.deallocate cfg p m).state.g.g_memory_out_of_memory = true) ∧
    (m.g.g_memory_out_of_memory = true →
      (thread_local_version.deallocate cfg p m).state.g.g_memory_out_of_memory = true) ∧
    m.g.g_memory_max_used_size
      ≤ (thread_local_version.deallocate cfg p m).state.g.g_memory_max_used_size := by
  simp only [thread_local_version.deallocate, synchronize_counters_false]
  split_ifs <;> simp +contextual [merge_state]

theorem single_thread_allocate_flag_mark (cfg : SizeRecovery) (host : Option HostBlock)
    (s : Int) (m : Mem) :
    ((single_thread_mode.allocate cfg host s m).outcome = .thrown →
      (single_thread_mode.allocate cfg host s m).state.g.g_memory_out_of_memory = true) ∧
    (m.g.g_memory_out_of_memory = true →
      (single_thread_mode.allocate cfg host s m).state.g.g_memory_out_of_memory = true) ∧
    m.g.g_memory_max_used_size
      ≤ (single_thread_mode.allocate cfg host s m).state.g.g_memory_max_used_size := by
  simp only [single_thread_mode.allocate, check_limits_eq]
  cases host <;> cases cfg <;> split_ifs <;>
    simp +contextual [Result.andThen, raise_mark] <;> split_ifs <;> simp

theorem single_thread_reallocate_flag_mark (cfg : SizeRecovery) (host : Option HostBlock)
    (p : Nat) (s : Int) (m : Mem) :
    ((single_thread_mode.reallocate cfg host p s m).outcome = .thrown →
      (single_thread_mode.reallocate cfg host p s m).state.g.g_memory_out_of_memory = true) ∧
    (m.g.g_memory_out_of_memory = true →
      (single_thread_mode.reallocate cfg host p s m).state.g.g_memory_out_of_memory = true) ∧
    m.g.g_memory_max_used_size
      ≤ (single_thread_mode.reallocate cfg host p s m).state.g.g_memory_max_used_size := by
  simp only [single_thread_mode.reallocate, check_limits_eq]
  cases host <;> cases cfg <;> split_ifs <;>
    simp +contextual [Result.andThen, raise_mark] <;> split_ifs <;> simp

theorem Result.void_thrown {α : Type} (r : Result α) (h : r.void.outcome = .thrown) :
    r.outcome = .thrown := by
  unfold Result.void Outcome.void at h
  cases hr : r.outcome <;> simp_all

theorem request_size_range (cfg : SizeRecovery) (s : Int) (h0 : 0 ≤ s)
    (h1 : s + sizeof_size_t < two64) :
    0 ≤ request_size cfg s ∧ request_size cfg s < two64 := by
  cases cfg <;> simp only [request_size, u64, sizeof_size_t, two64] at * <;> omega

theorem request_ok_iff (q : Int × HostBlock) :
    request_ok q = true ↔
      0 ≤ q.1 ∧ q.1 + sizeof_size_t < two64 ∧ 0 ≤ q.2.usable ∧ q.2.usable < two64 := by
  simp only [request_ok, Bool.and_eq_true, decide_eq_true_eq, and_assoc]

theorem served_size_nonneg (cfg : SizeRecovery) (q : Int × HostBlock)
    (hq : request_ok q = true) : 0 ≤ served_size cfg q := by
  obtain ⟨h0, h1, h2, _⟩ := (request_ok_iff q).mp hq
  cases cfg
  · exact h2
  · exact (request_size_range .header q.1 h0 h1).1

theorem served_total_nonneg (cfg : SizeRecovery) (reqs : List (Int × HostBlock))
    (hok : ∀ q ∈ reqs, request_ok q = true) : 0 ≤ served_total cfg reqs := by
  induction reqs with
  | nil => simp [served_total]
  | cons q rest ih =>
    have h1 := served_size_nonneg cfg q (hok q (List.mem_cons_self _ _))
    have h2 := ih (fun x hx => hok x (List.mem_cons_of_mem _ hx))
    simp only [served_total, List.map_cons, List.sum_cons] at *
    omega

/-- One served allocate of the single-thread mode under a byte limit `N`, no
count limit, exit_on_oom off. -/
theorem single_thread_allocate_served (cfg : SizeRecovery) (s : Int) (hb : HostBlock)
    (m : Mem) (N : Int)
    (hN : m.g.g_memory_max_size = N) (hN0 : N ≠ 0)
    (hcount : m.g.g_memory_max_alloc_count = 0)
    (hexit : m.g.g_exit_when_out_of_memory = false)
    (ha : 0 ≤ m.g.g_memory_alloc_size)
    (hq : request_ok (s, hb) = true)
    (hr1 : m.g.g_memory_alloc_size + request_size cfg s < two63) :
    (m.g.g_memory_alloc_size + request_size cfg s > N →
      (single_thread_mode.allocate cfg (some hb) s m).outcome = .thrown) ∧
    (m.g.g_memory_alloc_size + request_size cfg s ≤ N →
      (single_thread_mode.allocate cfg (some hb) s m).outcome
        = .returned (user_pointer cfg hb) ∧
      (single_thread_mode.allocate cfg (some hb) s m).state.g.g_memory_max_size = N ∧
      (single_thread_mode.allocate cfg (some hb) s m).state.g.g_memory_max_alloc_count = 0 ∧
      (single_thread_mode.allocate cfg (some hb) s m).state.g.g_exit_when_out_of_memory
        = false ∧
      (m.g.g_memory_alloc_size + served_size cfg (s, hb) < two63 →
        (single_thread_mode.allocate cfg (some hb) s m).state.g.g_memory_alloc_size
          = m.g.g_memory_alloc_size + served_size cfg (s, hb))) := by
  obtain ⟨hs0, hs1, hu0, hu1⟩ := (request_ok_iff (s, hb)).mp hq
  have hrs := request_size_range cfg s hs0 hs1
  have hw : wrap64 (m.g.g_memory_alloc_size + request_size cfg s)
      = m.g.g_memory_alloc_size + request_size cfg s :=
    wrap64_of_range _ (by unfold two63; omega) hr1
  constructor
  · intro hgt
    simp only [single_thread_mode.allocate, check_limits_eq, hw, hN]
    rw [if_pos ⟨hN0, hgt⟩]
    simp [Result.andThen, raise_mark, hexit]
  · intro hle
    simp only [single_thread_mode.allocate, check_limits_eq, hw, hN, hcount]
    rw [if_neg (by omega), if_neg (by simp)]
    cases cfg
    · simp only [Result.andThen, raise_mark, user_pointer, served_size, hN, hcount, hexit,
        hw, wrap64_add_u64, true_and]
      intro hr2
      dsimp only at hu0 hu1 hs0 hs1
      have he : m.g.g_memory_alloc_size + request_size SizeRecovery.native s +
          (hb.usable - request_size SizeRecovery.native s)
          = m.g.g_memory_alloc_size + hb.usable := by ring
      rw [he]
      apply wrap64_of_range <;> unfold two63 at * <;> omega
    · simp only [Result.andThen, raise_mark, user_pointer, served_size, hN, hcount, hexit,
        hw, and_self, implies_true]

theorem allocate_outcomes_from (cfg : SizeRecovery) (N : Int) (hN0 : N ≠ 0) (hNhi : N < two63)
    (last : Int × HostBlock) (hlast : request_ok last = true) :
    ∀ (reqs : List (Int × HostBlock)) (m : Mem),
      m.g.g_memory_max_size = N →
      m.g.g_memory_max_alloc_count = 0 →
      m.g.g_exit_when_out_of_memory = false →
      0 ≤ m.g.g_memory_alloc_size →
      (∀ q ∈ reqs, request_ok q = true) →
      fits cfg N m.g.g_memory_alloc_size reqs = true →
      m.g.g_memory_alloc_size + served_total cfg reqs + request_size cfg last.1 < two63 →
      single_thread_mode.allocate_outcomes cfg (reqs ++ [last]) m
        = reqs.map (fun q => Outcome.returned (user_pointer cfg q.2)) ++
          [if m.g.g_memory_alloc_size + served_total cfg reqs + request_size cfg last.1 > N
            then Outcome.thrown else Outcome.returned (user_pointer cfg last.2)] := by
  intro reqs
  induction reqs with
  | nil =>
    intro m hN hcount hexit ha _ _ hrange
    simp only [served_total, List.map_nil, List.sum_nil, add_zero] at hrange
    have h := single_thread_allocate_served cfg last.1 last.2 m N hN hN0 hcount hexit ha
      hlast hrange
    simp only [List.nil_append, single_thread_mode.allocate_outcomes, served_total,
      List.map_nil, List.sum_nil, add_zero]
    by_cases hgt : m.g.g_memory_alloc_size + request_size cfg last.1 > N
    · rw [if_pos hgt, h.1 hgt]
    · rw [if_neg hgt, (h.2 (not_lt.mp hgt)).1]
  | cons q rest ih =>
    intro m hN hcount hexit ha hok hfit hrange
    obtain ⟨s, hb⟩ := q
    have hq := hok (s, hb) (List.mem_cons_self _ _)
    have hrest : ∀ x ∈ rest, request_ok x = true := fun x hx => hok x (List.mem_cons_of_mem _ hx)
    simp only [fits, Bool.and_eq_true, decide_eq_true_eq] at hfit
    obtain ⟨hle, hfit'⟩ := hfit
    have hsq := served_size_nonneg cfg (s, hb) hq
    have hst := served_total_nonneg cfg rest hrest
    obtain ⟨hl0, hl1, _, _⟩ := (request_ok_iff last).mp hlast
    have hrl := request_size_range cfg last.1 hl0 hl1
    have hsum : served_total cfg ((s, hb) :: rest)
        = served_size cfg (s, hb) + served_total cfg rest := by
      simp [served_total]
    rw [hsum] at hrange
    have h := (single_thread_allocate_served cfg s hb m N hN hN0 hcount hexit ha hq
      (by omega)).2 hle
    obtain ⟨hout, hN', hcount', hexit', hsize⟩ := h
    have hsize' := hsize (by omega)
    have ih' := ih (single_thread_mode.allocate cfg (some hb) s m).state hN' hcount' hexit'
      (by rw [hsize']; omega) hrest (by rw [hsize']; exact hfit')
      (by rw [hsize']; omega)
    show single_thread_mode.allocate_outcomes cfg ((s, hb) :: (rest ++ [last])) m = _
    rw [single_thread_mode.allocate_outcomes, hout, ih', hsize', hsum]
    simp only [List.map_cons, List.cons_append, add_assoc]

/-! ## The heap and the sum of the recovered sizes -/

theorem find_block_of_mem (heap : List Block) (b : Block)
    (hnd : (heap.map Block.ptr).Nodup) (hb : b ∈ heap) : find_block heap b.ptr = some b := by
  induction heap with
  | nil => cases hb
  | cons c rest ih =>
    simp only [List.map_cons, List.nodup_cons] at hnd
    simp only [find_block, List.find?_cons]
    by_cases hcb : c = b
    · subst hcb; simp
    · have hb' : b ∈ rest := by
        rcases List.mem_cons.mp hb with h | h
        · exact absurd h.symm hcb
        · exact h
      have hne : c.ptr ≠ b.ptr := by
        intro he
        exact hnd.1 (he ▸ List.mem_map_of_mem Block.ptr hb')
      have hbeq : (c.ptr == b.ptr) = false := by simpa using hne
      rw [hbeq]
      exact ih hnd.2 hb'

theorem real_pointer_user_pointer (cfg : SizeRecovery) (b : Block) :
    real_pointer cfg (block_user_pointer cfg b) = b.ptr := by
  cases cfg <;> simp [real_pointer, block_user_pointer, user_pointer]

theorem consumed_size_of_mem (cfg : SizeRecovery) (heap : List Block) (b : Block)
    (hnd : (heap.map Block.ptr).Nodup) (hb : b ∈ heap) :
    consumed_size cfg heap (block_user_pointer cfg b) = recovered_size cfg b := by
  have hf := find_block_of_mem heap b hnd hb
  cases cfg
  · simp [consumed_size, malloc_usable_size, block_user_pointer, user_pointer, hf,
      recovered_size]
  · have hr := real_pointer_user_pointer .header b
    simp [consumed_size, read_header, hr, hf, recovered_size]

theorem outstanding_bytes_eq (cfg : SizeRecovery) (heap : List Block)
    (hnd : (heap.map Block.ptr).Nodup) :
    outstanding_bytes cfg heap = (heap.map (recovered_size cfg)).sum := by
  unfold outstanding_bytes
  congr 1
  apply List.map_congr_left
  intro b hb
  exact consumed_size_of_mem cfg heap b hnd hb

theorem find_block_none (heap : List Block) (r : Nat) (h : find_block heap r = none) :
    ∀ b ∈ heap, b.ptr ≠ r := by
  intro b hb he
  have := List.find?_eq_none.mp h b hb
  simp [he] at this

theorem free_of_fresh (heap : List Block) (r : Nat) (h : ∀ b ∈ heap, b.ptr ≠ r) :
    free heap r = heap := by
  unfold free
  apply List.filter_eq_self.mpr
  intro b hb
  simpa using h b hb

theorem free_nodup (heap : List Block) (r : Nat) (hnd : (heap.map Block.ptr).Nodup) :
    ((free heap r).map Block.ptr).Nodup := by
  unfold free
  exact List.Nodup.sublist (List.Sublist.map _ (List.filter_sublist _)) hnd

theorem free_sum (cfg : SizeRecovery) (heap : List Block) (r : Nat) (b : Block)
    (hnd : (heap.map Block.ptr).Nodup) (hf : find_block heap r = some b) :
    ((free heap r).map (recovered_size cfg)).sum
      = (heap.map (recovered_size cfg)).sum - recovered_size cfg b := by
  induction heap with
  | nil => simp [find_block] at hf
  | cons c rest ih =>
    simp only [List.map_cons, List.nodup_cons] at hnd
    by_cases hc : c.ptr = r
    · have hbc : c = b := by
        simpa [find_block, List.find?_cons, hc] using hf
      subst hbc
      have hrest : ∀ x ∈ rest, x.ptr ≠ r := by
        intro x hx he
        exact hnd.1 (hc ▸ he ▸ List.mem_map_of_mem Block.ptr hx)
      have hfree : free (c :: rest) r = rest := by
        have h1 : free (c :: rest) r = free rest r := by
          simp [free, List.filter_cons, hc]
        rw [h1, free_of_fresh rest r hrest]
      rw [hfree]
      simp
    · have hf' : find_block rest r = some b := by
        have hbeq : (c.ptr == r) = false := by simpa using hc
        simpa [find_block, List.find?_cons, hbeq] using hf
      have hfree : free (c :: rest) r = c :: free rest r := by
        simp [free, List.filter_cons, hc]
      rw [hfree]
      simp only [List.map_cons, List.sum_cons, ih hnd.2 hf']
      ring

theorem malloc_heap_nodup (heap : List Block) (hb : HostBlock)
    (hnd : (heap.map Block.ptr).Nodup) (hfresh : find_block heap hb.ptr = none) :
    ((malloc_heap heap hb).map Block.ptr).Nodup := by
  simp only [malloc_heap, List.map_cons, List.nodup_cons]
  refine ⟨?_, hnd⟩
  intro hmem
  obtain ⟨b, hbm, hbe⟩ := List.mem_map.mp hmem
  exact find_block_none heap hb.ptr hfresh b hbm hbe

theorem write_header_malloc_heap (heap : List Block) (hb : HostBlock) (s : Int)
    (hfresh : find_block heap hb.ptr = none) :
    write_header (malloc_heap heap hb) hb.ptr s = ⟨hb.ptr, hb.usable, s⟩ :: heap := by
  simp only [write_header, malloc_heap, List.map_cons, beq_self_eq_true, if_true]
  have hmap : heap.map (fun b => if b.ptr == hb.ptr then { b with word0 := s } else b)
      = heap.map id := by
    apply List.map_congr_left
    intro b hbm
    have hne := find_block_none heap hb.ptr hfresh b hbm
    have hbeq : (b.ptr == hb.ptr) = false := by simpa using hne
    simp [hbeq]
  rw [hmap, List.map_id]

/-! ## Allocate and deallocate keep the accounting exact modulo 2^64 -/

/-- The heap an allocate that returned leaves. -/
theorem allocate_returned_heap (cfg : SizeRecovery) (heap : List Block) (hb : HostBlock)
    (s : Int) (hnd : (heap.map Block.ptr).Nodup) (hfresh : find_block heap hb.ptr = none) :
    (((match cfg with
        | .native => malloc_heap heap hb
        | .header => write_header (malloc_heap heap hb) hb.ptr (request_size cfg s)).map
          Block.ptr).Nodup) ∧
    ((match cfg with
        | .native => malloc_heap heap hb
        | .header => write_header (malloc_heap heap hb) hb.ptr (request_size cfg s)).map
          (recovered_size cfg)).sum
      = (heap.map (recovered_size cfg)).sum + served_size cfg (s, hb) := by
  cases cfg
  · refine ⟨malloc_heap_nodup heap hb hnd hfresh, ?_⟩
    simp [malloc_heap, recovered_size, served_size]
    ring
  · have hn := malloc_heap_nodup heap hb hnd hfresh
    simp only [write_header_malloc_heap heap hb _ hfresh]
    refine ⟨by simpa [malloc_heap] using hn, ?_⟩
    simp [recovered_size, served_size]
    ring

theorem Result.andThen_void_returned {α β : Type} (r : Result α) (k : Mem → Result β)
    (h : (r.andThen k).outcome.void = .returned ()) : r.andThen k = k r.state := by
  cases hr : r.outcome <;> simp [Result.andThen, hr, Outcome.void] at h ⊢

/-- The merge before the host call keeps the heap, keeps alloc_size plus
delta_size modulo 2^64, and keeps alloc_size a `long long`. -/
theorem synchronize_if_above_state (m : Mem) :
    (synchronize_if_above m).state.heap = m.heap ∧
    ((synchronize_if_above m).state.g.g_memory_alloc_size
      + (synchronize_if_above m).state.t.g_memory_thread_alloc_size
      - (m.g.g_memory_alloc_size + m.t.g_memory_thread_alloc_size)) % two64 = 0 ∧
    (-two63 ≤ m.g.g_memory_alloc_size → m.g.g_memory_alloc_size < two63 →
      -two63 ≤ (synchronize_if_above m).state.g.g_memory_alloc_size ∧
      (synchronize_if_above m).state.g.g_memory_alloc_size < two63) := by
  simp only [synchronize_if_above_eq, synchronize_counters_true]
  split_ifs <;> refine ⟨?_, ?_, ?_⟩ <;>
    simp only [throw_out_of_memory_state, merge_state, wrap64, two63, two64] <;> omega

/-- The three statements after the charge of the single-thread mode keep the
heap, alloc_size and the thread's delta. -/
theorem check_limits_state (m : Mem) :
    (single_thread_mode.check_limits m).state.heap = m.heap ∧
    (single_thread_mode.check_limits m).state.g.g_memory_alloc_size
      = m.g.g_memory_alloc_size ∧
    (single_thread_mode.check_limits m).state.t = m.t := by
  simp only [check_limits_eq]
  split_ifs <;> refine ⟨?_, ?_, ?_⟩ <;> simp only [throw_out_of_memory_state, raise_mark]

theorem thread_local_allocate_accounted (cfg : SizeRecovery) (hb : HostBlock) (s : Int)
    (m : Mem) (hacc : accounted .thread_local_version cfg m)
    (hfresh : find_block m.heap hb.ptr = none)
    (hret : (thread_local_version.allocate cfg (some hb) s m).outcome.void = .returned ()) :
    accounted .thread_local_version cfg
      (thread_local_version.allocate cfg (some hb) s m).state := by
  obtain ⟨hnd, hsum, hlo, hhi, _⟩ := hacc
  have hheap := allocate_returned_heap cfg m.heap hb s hnd hfresh
  unfold thread_local_version.allocate at hret ⊢
  simp only [] at hret ⊢
  rw [Result.andThen_void_returned _ _ hret]
  obtain ⟨h1, h2, h3⟩ := synchronize_if_above_state
    { m with
      t := { g_memory_thread_alloc_size :=
               wrap64 (m.t.g_memory_thread_alloc_size + request_size cfg s)
             g_memory_thread_alloc_count := wrap64 (m.t.g_memory_thread_alloc_count + 1) } }
  have h3' := h3 hlo hhi
  simp only [] at h1 h2 h3'
  cases cfg
  · simp only [accounted, h1, hheap.1, hheap.2, h3', served_size, true_and, and_true]
    refine ⟨?_, by simp⟩
    simp only [wrap64, u64, two63, two64] at *
    omega
  · simp only [accounted, h1, hheap.1, hheap.2, h3', served_size, true_and, and_true]
    refine ⟨?_, by simp⟩
    simp only [wrap64, u64, two63, two64] at *
    omega

theorem single_thread_allocate_accounted (cfg : SizeRecovery) (hb : HostBlock) (s : Int)
    (m : Mem) (hacc : accounted .single_thread_mode cfg m)
    (hfresh : find_block m.heap hb.ptr = none)
    (hret : (single_thread_mode.allocate cfg (some hb) s m).outcome.void = .returned ()) :
    accounted .single_thread_mode cfg
      (single_thread_mode.allocate cfg (some hb) s m).state := by
  obtain ⟨hnd, hsum, hlo, hhi, hzero⟩ := hacc
  have hz := hzero rfl
  have hheap := allocate_returned_heap cfg m.heap hb s hnd hfresh
  unfold single_thread_mode.allocate at hret ⊢
  simp only [] at hret ⊢
  rw [Result.andThen_void_returned _ _ hret]
  obtain ⟨h1, h2, h3⟩ := check_limits_state
    { m with
      g := { m.g with
        g_memory_alloc_size := wrap64 (m.g.g_memory_alloc_size + request_size cfg s)
        g_memory_alloc_count := wrap64 (m.g.g_memory_alloc_count + 1) } }
  simp only [] at h1 h2 h3
  cases cfg
  · simp only [accounted, h1, h2, h3, hz, hheap.1, hheap.2, served_size, true_and, and_true,
      implies_true]
    simp only [wrap64, u64, two63, two64] at *
    omega
  · simp only [accounted, h1, h2, h3, hz, hheap.1, hheap.2, served_size, true_and, and_true,
      implies_true]
    simp only [wrap64, u64, two63, two64] at *
    omega

theorem consumed_size_of_find (cfg : SizeRecovery) (heap : List Block) (p : Nat) (b : Block)
    (hf : find_block heap (real_pointer cfg p) = some b) :
    consumed_size cfg heap p = recovered_size cfg b := by
  cases cfg
  · simp only [real_pointer] at hf
    simp [consumed_size, malloc_usable_size, hf, recovered_size]
  · simp [consumed_size, read_header, hf, recovered_size]

theorem thread_local_deallocate_accounted (cfg : SizeRecovery) (p : Nat) (b : Block)
    (m : Mem) (hacc : accounted .thread_local_version cfg m)
    (hf : find_block m.heap (real_pointer cfg p) = some b) :
    accounted .thread_local_version cfg (thread_local_version.deallocate cfg p m).state := by
  obtain ⟨hnd, hsum, hlo, hhi, _⟩ := hacc
  have hs := free_sum cfg m.heap (real_pointer cfg p) b hnd hf
  have hn := free_nodup m.heap (real_pointer cfg p) hnd
  have hc := consumed_size_of_find cfg m.heap p b hf
  simp only [thread_local_version.deallocate, synchronize_counters_false]
  split_ifs <;>
    simp only [accounted, merge_state, hn, hs, hc, true_and] <;>
    refine ⟨?_, ?_, ?_, by simp⟩ <;>
    simp only [wrap64, u64, two63, two64] at * <;> omega

theorem single_thread_deallocate_accounted (cfg : SizeRecovery) (p : Nat) (b : Block)
    (m : Mem) (hacc : accounted .single_thread_mode cfg m)
    (hf : find_block m.heap (real_pointer cfg p) = some b) :
    accounted .single_thread_mode cfg (single_thread_mode.deallocate cfg p m).state := by
  obtain ⟨hnd, hsum, hlo, hhi, hzero⟩ := hacc
  have hz := hzero rfl
  have hs := free_sum cfg m.heap (real_pointer cfg p) b hnd hf
  have hn := free_nodup m.heap (real_pointer cfg p) hnd
  have hc := consumed_size_of_find cfg m.heap p b hf
  simp only [single_thread_mode.deallocate, accounted, hn, hs, hc, hz, true_and,
    implies_true, and_true]
  simp only [wrap64, u64, two63, two64] at *
  omega

theorem step_accounted (v : Variant) (cfg : SizeRecovery) (hk : Hooks) (op : Op) (m : Mem)
    (hacc : accounted v cfg m) (hok : call_ok cfg op m = true)
    (hret : (step v cfg hk op m).outcome = .returned ()) :
    accounted v cfg (step v cfg hk op m).state := by
  cases op with
  | allocate s host =>
    cases host with
    | none => simp [call_ok] at hok
    | some hb =>
      have hfresh : find_block m.heap hb.ptr = none := by
        simpa [call_ok] using hok
      cases v
      · exact thread_local_allocate_accounted cfg hb s m hacc hfresh hret
      · exact single_thread_allocate_accounted cfg hb s m hacc hfresh hret
  | deallocate p =>
    have hsome : (find_block m.heap (real_pointer cfg p)).isSome = true := by
      simp only [call_ok, Bool.and_eq_true] at hok
      exact hok.1
    obtain ⟨b, hf⟩ := Option.isSome_iff_exists.mp hsome
    cases v
    · exact thread_local_deallocate_accounted cfg p b m hacc hf
    · exact single_thread_deallocate_accounted cfg p b m hacc hf
  | init x => simp [call_ok] at hok
  | fini b => simp [call_ok] at hok
  | reallocate p s host => simp [call_ok] at hok
  | merge a => simp [call_ok] at hok
  | set_max_size x => simp [call_ok] at hok
  | set_max_alloc_count x => simp [call_ok] at hok
  | set_high_watermark x => simp [call_ok] at hok
  | exit_when_out_of_memory f t => simp [call_ok] at hok

theorem run_accounted (v : Variant) (cfg : SizeRecovery) (hk : Hooks) :
    ∀ (ops : List Op) (m : Mem), accounted v cfg m → all_served v cfg hk ops m = true →
      accounted v cfg (run v cfg hk ops m) := by
  intro ops
  induction ops with
  | nil => intro m hacc _; exact hacc
  | cons op rest ih =>
    intro m hacc hserved
    simp only [all_served, Bool.and_eq_true, decide_eq_true_eq] at hserved
    obtain ⟨⟨hok, hret⟩, hrest⟩ := hserved
    exact ih _ (step_accounted v cfg hk op m hacc hok hret) hrest

/-! ## The allocation count of the single-thread mode -/

theorem single_thread_allocate_count (cfg : SizeRecovery) (host : Option HostBlock) (s : Int)
    (m : Mem) :
    (single_thread_mode.allocate cfg host s m).state.g.g_memory_alloc_count
      = wrap64 (m.g.g_memory_alloc_count + 1) := by
  simp only [single_thread_mode.allocate, check_limits_eq]
  cases host <;> cases cfg <;> split_ifs <;>
    simp [Result.andThen, raise_mark] <;> split_ifs <;> simp

theorem single_thread_run_count (cfg : SizeRecovery) (hk : Hooks) :
    ∀ (ops : List Op) (m : Mem), all_served .single_thread_mode cfg hk ops m = true →
      wrap64 (run .single_thread_mode cfg hk ops m).g.g_memory_alloc_count
        = wrap64 (m.g.g_memory_alloc_count + (allocate_calls ops : Int)) := by
  intro ops
  induction ops with
  | nil =>
    intro m _
    simp only [run, allocate_calls, Nat.cast_zero, add_zero]
  | cons op rest ih =>
    intro m hserved
    simp only [all_served, Bool.and_eq_true, decide_eq_true_eq] at hserved
    obtain ⟨⟨hok, _⟩, hrest⟩ := hserved
    have h := ih _ hrest
    cases op with
    | allocate s host =>
      simp only [run, allocate_calls, step] at h ⊢
      rw [h]
      have hc := single_thread_allocate_count cfg host s m
      simp only [Result.void] at *
      rw [hc]
      push_cast
      simp only [wrap64, two63, two64]
      omega
    | deallocate p =>
      simp only [run, allocate_calls, step] at h ⊢
      rw [h]
      rfl
    | init x => simp [call_ok] at hok
    | fini b => simp [call_ok] at hok
    | reallocate p s host => simp [call_ok] at hok
    | merge a => simp [call_ok] at hok
    | set_max_size x => simp [call_ok] at hok
    | set_max_alloc_count x => simp [call_ok] at hok
    | set_high_watermark x => simp [call_ok] at hok
    | exit_when_out_of_memory f t => simp [call_ok] at hok

theorem synchronize_counters_alloc_size (allocating : Bool) (m : Mem) :
    (synchronize_counters allocating m).state.g.g_memory_alloc_size
      = wrap64 (m.g.g_memory_alloc_size + m.t.g_memory_thread_alloc_size) := by
  cases allocating
  · simp [synchronize_counters_false, merge_state]
  · rw [synchronize_counters_true]
    split_ifs <;> simp [merge_state]

/-! ## Allocates of the thread-local version that stay below the threshold -/

/-- One served allocate of the thread-local version whose charge keeps the
delta within the threshold: no merge, no check, the block is returned. -/
theorem thread_local_allocate_unmerged (cfg : SizeRecovery) (s : Int) (hb : HostBlock)
    (m : Mem)
    (ha : 0 ≤ m.t.g_memory_thread_alloc_size)
    (hq : request_ok (s, hb) = true)
    (hle : m.t.g_memory_thread_alloc_size + request_size cfg s ≤ SYNCH_THRESHOLD)
    (hr : m.t.g_memory_thread_alloc_size + served_size cfg (s, hb) < two63) :
    (thread_local_version.allocate cfg (some hb) s m).outcome
      = .returned (user_pointer cfg hb) ∧
    (thread_local_version.allocate cfg (some hb) s m).state.t.g_memory_thread_alloc_size
      = m.t.g_memory_thread_alloc_size + served_size cfg (s, hb) ∧
    (thread_local_version.allocate cfg (some hb) s m).state.g = m.g := by
  obtain ⟨hs0, hs1, hu0, hu1⟩ := (request_ok_iff (s, hb)).mp hq
  dsimp only at hs0 hs1 hu0 hu1
  have hrs := request_size_range cfg s hs0 hs1
  have hw : wrap64 (m.t.g_memory_thread_alloc_size + request_size cfg s)
      = m.t.g_memory_thread_alloc_size + request_size cfg s :=
    wrap64_of_range _ (by unfold two63; omega) (by unfold SYNCH_THRESHOLD two63 at *; omega)
  have hn : ¬ (m.t.g_memory_thread_alloc_size + request_size cfg s > SYNCH_THRESHOLD) := by
    omega
  simp only [thread_local_version.allocate, synchronize_if_above_eq, hw, if_neg hn]
  cases cfg
  · simp only [Result.andThen, user_pointer, served_size, wrap64_add_u64, true_and, and_true]
    simp only [served_size] at hr
    have he : m.t.g_memory_thread_alloc_size + request_size SizeRecovery.native s +
        (hb.usable - request_size SizeRecovery.native s)
        = m.t.g_memory_thread_alloc_size + hb.usable := by ring
    rw [he]
    apply wrap64_of_range <;> unfold two63 at * <;> omega
  · simp only [Result.andThen, user_pointer, served_size, and_self]

theorem thread_local_allocate_outcomes_unmerged (cfg : SizeRecovery) :
    ∀ (reqs : List (Int × HostBlock)) (m : Mem),
      0 ≤ m.t.g_memory_thread_alloc_size →
      (∀ q ∈ reqs, request_ok q = true) →
      fits cfg SYNCH_THRESHOLD m.t.g_memory_thread_alloc_size reqs = true →
      m.t.g_memory_thread_alloc_size + served_total cfg reqs < two63 →
      thread_local_version.allocate_outcomes cfg reqs m
        = reqs.map (fun q => Outcome.returned (user_pointer cfg q.2)) := by
  intro reqs
  induction reqs with
  | nil => intro m _ _ _ _; rfl
  | cons q rest ih =>
    intro m ha hok hfit hrange
    obtain ⟨s, hb⟩ := q
    have hq := hok (s, hb) (List.mem_cons_self _ _)
    have hrest : ∀ x ∈ rest, request_ok x = true := fun x hx => hok x (List.mem_cons_of_mem _ hx)
    simp only [fits, Bool.and_eq_true, decide_eq_true_eq] at hfit
    obtain ⟨hle, hfit'⟩ := hfit
    have hsq := served_size_nonneg cfg (s, hb) hq
    have hst := served_total_nonneg cfg rest hrest
    have hsum : served_total cfg ((s, hb) :: rest)
        = served_size cfg (s, hb) + served_total cfg rest := by
      simp [served_total]
    rw [hsum] at hrange
    obtain ⟨hout, hsize, _⟩ := thread_local_allocate_unmerged cfg s hb m ha hq hle (by omega)
    have ih' := ih (thread_local_version.allocate cfg (some hb) s m).state
      (by rw [hsize]; omega) hrest (by rw [hsize]; exact hfit') (by rw [hsize]; omega)
    rw [thread_local_version.allocate_outcomes, hout, ih']
    simp only [List.map_cons]

/-! ## The block a reallocate leaves -/

theorem consumed_size_realloc_native (heap : List Block) (rp : Nat) (hb : HostBlock) :
    consumed_size .native (realloc_heap heap rp hb) hb.ptr = hb.usable := by
  simp [consumed_size, malloc_usable_size, realloc_heap, find_block, List.find?_cons]

theorem consumed_size_realloc_header (heap : List Block) (rp : Nat) (hb : HostBlock)
    (s : Int) :
    consumed_size .header (write_header (realloc_heap heap rp hb) hb.ptr s) (hb.ptr + 8)
      = s := by
  simp [consumed_size, read_header, real_pointer, write_header, realloc_heap, find_block,
    List.find?_cons]

theorem thread_local_reallocate_returned (cfg : SizeRecovery) (hb : HostBlock) (p : Nat)
    (s : Int) (m : Mem) (q : Nat)
    (hreach : ¬ (cfg = .native ∧ consumed_size cfg m.heap p ≥ s))
    (hret : (thread_local_version.reallocate cfg (some hb) p s m).outcome = .returned q) :
    q = user_pointer cfg hb ∧
    consumed_size cfg (thread_local_version.reallocate cfg (some hb) p s m).state.heap q
      = served_size cfg (s, hb) ∧
    ((thread_local_version.reallocate cfg (some hb) p s m).state.g.g_memory_alloc_size
      + (thread_local_version.reallocate cfg (some hb) p s m).state.t.g_memory_thread_alloc_size
      - (m.g.g_memory_alloc_size + m.t.g_memory_thread_alloc_size
          + (served_size cfg (s, hb) - consumed_size cfg m.heap p))) % two64 = 0 := by
  have hv : (thread_local_version.reallocate cfg (some hb) p s m).outcome.void
      = .returned () := by rw [hret]; rfl
  unfold thread_local_version.reallocate at hret hv ⊢
  simp only [if_neg hreach] at hret hv ⊢
  have he := Result.andThen_void_returned _ _ hv
  rw [he] at hret ⊢
  obtain ⟨h1, h2, _⟩ := synchronize_if_above_state
    { m with
      t := { g_memory_thread_alloc_size :=
               wrap64 (m.t.g_memory_thread_alloc_size
                 + u64 (request_size cfg s - consumed_size cfg m.heap p))
             g_memory_thread_alloc_count := wrap64 (m.t.g_memory_thread_alloc_count + 1) } }
  simp only [] at h1 h2
  cases cfg
  · simp only [Outcome.returned.injEq] at hret
    refine ⟨by rw [← hret]; rfl, ?_, ?_⟩
    · rw [← hret]
      simp only [h1, served_size]
      exact consumed_size_realloc_native _ _ _
    · simp only [served_size]
      simp only [wrap64, u64, two63, two64] at *
      omega
  · simp only [Outcome.returned.injEq] at hret
    refine ⟨by rw [← hret]; rfl, ?_, ?_⟩
    · rw [← hret]
      simp only [h1, served_size]
      exact consumed_size_realloc_header _ _ _ _
    · simp only [served_size]
      simp only [wrap64, u64, two63, two64] at *
      omega

theorem thread_local_reallocate_unmerged (cfg : SizeRecovery) (hb : HostBlock) (p : Nat)
    (s : Int) (m : Mem)
    (hreach : ¬ (cfg = .native ∧ consumed_size cfg m.heap p ≥ s))
    (hle : wrap64 (m.t.g_memory_thread_alloc_size
      + u64 (request_size cfg s - consumed_size cfg m.heap p)) ≤ SYNCH_THRESHOLD) :
    (thread_local_version.reallocate cfg (some hb) p s m).state.g = m.g ∧
    (thread_local_version.reallocate cfg (some hb) p s m).state.t.g_memory_thread_alloc_size
      = wrap64 (m.t.g_memory_thread_alloc_size
          + (served_size cfg (s, hb) - consumed_size cfg m.heap p)) := by
  simp only [thread_local_version.reallocate, if_neg hreach, synchronize_if_above_eq,
    if_neg (not_lt.mpr hle)]
  cases cfg
  · simp only [Result.andThen, served_size, true_and]
    simp only [wrap64, u64, two63, two64]
    omega
  · simp only [Result.andThen, served_size, true_and]
    simp only [wrap64, u64, two63, two64]
    omega

theorem single_thread_reallocate_returned (cfg : SizeRecovery) (hb : HostBlock) (p : Nat)
    (s : Int) (m : Mem) (q : Nat)
    (hreach : ¬ (cfg = .native ∧ consumed_size cfg m.heap p ≥ s))
    (hret : (single_thread_mode.reallocate cfg (some hb) p s m).outcome = .returned q) :
    q = user_pointer cfg hb ∧
    consumed_size cfg (single_thread_mode.reallocate cfg (some hb) p s m).state.heap q
      = served_size cfg (s, hb) ∧
    (single_thread_mode.reallocate cfg (some hb) p s m).state.g.g_memory_alloc_size
      = wrap64 (m.g.g_memory_alloc_size
          + (served_size cfg (s, hb) - consumed_size cfg m.heap p)) := by
  have hv : (single_thread_mode.reallocate cfg (some hb) p s m).outcome.void
      = .returned () := by rw [hret]; rfl
  unfold single_thread_mode.reallocate at hret hv ⊢
  simp only [if_neg hreach] at hret hv ⊢
  have he := Result.andThen_void_returned _ _ hv
  rw [he] at hret ⊢
  obtain ⟨h1, h2, _⟩ := check_limits_state
    { m with
      g := { m.g with
        g_memory_alloc_size :=
          wrap64 (m.g.g_memory_alloc_size
            + u64 (request_size cfg s - consumed_size cfg m.heap p))
        g_memory_alloc_count := wrap64 (m.g.g_memory_alloc_count + 1) } }
  simp only [] at h1 h2
  cases cfg
  · simp only [Outcome.returned.injEq] at hret
    refine ⟨by rw [← hret]; rfl, ?_, ?_⟩
    · rw [← hret]
      simp only [h1, served_size]
      exact consumed_size_realloc_native _ _ _
    · simp only [served_size, h2]
      simp only [wrap64, u64, two63, two64] at *
      omega
  · simp only [Outcome.returned.injEq] at hret
    refine ⟨by rw [← hret]; rfl, ?_, ?_⟩
    · rw [← hret]
      simp only [h1, served_size]
      exact consumed_size_realloc_header _ _ _ _
    · simp only [served_size, h2]
      simp only [wrap64, u64, two63, two64] at *
      omega

/-! ## The two build variants without limits -/

theorem step_bytes_agree (cfg : SizeRecovery) (hk : Hooks) (op : Op) (ms mt : Mem)
    (hagree : bytes_agree ms mt) (hop : host_serves op = true) :
    bytes_agree (step .single_thread_mode cfg hk op ms).state
      (step .thread_local_version cfg hk op mt).state := by
  obtain ⟨hheap, hsize, hs1, hs2, ht1, ht2⟩ := hagree
  cases op with
  | allocate s host =>
    cases host with
    | none => simp [host_serves] at hop
    | some hb =>
      simp only [step, Result.void, single_thread_mode.allocate, thread_local_version.allocate]
      simp only [check_limits_eq, synchronize_if_above_eq, synchronize_counters_true,
        hs1, hs2, ht1, ht2, ne_eq, not_true_eq_false, false_and, if_false]
      simp only [Result.andThen, raise_mark, merge_state, bytes_agree]
      cases cfg <;> split_ifs <;>
        simp only [hheap, hs1, hs2, ht1, ht2, hsize, true_and, and_true] <;>
        simp only [wrap64, u64, two63, two64] <;> omega
  | deallocate p =>
    simp only [step, single_thread_mode.deallocate, thread_local_version.deallocate,
      synchronize_counters_false, hheap]
    split_ifs <;>
      simp only [merge_state, bytes_agree, hs1, hs2, ht1, ht2, hsize, true_and, and_true] <;>
      simp only [wrap64, u64, two63, two64] <;> omega
  | reallocate p s host =>
    cases host with
    | none => simp [host_serves] at hop
    | some hb =>
      simp only [step, Result.void, single_thread_mode.reallocate,
        thread_local_version.reallocate, hheap]
      by_cases he : cfg = .native ∧ consumed_size cfg mt.heap p ≥ s
      · simp only [if_pos he]
        exact ⟨hheap, hsize, hs1, hs2, ht1, ht2⟩
      · simp only [if_neg he]
        simp only [check_limits_eq, synchronize_if_above_eq, synchronize_counters_true,
          hs1, hs2, ht1, ht2, ne_eq, not_true_eq_false, false_and, if_false]
        simp only [Result.andThen, raise_mark, merge_state, bytes_agree]
        cases cfg <;> split_ifs <;>
          simp only [hheap, hs1, hs2, ht1, ht2, hsize, true_and, and_true] <;>
          simp only [wrap64, u64, two63, two64] <;> omega
  | init x => simp [host_serves] at hop
  | fini b => simp [host_serves] at hop
  | merge a => simp [host_serves] at hop
  | set_max_size x => simp [host_serves] at hop
  | set_max_alloc_count x => simp [host_serves] at hop
  | set_high_watermark x => simp [host_serves] at hop
  | exit_when_out_of_memory f t => simp [host_serves] at hop

theorem run_bytes_agree (cfg : SizeRecovery) (hk : Hooks) :
    ∀ (ops : List Op) (ms mt : Mem), bytes_agree ms mt →
      (∀ op ∈ ops, host_serves op = true) →
      bytes_agree (run .single_thread_mode cfg hk ops ms)
        (run .thread_local_version cfg hk ops mt) := by
  intro ops
  induction ops with
  | nil => intro ms mt h _; exact h
  | cons op rest ih =>
    intro ms mt h hops
    exact ih _ _ (step_bytes_agree cfg hk op ms mt h (hops op (List.mem_cons_self _ _)))
      (fun x hx => hops x (List.mem_cons_of_mem _ hx))

/-! ## Several threads -/

theorem sum_map_set (f : ThreadCounters → Int) :
    ∀ (l : List ThreadCounters) (i : Nat) (x : ThreadCounters), i < l.length →
      ((l.set i x).map f).sum = (l.map f).sum - f (l.getD i ⟨0, 0⟩) + f x := by
  intro l
  induction l with
  | nil => intro i x h; simp at h
  | cons a rest ih =>
    intro i x h
    cases i with
    | zero => simp [List.set]; ring
    | succ j =>
      have hj : j < rest.length := by simpa using h
      simp only [List.set, List.map_cons, List.sum_cons, List.getD_cons_succ, ih j x hj]
      ring

/-- A served allocate or deallocate of the thread-local version keeps the
live addresses distinct, keeps alloc_size a `long long`, and changes
alloc_size + delta_size by what it changes the sum of the recovered sizes of
the live blocks by, modulo 2^64. -/
theorem thread_local_step_gap (cfg : SizeRecovery) (hk : Hooks) (op : Op) (m : Mem)
    (hnd : (m.heap.map Block.ptr).Nodup)
    (hok : call_ok cfg op m = true)
    (hret : (step .thread_local_version cfg hk op m).outcome = .returned ()) :
    ((step .thread_local_version cfg hk op m).state.heap.map Block.ptr).Nodup ∧
    (((step .thread_local_version cfg hk op m).state.g.g_memory_alloc_size
        + (step .thread_local_version cfg hk op m).state.t.g_memory_thread_alloc_size
        - ((step .thread_local_version cfg hk op m).state.heap.map (recovered_size cfg)).sum)
      - (m.g.g_memory_alloc_size + m.t.g_memory_thread_alloc_size
        - (m.heap.map (recovered_size cfg)).sum)) % two64 = 0 ∧
    (-two63 ≤ m.g.g_memory_alloc_size → m.g.g_memory_alloc_size < two63 →
      -two63 ≤ (step .thread_local_version cfg hk op m).state.g.g_memory_alloc_size ∧
      (step .thread_local_version cfg hk op m).state.g.g_memory_alloc_size < two63) := by
  cases op with
  | allocate s host =>
    cases host with
    | none => simp [call_ok] at hok
    | some hb =>
      have hfresh : find_block m.heap hb.ptr = none := by
        simpa [call_ok] using hok
      have hheap := allocate_returned_heap cfg m.heap hb s hnd hfresh
      have hv : (thread_local_version.allocate cfg (some hb) s m).outcome.void
          = .returned () := hret
      simp only [step, Result.void]
      unfold thread_local_version.allocate at hv ⊢
      simp only [] at hv ⊢
      rw [Result.andThen_void_returned _ _ hv]
      obtain ⟨h1, h2, h3⟩ := synchronize_if_above_state
        { m with
          t := { g_memory_thread_alloc_size :=
                   wrap64 (m.t.g_memory_thread_alloc_size + request_size cfg s)
                 g_memory_thread_alloc_count :=
                   wrap64 (m.t.g_memory_thread_alloc_count + 1) } }
      simp only [] at h1 h2 h3
      cases cfg
      · simp only [h1, hheap.1, hheap.2, served_size, true_and]
        refine ⟨?_, h3⟩
        simp only [wrap64, u64, two63, two64] at *
        omega
      · simp only [h1, hheap.1, hheap.2, served_size, true_and]
        refine ⟨?_, h3⟩
        simp only [wrap64, u64, two63, two64] at *
        omega
  | deallocate p =>
    have hsome : (find_block m.heap (real_pointer cfg p)).isSome = true := by
      simp only [call_ok, Bool.and_eq_true] at hok
      exact hok.1
    obtain ⟨b, hf⟩ := Option.isSome_iff_exists.mp hsome
    have hs := free_sum cfg m.heap (real_pointer cfg p) b hnd hf
    have hn := free_nodup m.heap (real_pointer cfg p) hnd
    have hc := consumed_size_of_find cfg m.heap p b hf
    simp only [step, thread_local_version.deallocate, synchronize_counters_false]
    split_ifs <;>
      simp only [merge_state, hn, hs, hc, true_and] <;>
      refine ⟨?_, ?_⟩ <;>
      simp only [wrap64, u64, two63, two64] at * <;> omega
  | init x => simp [call_ok] at hok
  | fini b => simp [call_ok] at hok
  | reallocate p s host => simp [call_ok] at hok
  | merge a => simp [call_ok] at hok
  | set_max_size x => simp [call_ok] at hok
  | set_max_alloc_count x => simp [call_ok] at hok
  | set_high_watermark x => simp [call_ok] at hok
  | exit_when_out_of_memory f t => simp [call_ok] at hok

/-- The invariant of an interleaving that started with alloc_size + deltas
minus live bytes equal to `c`: distinct live addresses, the same balance
modulo 2^64, alloc_size a `long long`. -/
theorem thread_step_balance (cfg : SizeRecovery) (hk : Hooks) (i : Nat) (op : Op)
    (P : Process) (c : Int)
    (hnd : (P.heap.map Block.ptr).Nodup)
    (hbal : (P.g.g_memory_alloc_size + P.delta_total
      - (P.heap.map (recovered_size cfg)).sum - c) % two64 = 0)
    (hlo : -two63 ≤ P.g.g_memory_alloc_size) (hhi : P.g.g_memory_alloc_size < two63)
    (hi : i < P.threads.length)
    (hok : call_ok cfg op (P.view i) = true)
    (hret : (thread_step cfg hk i op P).2 = .returned ()) :
    (((thread_step cfg hk i op P).1).heap.map Block.ptr).Nodup ∧
    (((thread_step cfg hk i op P).1).g.g_memory_alloc_size
      + ((thread_step cfg hk i op P).1).delta_total
      - (((thread_step cfg hk i op P).1).heap.map (recovered_size cfg)).sum - c) % two64 = 0 ∧
    -two63 ≤ ((thread_step cfg hk i op P).1).g.g_memory_alloc_size ∧
    ((thread_step cfg hk i op P).1).g.g_memory_alloc_size < two63 ∧
    ((thread_step cfg hk i op P).1).threads.length = P.threads.length := by
  obtain ⟨h1, h2, h3⟩ := thread_local_step_gap cfg hk op (P.view i) hnd hok hret
  have h3' := h3 hlo hhi
  have hsum := sum_map_set ThreadCounters.g_memory_thread_alloc_size P.threads i
    (step .thread_local_version cfg hk op (P.view i)).state.t hi
  simp only [thread_step, Process.delta_total, Process.view, List.length_set] at *
  refine ⟨h1, ?_, h3'.1, h3'.2, trivial⟩
  rw [hsum]
  simp only [two64] at *
  omega

theorem run_threads_balance (cfg : SizeRecovery) (hk : Hooks) (c : Int) :
    ∀ (sched : List (Nat × Op)) (P : Process),
      (P.heap.map Block.ptr).Nodup →
      (P.g.g_memory_alloc_size + P.delta_total
        - (P.heap.map (recovered_size cfg)).sum - c) % two64 = 0 →
      -two63 ≤ P.g.g_memory_alloc_size → P.g.g_memory_alloc_size < two63 →
      threads_served cfg hk sched P = true →
      ((run_threads cfg hk sched P).g.g_memory_alloc_size
        + (run_threads cfg hk sched P).delta_total
        - ((run_threads cfg hk sched P).heap.map (recovered_size cfg)).sum - c) % two64 = 0 ∧
      -two63 ≤ (run_threads cfg hk sched P).g.g_memory_alloc_size ∧
      (run_threads cfg hk sched P).g.g_memory_alloc_size < two63 := by
  intro sched
  induction sched with
  | nil => intro P _ hbal hlo hhi _; exact ⟨hbal, hlo, hhi⟩
  | cons a rest ih =>
    intro P hnd hbal hlo hhi hserved
    obtain ⟨i, op⟩ := a
    simp only [threads_served, Bool.and_eq_true, decide_eq_true_eq] at hserved
    obtain ⟨⟨⟨hi, hok⟩, hret⟩, hrest⟩ := hserved
    obtain ⟨h1, h2, h3, h4, _⟩ :=
      thread_step_balance cfg hk i op P c hnd hbal hlo hhi hi hok hret
    exact ih _ h1 h2 h3 h4 hrest

theorem delta_total_zero (P : Process)
    (h : ∀ t ∈ P.threads, t.g_memory_thread_alloc_size = 0) : P.delta_total = 0 := by
  unfold Process.delta_total
  apply List.sum_eq_zero
  intro x hx
  obtain ⟨t, ht, hxt⟩ := List.mem_map.mp hx
  rw [← hxt]
  exact h t ht

/-! ## The loops of `elim_unused_vars` -/

theorem for_loop_empty {α : Type} (body : Nat → α → α) (lo hi : Nat) (st : α)
    (h : hi ≤ lo) : for_loop body lo hi st = st := by
  unfold for_loop
  rw [Nat.sub_eq_zero_of_le h]
  rfl

theorem for_loop_succ {α : Type} (body : Nat → α → α) (lo hi : Nat) (st : α)
    (h : lo ≤ hi) : for_loop body lo (hi + 1) st = body hi (for_loop body lo hi st) := by
  unfold for_loop
  have h1 : hi + 1 - lo = (hi - lo) + 1 := by omega
  have h2 : lo + (hi - lo) = hi := by omega
  rw [h1, List.range'_1_concat, List.foldl_append, h2]
  rfl

theorem used_below_zero {σ : Type} (used : used_vars σ) : used_below used 0 = 0 := rfl

theorem used_below_succ {σ : Type} (used : used_vars σ) (i : Nat) :
    used_below used (i + 1)
      = used_below used i + (if (used.contains i).isSome then 1 else 0) := by
  unfold used_below
  rw [List.range_succ, List.filter_append, List.length_append]
  by_cases h : (used.contains i).isSome = true <;> simp [List.filter_cons, h]

theorem used_below_le {σ : Type} (used : used_vars σ) (i : Nat) : used_below used i ≤ i := by
  induction i with
  | zero => simp [used_below_zero]
  | succ k ih =>
    rw [used_below_succ]
    split_ifs <;> omega

theorem used_below_mono {σ : Type} (used : used_vars σ) (i j : Nat) (h : i ≤ j) :
    used_below used i ≤ used_below used j := by
  induction j with
  | zero =>
    have : i = 0 := by omega
    rw [this]
  | succ k ih =>
    by_cases hk : i ≤ k
    · have := ih hk
      rw [used_below_succ]
      omega
    · have : i = k + 1 := by omega
      rw [this]

theorem used_below_lt {σ : Type} (used : used_vars σ) (i j : Nat) (h : i < j)
    (hi : (used.contains i).isSome = true) : used_below used i < used_below used j := by
  have h1 := used_below_mono used (i + 1) j h
  rw [used_below_succ, if_pos hi] at h1
  omega

/-- The loop over the bound variables, run up to `k`. -/
theorem map_bound_loop {σ ν : Type} (used : used_vars σ) (l0 : elim_unused_vars.locals σ ν)
    (h0 : l0.next_idx = 0) (hr : l0.num_removed = 0) :
    ∀ k : Nat, (k : Int) < 4294967296 →
      (for_loop (elim_unused_vars.map_bound used) 0 k l0).var_mapping
        = l0.var_mapping ++ (List.range k).map (fun i =>
            (used.contains i).map (fun s => (⟨(used_below used i : Int), s⟩ : var σ))) ∧
      (for_loop (elim_unused_vars.map_bound used) 0 k l0).next_idx
        = wrap32 (used_below used k : Int) ∧
      (for_loop (elim_unused_vars.map_bound used) 0 k l0).num_removed
        = (k : Int) - (used_below used k : Int) ∧
      (for_loop (elim_unused_vars.map_bound used) 0 k l0).used_decl_sorts
        = l0.used_decl_sorts ∧
      (for_loop (elim_unused_vars.map_bound used) 0 k l0).used_decl_names
        = l0.used_decl_names := by
  intro k
  induction k with
  | zero =>
    intro _
    rw [for_loop_empty _ _ _ _ (Nat.le_refl 0)]
    simp [h0, hr, used_below_zero, wrap32]
  | succ k ih =>
    intro hk
    obtain ⟨hvm, hnext, hrem, hs, hn⟩ := ih (by omega)
    have hle := used_below_le used k
    rw [for_loop_succ _ _ _ _ (Nat.zero_le k)]
    cases hc : used.contains k with
    | none =>
      simp only [elim_unused_vars.map_bound, hc, hvm, hnext, hrem, hs, hn,
        List.range_succ, List.map_append, List.map_cons, List.map_nil, Option.map_none',
        List.append_assoc, used_below_succ, Option.isSome_none, true_and, and_true]
      refine ⟨?_, ?_⟩
      · simp
      · simp only [u32]
        push_cast
        omega
    | some s =>
      simp only [elim_unused_vars.map_bound, hc, hvm, hnext, hrem, hs, hn,
        List.range_succ, List.map_append, List.map_cons, List.map_nil, Option.map_some',
        List.append_assoc, used_below_succ, Option.isSome_some, if_true, and_true]
      refine ⟨?_, ?_, ?_⟩
      · have hu : u32 (wrap32 (used_below used k : Int)) = (used_below used k : Int) := by
          simp only [u32, wrap32]
          omega
        rw [hu]
      · simp only [wrap32]
        push_cast
        omega
      · push_cast
        omega

/-- The loop over the free variables, run over `d` indices from `n`. -/
theorem map_free_loop {σ ν : Type} (used : used_vars σ) (l : elim_unused_vars.locals σ ν)
    (n : Nat) (hr0 : 0 ≤ l.num_removed) (hrn : l.num_removed ≤ (n : Int)) :
    ∀ d : Nat, ((n + d : Nat) : Int) ≤ 4294967296 →
      (for_loop (elim_unused_vars.map_free used) n (n + d) l).var_mapping
        = l.var_mapping ++ (List.range' n d).map (fun i =>
            (used.contains i).map (fun s => (⟨(i : Int) - l.num_removed, s⟩ : var σ))) ∧
      (for_loop (elim_unused_vars.map_free used) n (n + d) l).num_removed = l.num_removed ∧
      (for_loop (elim_unused_vars.map_free used) n (n + d) l).used_decl_sorts
        = l.used_decl_sorts ∧
      (for_loop (elim_unused_vars.map_free used) n (n + d) l).used_decl_names
        = l.used_decl_names := by
  intro d
  induction d with
  | zero =>
    intro _
    rw [Nat.add_zero, for_loop_empty _ _ _ _ (Nat.le_refl n)]
    simp
  | succ d ih =>
    intro hd
    obtain ⟨hvm, hrem, hs, hn⟩ := ih (by push_cast at hd ⊢; omega)
    rw [← Nat.add_assoc, for_loop_succ _ _ _ _ (Nat.le_add_right n d)]
    cases hc : used.contains (n + d) with
    | none =>
      simp only [elim_unused_vars.map_free, hc, hvm, hrem, hs, hn, List.range'_1_concat,
        List.map_append, List.map_cons, List.map_nil, Option.map_none', List.append_assoc,
        and_self]
    | some s =>
      simp only [elim_unused_vars.map_free, hc, hvm, hrem, hs, hn, List.range'_1_concat,
        List.map_append, List.map_cons, List.map_nil, Option.map_some', List.append_assoc,
        and_true]
      have hu : u32 (((n + d : Nat) : Int) - l.num_removed)
          = ((n + d : Nat) : Int) - l.num_removed := by
        simp only [u32]
        push_cast at hd ⊢
        omega
      rw [hu]

theorem filter_reflect_length (p : Nat → Bool) :
    ∀ n : Nat, ((List.range n).filter (fun i => p (n - i - 1))).length
      = ((List.range n).filter p).length := by
  intro n
  induction n with
  | zero => rfl
  | succ n ih =>
    have hl : ((List.range (n + 1)).filter (fun i => p (n + 1 - i - 1))).length
        = (if p n then 1 else 0)
          + ((List.range n).filter (fun i => p (n - i - 1))).length := by
      have hf : ((fun i => p (n + 1 - i - 1)) ∘ Nat.succ) = (fun i => p (n - i - 1)) := by
        funext i
        simp only [Function.comp, Nat.succ_eq_add_one]
        congr 1
        omega
      have h0 : n + 1 - 0 - 1 = n := by omega
      rw [List.range_succ_eq_map, List.filter_cons, List.filter_map, hf, h0]
      by_cases hp : p n = true
      · rw [if_pos hp, if_pos hp, List.length_cons, List.length_map]
        omega
      · rw [if_neg hp, if_neg hp, List.length_map]
        omega
    have hrt : ((List.range (n + 1)).filter p).length
        = ((List.range n).filter p).length + (if p n then 1 else 0) := by
      rw [List.range_succ, List.filter_append, List.length_append]
      by_cases hp : p n = true <;> simp [List.filter_cons, hp]
    rw [hl, hrt, ih]
    omega

/-- The loop that collects the declarations that stay, run up to `k`. -/
theorem keep_decl_loop {σ ν : Type} (q : quantifier σ ν) (used : used_vars σ)
    (l0 : elim_unused_vars.locals σ ν) :
    ∀ k : Nat,
      (for_loop (elim_unused_vars.keep_decl q used) 0 k l0).used_decl_sorts
        = l0.used_decl_sorts ++ ((List.range k).filter (fun i =>
            (used.contains (q.get_num_decls - i - 1)).isSome)).map q.get_decl_sort ∧
      (for_loop (elim_unused_vars.keep_decl q used) 0 k l0).used_decl_names
        = l0.used_decl_names ++ ((List.range k).filter (fun i =>
            (used.contains (q.get_num_decls - i - 1)).isSome)).map q.get_decl_name ∧
      (for_loop (elim_unused_vars.keep_decl q used) 0 k l0).num_removed = l0.num_removed ∧
      (for_loop (elim_unused_vars.keep_decl q used) 0 k l0).var_mapping = l0.var_mapping ∧
      (for_loop (elim_unused_vars.keep_decl q used) 0 k l0).next_idx = l0.next_idx := by
  intro k
  induction k with
  | zero =>
    rw [for_loop_empty _ _ _ _ (Nat.le_refl 0)]
    simp
  | succ k ih =>
    obtain ⟨hs, hn, hr, hvm, hnx⟩ := ih
    rw [for_loop_succ _ _ _ _ (Nat.zero_le k)]
    by_cases hc : (used.contains (q.get_num_decls - k - 1)).isSome = true
    · simp [elim_unused_vars.keep_decl, hc, hs, hn, hr, hvm, hnx, List.range_succ,
        List.filter_append, List.filter_cons]
    · simp [elim_unused_vars.keep_decl, hc, hs, hn, hr, hvm, hnx, List.range_succ,
        List.filter_append, List.filter_cons]

theorem used_add_unused_below {σ : Type} (used : used_vars σ) (i : Nat) :
    used_below used i + unused_below used i = i := by
  induction i with
  | zero => rfl
  | succ k ih =>
    have hu : unused_below used (k + 1)
        = unused_below used k + (if (used.contains k).isNone then 1 else 0) := by
      unfold unused_below
      rw [List.range_succ, List.filter_append, List.length_append]
      by_cases h : (used.contains k).isNone = true <;> simp [List.filter_cons, h]
    rw [used_below_succ, hu]
    cases hc : used.contains k <;> simp <;> omega

/-- The locals after the three loops, in closed form. -/
theorem build_closed_form {σ ν : Type} (q : quantifier σ ν) (used : used_vars σ)
    (hdecls : (q.get_num_decls : Int) < 4294967296)
    (hsz : (used.get_max_found_var_idx_plus_1 : Int) < 4294967296) :
    (elim_unused_vars.build q used).var_mapping
      = (List.range q.get_num_decls).map (fun i =>
          (used.contains i).map (fun s => (⟨(used_below used i : Int), s⟩ : var σ)))
        ++ (List.range' q.get_num_decls
            (used.get_max_found_var_idx_plus_1 - q.get_num_decls)).map (fun i =>
          (used.contains i).map (fun s =>
            (⟨(i : Int) - (unused_below used q.get_num_decls : Int), s⟩ : var σ))) ∧
    (elim_unused_vars.build q used).num_removed = (unused_below used q.get_num_decls : Int) ∧
    (elim_unused_vars.build q used).used_decl_sorts.length = used_below used q.get_num_decls ∧
    (elim_unused_vars.build q used).used_decl_names.length
      = used_below used q.get_num_decls := by
  have hsum := used_add_unused_below used q.get_num_decls
  obtain ⟨k1s, k1n, k1r, k1vm, k1nx⟩ :=
    keep_decl_loop q used (elim_unused_vars.locals.init) q.get_num_decls
  obtain ⟨b_vm, _, b_r, b_s, b_n⟩ :=
    map_bound_loop used
      (for_loop (elim_unused_vars.keep_decl q used) 0 q.get_num_decls
        elim_unused_vars.locals.init)
      (by rw [k1nx]; rfl) (by rw [k1r]; rfl) q.get_num_decls hdecls
  have hrem : (for_loop (elim_unused_vars.map_bound used) 0 q.get_num_decls
      (for_loop (elim_unused_vars.keep_decl q used) 0 q.get_num_decls
        elim_unused_vars.locals.init)).num_removed
      = (unused_below used q.get_num_decls : Int) := by
    rw [b_r]; omega
  have hcount : ((List.range q.get_num_decls).filter (fun i =>
      (used.contains (q.get_num_decls - i - 1)).isSome)).length
      = used_below used q.get_num_decls :=
    filter_reflect_length (fun j => (used.contains j).isSome) q.get_num_decls
  by_cases hle : used.get_max_found_var_idx_plus_1 ≤ q.get_num_decls
  · simp only [elim_unused_vars.build]
    rw [for_loop_empty _ _ _ _ hle, Nat.sub_eq_zero_of_le hle]
    refine ⟨?_, hrem, ?_, ?_⟩
    · rw [b_vm, k1vm]; simp [elim_unused_vars.locals.init]
    · rw [b_s, k1s]; simp [elim_unused_vars.locals.init, hcount]
    · rw [b_n, k1n]; simp [elim_unused_vars.locals.init, hcount]
  · obtain ⟨d, hd⟩ : ∃ d, used.get_max_found_var_idx_plus_1 = q.get_num_decls + d :=
      ⟨used.get_max_found_var_idx_plus_1 - q.get_num_decls, by omega⟩
    obtain ⟨f_vm, f_r, f_s, f_n⟩ :=
      map_free_loop used
        (for_loop (elim_unused_vars.map_bound used) 0 q.get_num_decls
          (for_loop (elim_unused_vars.keep_decl q used) 0 q.get_num_decls
            elim_unused_vars.locals.init))
        q.get_num_decls (by rw [hrem]; omega) (by rw [hrem]; omega) d
        (by rw [← hd]; omega)
    simp only [elim_unused_vars.build]
    rw [hd, Nat.add_sub_cancel_left]
    refine ⟨?_, ?_, ?_, ?_⟩
    · rw [f_vm, b_vm, k1vm, hrem]; simp [elim_unused_vars.locals.init]
    · rw [f_r, hrem]
    · rw [f_s, b_s, k1s]; simp [elim_unused_vars.locals.init, hcount]
    · rw [f_n, b_n, k1n]; simp [elim_unused_vars.locals.init, hcount]

/-- Every entry of `var_mapping` before the reversal. -/
theorem build_entry {σ ν : Type} (q : quantifier σ ν) (used : used_vars σ)
    (hdecls : (q.get_num_decls : Int) < 4294967296)
    (hsz : (used.get_max_found_var_idx_plus_1 : Int) < 4294967296) (i : Nat) :
    (elim_unused_vars.build q used).var_mapping[i]?
      = if i < max q.get_num_decls used.get_max_found_var_idx_plus_1 then
          some ((used.contains i).map (fun s =>
            (⟨renamed_idx used q.get_num_decls i, s⟩ : var σ)))
        else none := by
  rw [(build_closed_form q used hdecls hsz).1]
  by_cases h1 : i < q.get_num_decls
  · have hlt : i < max q.get_num_decls used.get_max_found_var_idx_plus_1 := by omega
    rw [if_pos hlt, List.getElem?_append_left (by simpa using h1), List.getElem?_map,
      List.getElem?_range h1]
    simp [renamed_idx, h1]
  · rw [List.getElem?_append_right (by simp; omega), List.getElem?_map]
    simp only [List.length_map, List.length_range]
    by_cases h2 : i < used.get_max_found_var_idx_plus_1
    · have hlt : i < max q.get_num_decls used.get_max_found_var_idx_plus_1 := by omega
      rw [if_pos hlt, List.getElem?_range' _ _ (by omega)]
      have hi : q.get_num_decls + 1 * (i - q.get_num_decls) = i := by omega
      rw [hi]
      simp [renamed_idx, h1]
    · have hge : ¬ i < max q.get_num_decls used.get_max_found_var_idx_plus_1 := by omega
      rw [if_neg hge]
      have hnone : (List.range' q.get_num_decls
          (used.get_max_found_var_idx_plus_1 - q.get_num_decls))[i - q.get_num_decls]?
          = none := by
        apply List.getElem?_eq_none
        simp
        omega
      rw [hnone]
      rfl

theorem renamed_idx_strict {σ : Type} (used : used_vars σ) (n i j : Nat) (hij : i < j)
    (hi : (used.contains i).isSome = true) :
    renamed_idx used n i < renamed_idx used n j := by
  have hsum := used_add_unused_below used n
  unfold renamed_idx
  by_cases h1 : j < n
  · have h0 : i < n := by omega
    rw [if_pos h0, if_pos h1]
    exact_mod_cast used_below_lt used i j hij hi
  · rw [if_neg h1]
    by_cases h0 : i < n
    · rw [if_pos h0]
      have := used_below_lt used i n h0 hi
      omega
    · rw [if_neg h0]
      omega

/-! ## What every entry point does to the initialized flag -/

theorem synchronize_counters_initialized (allocating : Bool) (m : Mem) :
    (synchronize_counters allocating m).state.g.g_memory_initialized
      = m.g.g_memory_initialized := by
  cases allocating
  · simp [synchronize_counters_false, merge_state]
  · rw [synchronize_counters_true]
    split_ifs <;> simp [merge_state]

theorem thread_local_allocate_initialized (cfg : SizeRecovery) (host : Option HostBlock)
    (s : Int) (m : Mem) :
    (thread_local_version.allocate cfg host s m).state.g.g_memory_initialized
      = m.g.g_memory_initialized := by
  simp only [thread_local_version.allocate, synchronize_if_above_eq, synchronize_counters_true]
  cases host <;> cases cfg <;> split_ifs <;>
    simp [Result.andThen, merge_state] <;> split_ifs <;> simp

theorem thread_local_reallocate_initialized (cfg : SizeRecovery) (host : Option HostBlock)
    (p : Nat) (s : Int) (m : Mem) :
    (thread_local_version.reallocate cfg host p s m).state.g.g_memory_initialized
      = m.g.g_memory_initialized := by
  simp only [thread_local_version.reallocate, synchronize_if_above_eq, synchronize_counters_true]
  cases host <;> cases cfg <;> split_ifs <;>
    simp [Result.andThen, merge_state] <;> split_ifs <;> simp

theorem thread_local_deallocate_initialized (cfg : SizeRecovery) (p : Nat) (m : Mem) :
    (thread_local_version.deallocate cfg p m).state.g.g_memory_initialized
      = m.g.g_memory_initialized := by
  simp only [thread_local_version.deallocate, synchronize_counters_false]
  split_ifs <;> simp [merge_state]

theorem single_thread_allocate_initialized (cfg : SizeRecovery) (host : Option HostBlock)
    (s : Int) (m : Mem) :
    (single_thread_mode.allocate cfg host s m).state.g.g_memory_initialized
      = m.g.g_memory_initialized := by
  simp only [single_thread_mode.allocate, check_limits_eq]
  cases host <;> cases cfg <;> split_ifs <;>
    simp [Result.andThen, raise_mark] <;> split_ifs <;> simp

theorem single_thread_reallocate_initialized (cfg : SizeRecovery) (host : Option HostBlock)
    (p : Nat) (s : Int) (m : Mem) :
    (single_thread_mode.reallocate cfg host p s m).state.g.g_memory_initialized
      = m.g.g_memory_initialized := by
  simp only [single_thread_mode.reallocate, check_limits_eq]
  cases host <;> cases cfg <;> split_ifs <;>
    simp [Result.andThen, raise_mark] <;> split_ifs <;> simp

theorem single_thread_deallocate_initialized (cfg : SizeRecovery) (p : Nat) (m : Mem) :
    (single_thread_mode.deallocate cfg p m).state.g.g_memory_initialized
      = m.g.g_memory_initialized := by
  simp [single_thread_mode.deallocate]

theorem step_initialized (v : Variant) (cfg : SizeRecovery) (hk : Hooks) (op : Op) (m : Mem)
    (hinit : ∀ x, op ≠ .init x) (hfini : ∀ b, op ≠ .fini b) :
    (step v cfg hk op m).state.g.g_memory_initialized = m.g.g_memory_initialized := by
  cases op with
  | init x => exact absurd rfl (hinit x)
  | fini b => exact absurd rfl (hfini b)
  | allocate s host =>
    cases v
    · exact thread_local_allocate_initialized cfg host s m
    · exact single_thread_allocate_initialized cfg host s m
  | deallocate p =>
    cases v
    · exact thread_local_deallocate_initialized cfg p m
    · exact single_thread_deallocate_initialized cfg p m
  | reallocate p s host =>
    cases v
    · exact thread_local_reallocate_initialized cfg host p s m
    · exact single_thread_reallocate_initialized cfg host p s m
  | merge a =>
    cases v
    · exact synchronize_counters_initialized a m
    · rfl
  | set_max_size x => rfl
  | set_max_alloc_count x => rfl
  | set_high_watermark x => rfl
  | exit_when_out_of_memory f t => cases f <;> cases t <;> rfl
/-! ## Host allocator failure (C1) -/

/-- C2, as stated, fails when the byte ceiling is breached by the same call.
Single-thread mode: with byte limit 10 and count limit 1, after one allocate
of 5 bytes has returned, an allocate of 100 bytes observes alloc_count 2 > 1
and alloc_size 108 > 10; it ends in a recoverable OutOfMemory, not in
termination with the allocation-count-exceeded status. Thread-local version:
the same limits, allocations of 50000 and 60000 bytes; the second triggers a
merge that observes alloc_count 2 > 1 and throws OutOfMemory. -/
theorem count_ceiling_loses_to_byte_ceiling :
    (single_thread_mode.allocate .native (some ⟨8192, 104⟩) 100
      (single_thread_mode.allocate .native (some ⟨4096, 8⟩) 5
        (memory.set_max_alloc_count 1 (memory.set_max_size 10 Mem.init))).state).outcome
      = .thrown ∧
    (single_thread_mode.allocate .native (some ⟨8192, 104⟩) 100
      (single_thread_mode.allocate .native (some ⟨4096, 8⟩) 5
        (memory.set_max_alloc_count 1 (memory.set_max_size 10 Mem.init))).state).state.g.g_memory_alloc_count
      = 2 ∧
    (single_thread_mode.allocate .native (some ⟨8192, 104⟩) 100
      (single_thread_mode.allocate .native (some ⟨4096, 8⟩) 5
        (memory.set_max_alloc_count 1 (memory.set_max_size 10 Mem.init))).state).state.g.g_memory_max_alloc_count
      = 1 ∧
    (single_thread_mode.allocate .native (some ⟨8192, 104⟩) 100
      (single_thread_mode.allocate .native (some ⟨4096, 8⟩) 5
        (memory.set_max_alloc_count 1 (memory.set_max_size 10 Mem.init))).state).state.g.g_exit_when_out_of_memory
      = false ∧
    (thread_local_version.allocate .native (some ⟨8192, 60000⟩) 60000
      (thread_local_version.allocate .native (some ⟨4096, 50000⟩) 50000
        (memory.set_max_alloc_count 1 (memory.set_max_size 10 Mem.init))).state).outcome
      = .thrown ∧
    (thread_local_version.allocate .native (some ⟨8192, 60000⟩) 60000
      (thread_local_version.allocate .native (some ⟨4096, 50000⟩) 50000
        (memory.set_max_alloc_count 1 (memory.set_max_size 10 Mem.init))).state).state.g.g_memory_alloc_count
      = 2 := by
  decide

/-- C2, amended: with a count limit set, an allocating call that observes
alloc_count above the limit while the byte ceiling is not breached at the same
check (no byte limit, or alloc_size within it) ends in process termination
with the allocation-count-exceeded status, whatever exit_on_oom is. The
single-thread mode observes the counters after charging the call; the
thread-local version observes them in the merge the call triggers. (When the
byte ceiling is breached as well, the OutOfMemory path runs first.) -/
theorem count_ceiling_is_fatal (cfg : SizeRecovery) (host : Option HostBlock) (p : Nat)
    (s : Int) (m : Mem) (hlim : m.g.g_memory_max_alloc_count ≠ 0) :
    (wrap64 (m.g.g_memory_alloc_count + 1) > m.g.g_memory_max_alloc_count →
      ¬ (m.g.g_memory_max_size ≠ 0 ∧
          wrap64 (m.g.g_memory_alloc_size + request_size cfg s) > m.g.g_memory_max_size) →
      (single_thread_mode.allocate cfg host s m).outcome = .exited .ERR_ALLOC_EXCEEDED) ∧
    (¬ (cfg = .native ∧ consumed_size cfg m.heap p ≥ s) →
      wrap64 (m.g.g_memory_alloc_count + 1) > m.g.g_memory_max_alloc_count →
      ¬ (m.g.g_memory_max_size ≠ 0 ∧
          wrap64 (m.g.g_memory_alloc_size +
            u64 (request_size cfg s - consumed_size cfg m.heap p)) > m.g.g_memory_max_size) →
      (single_thread_mode.reallocate cfg host p s m).outcome = .exited .ERR_ALLOC_EXCEEDED) ∧
    (wrap64 (m.t.g_memory_thread_alloc_size + request_size cfg s) > SYNCH_THRESHOLD →
      wrap64 (m.g.g_memory_alloc_count + wrap64 (m.t.g_memory_thread_alloc_count + 1))
        > m.g.g_memory_max_alloc_count →
      ¬ (m.g.g_memory_max_size ≠ 0 ∧
          wrap64 (m.g.g_memory_alloc_size +
            wrap64 (m.t.g_memory_thread_alloc_size + request_size cfg s))
              > m.g.g_memory_max_size) →
      (thread_local_version.allocate cfg host s m).outcome = .exited .ERR_ALLOC_EXCEEDED) ∧
    (¬ (cfg = .native ∧ consumed_size cfg m.heap p ≥ s) →
      wrap64 (m.t.g_memory_thread_alloc_size +
        u64 (request_size cfg s - consumed_size cfg m.heap p)) > SYNCH_THRESHOLD →
      wrap64 (m.g.g_memory_alloc_count + wrap64 (m.t.g_memory_thread_alloc_count + 1))
        > m.g.g_memory_max_alloc_count →
      ¬ (m.g.g_memory_max_size ≠ 0 ∧
          wrap64 (m.g.g_memory_alloc_size +
            wrap64 (m.t.g_memory_thread_alloc_size +
              u64 (request_size cfg s - consumed_size cfg m.heap p)))
              > m.g.g_memory_max_size) →
      (thread_local_version.reallocate cfg host p s m).outcome
        = .exited .ERR_ALLOC_EXCEEDED) := by
  refine ⟨?_, ?_, ?_, ?_⟩
  · intro hc hb
    simp only [single_thread_mode.allocate, check_limits_eq]
    rw [if_neg hb, if_pos ⟨hlim, hc⟩]
    simp [Result.andThen]
  · intro he hc hb
    simp only [single_thread_mode.reallocate, if_neg he, check_limits_eq]
    rw [if_neg hb, if_pos ⟨hlim, hc⟩]
    simp [Result.andThen]
  · intro ht hc hb
    simp only [thread_local_version.allocate, synchronize_if_above_eq, if_pos ht,
      synchronize_counters_true, merge_state]
    rw [if_neg hb, if_pos ⟨hlim, hc⟩]
    simp [Result.andThen]
  · intro he ht hc hb
    simp only [thread_local_version.reallocate, if_neg he, synchronize_if_above_eq, if_pos ht,
      synchronize_counters_true, merge_state]
    rw [if_neg hb, if_pos ⟨hlim, hc⟩]
    simp [Result.andThen]

/-- Witness for `count_ceiling_is_fatal`: with count limit 1 and no byte
limit, the second allocate terminates the process with the
allocation-count-exceeded status in the single-thread mode, and so does, in
the thread-local version, the allocate whose merge observes two allocations. -/
theorem count_ceiling_is_fatal_witness :
    (single_thread_mode.allocate .native (some ⟨8192, 8⟩) 5
      (single_thread_mode.allocate .native (some ⟨4096, 8⟩) 5
        (memory.set_max_alloc_count 1 Mem.init)).state).outcome
      = .exited .ERR_ALLOC_EXCEEDED ∧
    (thread_local_version.allocate .native (some ⟨8192, 60000⟩) 60000
      (thread_local_version.allocate .native (some ⟨4096, 50000⟩) 50000
        (memory.set_max_alloc_count 1 Mem.init)).state).outcome
      = .exited .ERR_ALLOC_EXCEEDED :=
  ⟨(count_ceiling_is_fatal .native (some ⟨8192, 8⟩) 0 5
      (single_thread_mode.allocate .native (some ⟨4096, 8⟩) 5
        (memory.set_max_alloc_count 1 Mem.init)).state (by decide)).1
      (by decide) (by decide),
   (count_ceiling_is_fatal .native (some ⟨8192, 60000⟩) 0 60000
      (thread_local_version.allocate .native (some ⟨4096, 50000⟩) 50000
        (memory.set_max_alloc_count 1 Mem.init)).state (by decide)).2.2.1
      (by decide) (by decide) (by decide)⟩

/-! ## Deallocation (C3) -/

/-- C3: in every state, limits breached or not, and for every pointer (so for
every outstanding block), deallocate returns normally in both build variants:
it neither throws OutOfMemory nor terminates the process. The merge a
deallocating call runs, `synchronize_counters(false)`, returns normally in
every state as well. -/
theorem deallocate_never_fails (cfg : SizeRecovery) (p : Nat) (m : Mem) :
    (thread_local_version.deallocate cfg p m).outcome = .returned () ∧
    (single_thread_mode.deallocate cfg p m).outcome = .returned () ∧
    (synchronize_counters false m).outcome = .returned () := by
  refine ⟨?_, ?_, ?_⟩
  · simp only [thread_local_version.deallocate, synchronize_counters_false]
    split_ifs <;> rfl
  · rfl
  · rw [synchronize_counters_false]

/-! ## The byte limit in the single-thread mode (C4) -/

/-- C4, as stated, fails under the native-query strategy, where the check
precedes the host call and so uses the raw request: with byte limit 10 and
alloc_size 0, a request of 10 bytes that the host allocator rounds up to a
block of consumed size 16 returns the block, although 0 + 16 > 10. -/
theorem byte_limit_checks_raw_request :
    (memory.set_max_size 10 Mem.init).g.g_memory_alloc_size = 0 ∧
    (memory.set_max_size 10 Mem.init).g.g_memory_max_size = 10 ∧
    (single_thread_mode.allocate .native (some ⟨4096, 16⟩) 10
      (memory.set_max_size 10 Mem.init)).outcome = .returned 4096 ∧
    consumed_size .native
      (single_thread_mode.allocate .native (some ⟨4096, 16⟩) 10
        (memory.set_max_size 10 Mem.init)).state.heap 4096 = 16 ∧
    (0 : Int) + 16 > 10 := by
  decide

/-- C4, amended: in the single-thread mode with a byte limit N > 0, no count
limit and exit_on_oom off, starting from alloc_size = 0, for every sequence
of allocate calls that the host allocator serves and of which none before the
last crossed the limit: every call before the last returns its block, and the
last call throws OutOfMemory exactly when the consumed sizes of the blocks
returned so far plus the size handed to the host allocator for it exceed N,
and returns its block otherwise. The size handed to the host allocator is the
raw request under the native-query strategy; under the header-prefixed
strategy it is the request plus the header, which is the consumed size. -/
theorem byte_limit_first_crossing (cfg : SizeRecovery) (N : Int)
    (reqs : List (Int × HostBlock)) (last : Int × HostBlock) (m : Mem)
    (hzero : m.g.g_memory_alloc_size = 0)
    (hN : m.g.g_memory_max_size = N) (hpos : 0 < N) (hNhi : N < two63)
    (hcount : m.g.g_memory_max_alloc_count = 0)
    (hexit : m.g.g_exit_when_out_of_memory = false)
    (hok : ∀ q ∈ reqs ++ [last], request_ok q = true)
    (hfit : fits cfg N 0 reqs = true)
    (hrange : served_total cfg reqs + request_size cfg last.1 < two63) :
    single_thread_mode.allocate_outcomes cfg (reqs ++ [last]) m
      = reqs.map (fun q => Outcome.returned (user_pointer cfg q.2)) ++
        [if served_total cfg reqs + request_size cfg last.1 > N
          then Outcome.thrown else Outcome.returned (user_pointer cfg last.2)] ∧
    (cfg = .header → request_size cfg last.1 = served_size cfg last) := by
  constructor
  · have h := allocate_outcomes_from cfg N (ne_of_gt hpos) hNhi last
      (hok last (by simp)) reqs m hN hcount hexit (by omega)
      (fun q hq => hok q (by simp [hq])) (by rw [hzero]; exact hfit)
      (by rw [hzero]; omega)
    rw [h, hzero]
    simp only [zero_add]
  · intro hc
    subst hc
    rfl

/-- Witness for `byte_limit_first_crossing`: byte limit 10, native-query
strategy; a request of 4 bytes served by a block of 8, then a request of 8
bytes: 8 + 8 > 10, so the first call returns its block and the second throws. -/
theorem byte_limit_first_crossing_witness :
    single_thread_mode.allocate_outcomes .native
      ([((4 : Int), (⟨4096, 8⟩ : HostBlock))] ++ [((8 : Int), (⟨8192, 8⟩ : HostBlock))])
      (memory.set_max_size 10 Mem.init)
      = [Outcome.returned 4096, Outcome.thrown] :=
  (byte_limit_first_crossing .native 10 [(4, ⟨4096, 8⟩)] (8, ⟨8192, 8⟩)
    (memory.set_max_size 10 Mem.init) (by decide) (by decide) (by decide) (by decide)
    (by decide) (by decide) (by decide) (by decide) (by decide)).1

/-! ## Reallocation within the recovered size (C5) -/

/-- C5, as stated, fails under the header-prefixed strategy, which has no
early return. A block obtained by allocate(16) carries the recovered size 24;
reallocate of that block to 8 bytes (8 ≤ 24) goes to the host allocator: it
raises the thread's delta_count from 1 to 2 and moves delta_size from 24 to
16, and when the host allocator answers null it throws OutOfMemory. The
single-thread mode moves alloc_count from 1 to 2 and alloc_size from 24 to 16
in the same way. -/
theorem reallocate_header_has_no_early_return :
    (thread_local_version.allocate .header (some ⟨4096, 32⟩) 16 Mem.init).outcome
      = .returned 4104 ∧
    consumed_size .header
      (thread_local_version.allocate .header (some ⟨4096, 32⟩) 16 Mem.init).state.heap 4104
      = 24 ∧
    (thread_local_version.allocate .header (some ⟨4096, 32⟩) 16 Mem.init).state.t
      = ⟨24, 1⟩ ∧
    (thread_local_version.reallocate .header (some ⟨4096, 32⟩) 4104 8
      (thread_local_version.allocate .header (some ⟨4096, 32⟩) 16 Mem.init).state).state.t
      = ⟨16, 2⟩ ∧
    (thread_local_version.reallocate .header none 4104 8
      (thread_local_version.allocate .header (some ⟨4096, 32⟩) 16 Mem.init).state).outcome
      = .thrown ∧
    (single_thread_mode.allocate .header (some ⟨4096, 32⟩) 16 Mem.init).state.g.g_memory_alloc_size
      = 24 ∧
    (single_thread_mode.allocate .header (some ⟨4096, 32⟩) 16 Mem.init).state.g.g_memory_alloc_count
      = 1 ∧
    (single_thread_mode.reallocate .header (some ⟨4096, 32⟩) 4104 8
      (single_thread_mode.allocate .header (some ⟨4096, 32⟩) 16
        Mem.init).state).state.g.g_memory_alloc_size
      = 16 ∧
    (single_thread_mode.reallocate .header (some ⟨4096, 32⟩) 4104 8
      (single_thread_mode.allocate .header (some ⟨4096, 32⟩) 16
        Mem.init).state).state.g.g_memory_alloc_count
      = 2 := by
  decide

/-- C5, amended: under the native-query strategy, for every pointer p and
every size s with s ≤ consumed_size(p), reallocate(p, s) returns p itself,
whatever the host allocator would have answered, and leaves the whole state
(so delta_size, delta_count, alloc_size, alloc_count and max_used_size)
unchanged, in both build variants. -/
theorem reallocate_native_within_size (host : Option HostBlock) (p : Nat) (s : Int) (m : Mem)
    (hs : s ≤ consumed_size .native m.heap p) :
    (thread_local_version.reallocate .native host p s m).outcome = .returned p ∧
    (thread_local_version.reallocate .native host p s m).state = m ∧
    (single_thread_mode.reallocate .native host p s m).outcome = .returned p ∧
    (single_thread_mode.reallocate .native host p s m).state = m := by
  simp [thread_local_version.reallocate, single_thread_mode.reallocate, hs]

/-- Witness for `reallocate_native_within_size`: a block the host allocator
rounded up to 32 bytes is reallocated to 20 bytes; the host allocator is not
asked (its answer, here null, plays no part). -/
theorem reallocate_native_within_size_witness :
    (20 : Int) ≤ consumed_size .native
      (thread_local_version.allocate .native (some ⟨4096, 32⟩) 16 Mem.init).state.heap 4096 ∧
    (thread_local_version.reallocate .native none 4096 20
      (thread_local_version.allocate .native (some ⟨4096, 32⟩) 16 Mem.init).state).outcome
      = .returned 4096 :=
  ⟨by decide,
   (reallocate_native_within_size none 4096 20
      (thread_local_version.allocate .native (some ⟨4096, 32⟩) 16 Mem.init).state
      (by decide)).1⟩

/-! ## get_allocation_size and the outstanding blocks (C6) -/

/-- C6, as stated, fails once an allocate fails, because the request is
charged before the limit check and the host call and is never taken back.
With byte limit 10, an allocate of 100 bytes throws OutOfMemory in the
single-thread mode and leaves get_allocation_size() = 100 with no block
outstanding; in the thread-local version an allocate of 200000 bytes merges,
throws, and leaves delta_size = 0 and get_allocation_size() = 200000 with no
block outstanding. -/
theorem failed_allocate_stays_counted :
    (step .single_thread_mode .native Hooks.none (.allocate 100 (some ⟨4096, 100⟩))
      (memory.set_max_size 10 Mem.init)).outcome = .thrown ∧
    memory.get_allocation_size
      (run .single_thread_mode .native Hooks.none [.allocate 100 (some ⟨4096, 100⟩)]
        (memory.set_max_size 10 Mem.init)) = 100 ∧
    outstanding_bytes .native
      (run .single_thread_mode .native Hooks.none [.allocate 100 (some ⟨4096, 100⟩)]
        (memory.set_max_size 10 Mem.init)).heap = 0 ∧
    (step .thread_local_version .native Hooks.none (.allocate 200000 (some ⟨4096, 200000⟩))
      (memory.set_max_size 10 Mem.init)).outcome = .thrown ∧
    (run .thread_local_version .native Hooks.none [.allocate 200000 (some ⟨4096, 200000⟩)]
      (memory.set_max_size 10 Mem.init)).t.g_memory_thread_alloc_size = 0 ∧
    memory.get_allocation_size
      (run .thread_local_version .native Hooks.none [.allocate 200000 (some ⟨4096, 200000⟩)]
        (memory.set_max_size 10 Mem.init)) = 200000 ∧
    outstanding_bytes .native
      (run .thread_local_version .native Hooks.none [.allocate 200000 (some ⟨4096, 200000⟩)]
        (memory.set_max_size 10 Mem.init)).heap = 0 := by
  decide

/-- C6, amended: for every sequence of allocate and deallocate calls made by
one thread from a state with alloc_size = 0, delta_size = 0 and no block
outstanding (any limits configured), in which every allocate returns a block
(the host allocator serves it at a fresh address and no limit check ends the
call) and every deallocate is applied to the pointer of an outstanding block:
whenever the thread's delta_size is 0 (in the single-thread mode: always),
get_allocation_size() equals the sum of the recovered consumed sizes of the
blocks outstanding, that sum being a non-negative `long long`. -/
theorem allocation_size_is_outstanding_bytes (v : Variant) (cfg : SizeRecovery) (hk : Hooks)
    (ops : List Op) (m0 : Mem)
    (hsize : m0.g.g_memory_alloc_size = 0)
    (hdelta : m0.t.g_memory_thread_alloc_size = 0)
    (hheap : m0.heap = [])
    (hserved : all_served v cfg hk ops m0 = true)
    (hmerged : v = .thread_local_version →
      (run v cfg hk ops m0).t.g_memory_thread_alloc_size = 0)
    (hlo : 0 ≤ outstanding_bytes cfg (run v cfg hk ops m0).heap)
    (hhi : outstanding_bytes cfg (run v cfg hk ops m0).heap < two63) :
    memory.get_allocation_size (run v cfg hk ops m0)
      = outstanding_bytes cfg (run v cfg hk ops m0).heap := by
  have h0 : accounted v cfg m0 := by
    refine ⟨by simp [hheap], by simp [hheap, hsize, hdelta], ?_, ?_, fun _ => hdelta⟩
    · rw [hsize]; decide
    · rw [hsize]; decide
  obtain ⟨hnd, hsum, hglo, hghi, hst⟩ := run_accounted v cfg hk ops m0 h0 hserved
  have hd : (run v cfg hk ops m0).t.g_memory_thread_alloc_size = 0 := by
    cases v
    · exact hmerged rfl
    · exact hst rfl
  rw [outstanding_bytes_eq cfg _ hnd] at hlo hhi ⊢
  rw [hd] at hsum
  simp only [memory.get_allocation_size, u64, two63, two64] at *
  split_ifs <;> omega

/-- Witness for `allocation_size_is_outstanding_bytes`: the thread-local
version, native-query strategy; an allocate of 200000 bytes (which merges), an
allocate of 10 bytes, then the deallocate of the first block, whose merge
leaves delta_size = 0: get_allocation_size() is 10, the size of the one block
outstanding. -/
theorem allocation_size_is_outstanding_bytes_witness :
    (run .thread_local_version .native Hooks.none
      [.allocate 200000 (some ⟨4096, 200000⟩), .allocate 10 (some ⟨8192, 10⟩),
        .deallocate 4096]
      Mem.init).t.g_memory_thread_alloc_size = 0 ∧
    outstanding_bytes .native
      (run .thread_local_version .native Hooks.none
        [.allocate 200000 (some ⟨4096, 200000⟩), .allocate 10 (some ⟨8192, 10⟩),
          .deallocate 4096]
        Mem.init).heap = 10 ∧
    memory.get_allocation_size
      (run .thread_local_version .native Hooks.none
        [.allocate 200000 (some ⟨4096, 200000⟩), .allocate 10 (some ⟨8192, 10⟩),
          .deallocate 4096]
        Mem.init)
      = outstanding_bytes .native
          (run .thread_local_version .native Hooks.none
            [.allocate 200000 (some ⟨4096, 200000⟩), .allocate 10 (some ⟨8192, 10⟩),
              .deallocate 4096]
            Mem.init).heap :=
  ⟨by decide, by decide,
   allocation_size_is_outstanding_bytes .thread_local_version .native Hooks.none
     [.allocate 200000 (some ⟨4096, 200000⟩), .allocate 10 (some ⟨8192, 10⟩),
       .deallocate 4096]
     Mem.init (by decide) (by decide) (by decide) (by decide) (fun _ => by decide)
     (by decide) (by decide)⟩

/-! ## Repeated initialisation (C7) -/

/-- C7: in a state with initialized = true, for every argument,
`memory::initialize` leaves alloc_size, alloc_count, max_used_size and
out_of_memory unchanged. With the `UINT_MAX` sentinel the whole state is
unchanged; with any other argument the only change is that max_size_limit
holds the argument (as the 64-bit value stored in the `long long`: read back
through `get_configured_max_size` it is the argument, and it is the argument
as a number when that is below 2^63). Calling it twice gives the same state
as calling it once. -/
theorem initialize_when_initialized (hk : Hooks) (max_size : Int) (m : Mem)
    (hinit : m.g.g_memory_initialized = true) :
    ( memory.initialize hk max_size m).g.g_memory_alloc_size = m.g.g_memory_alloc_size ∧
    ( memory.initialize hk max_size m).g.g_memory_alloc_count = m.g.g_memory_alloc_count ∧
    ( memory.initialize hk max_size m).g.g_memory_max_used_size
      = m.g.g_memory_max_used_size ∧
    ( memory.initialize hk max_size m).g.g_memory_out_of_memory
      = m.g.g_memory_out_of_memory ∧
    (max_size = UINT_MAX → memory.initialize hk max_size m = m) ∧
    (max_size ≠ UINT_MAX →
      memory.initialize hk max_size m
        = { m with g := { m.g with g_memory_max_size := wrap64 max_size } } ∧
      (0 ≤ max_size → max_size < two64 →
        memory.get_configured_max_size ( memory.initialize hk max_size m) = max_size) ∧
      (0 ≤ max_size → max_size < two63 →
        ( memory.initialize hk max_size m).g.g_memory_max_size = max_size)) ∧
    memory.initialize hk max_size ( memory.initialize hk max_size m)
      = memory.initialize hk max_size m := by
  by_cases hsent : max_size = UINT_MAX
  · simp [ memory.initialize, hsent, hinit]
  · simp only [ memory.initialize, hsent, hinit, ne_eq, not_false_eq_true, if_true,
      not_true_eq_false, if_false, true_and, false_implies, true_implies,
      memory.get_configured_max_size]
    refine ⟨⟨?_, ?_⟩, trivial⟩
    · intro h0 h1
      unfold u64 wrap64 two63 two64 at *
      omega
    · intro h0 h1
      unfold wrap64 two63 two64 at *
      omega

/-- Witness for `initialize_when_initialized`: the state is the one a first
`memory::initialize` leaves; a second call with the argument 500 sets
max_size_limit to 500. -/
theorem initialize_when_initialized_witness :
    ( memory.initialize Hooks.none UINT_MAX Mem.init).g.g_memory_initialized = true ∧
    ( memory.initialize Hooks.none 500
      ( memory.initialize Hooks.none UINT_MAX Mem.init)).g.g_memory_max_size = 500 :=
  ⟨by decide,
   (initialize_when_initialized Hooks.none 500 ( memory.initialize Hooks.none UINT_MAX Mem.init)
      (by decide)).2.2.2.2.2.1 (by decide) |>.2.2 (by decide) (by decide)⟩
/-! ## The out-of-memory flag (C8) -/

/-- C8: provided the external hooks leave the flag alone and the timer hook
leaves the initialized mark alone, for every call into the layer, in both
build variants and under both strategies: a call that throws OutOfMemory
leaves out_of_memory = true; when out_of_memory is true before a call it is
true after it, unless the call is an initialize on a state that is not
initialized (so allocate, deallocate, reallocate, a merge, the setters,
finalize and an initialize on an initialized state keep it); an initialize on
a state that is not initialized leaves it false; a finalize keeps the flag and
leaves the state not initialized, so an initialize that follows a finalize
leaves the flag false; and the state is not initialized exactly before the
first initialize or after a finalize with no initialize since: initialize
leaves it initialized, finalize leaves it not initialized, and no other call
changes the mark. -/
theorem out_of_memory_flag_is_sticky (v : Variant) (cfg : SizeRecovery) (hk : Hooks)
    (op : Op) (m : Mem)
    (hhooks : ∀ x : Mem,
      (hk.mem_initialize x).g.g_memory_out_of_memory = x.g.g_memory_out_of_memory ∧
      (hk.mem_finalize x).g.g_memory_out_of_memory = x.g.g_memory_out_of_memory ∧
      (hk.scoped_timer_finalize x).g.g_memory_out_of_memory = x.g.g_memory_out_of_memory ∧
      (hk.scoped_timer_finalize x).g.g_memory_initialized = x.g.g_memory_initialized) :
    ((step v cfg hk op m).outcome = .thrown →
      (step v cfg hk op m).state.g.g_memory_out_of_memory = true) ∧
    (m.g.g_memory_out_of_memory = true →
      (∀ x, op = .init x → m.g.g_memory_initialized = true) →
      (step v cfg hk op m).state.g.g_memory_out_of_memory = true) ∧
    (∀ x, m.g.g_memory_initialized = false →
      (step v cfg hk (.init x) m).state.g.g_memory_out_of_memory = false) ∧
    (∀ b, (step v cfg hk (.fini b) m).state.g.g_memory_initialized = false ∧
      (step v cfg hk (.fini b) m).state.g.g_memory_out_of_memory
        = m.g.g_memory_out_of_memory) ∧
    (∀ b x, (step v cfg hk (.init x)
      (step v cfg hk (.fini b) m).state).state.g.g_memory_out_of_memory = false) ∧
    (∀ x, (step v cfg hk (.init x) m).state.g.g_memory_initialized = true) ∧
    ((∀ x, op ≠ .init x) → (∀ b, op ≠ .fini b) →
      (step v cfg hk op m).state.g.g_memory_initialized = m.g.g_memory_initialized) := by
  have hclear : ∀ (x : Int) (n : Mem), n.g.g_memory_initialized = false →
      (step v cfg hk (.init x) n).state.g.g_memory_out_of_memory = false := by
    intro x n hx
    by_cases hs : x = UINT_MAX <;> simp [step, memory.initialize, hx, hs, (hhooks _).1]
  have hfini : ∀ b, (step v cfg hk (.fini b) m).state.g.g_memory_initialized = false ∧
      (step v cfg hk (.fini b) m).state.g.g_memory_out_of_memory
        = m.g.g_memory_out_of_memory := by
    intro b
    by_cases hi : m.g.g_memory_initialized = true <;> cases b <;>
      simp [step, memory.finalize, hi, (hhooks _).2.1, (hhooks _).2.2.1, (hhooks _).2.2.2]
  refine ⟨?_, ?_, fun x => hclear x m, hfini, fun b x => hclear x _ (hfini b).1, ?_,
    step_initialized v cfg hk op m⟩
  · intro h
    cases op with
    | init x => exact absurd h (by simp [step])
    | fini b => exact absurd h (by simp [step])
    | allocate s host =>
      cases v
      · exact (thread_local_allocate_flag_mark cfg host s m).1 (Result.void_thrown _ h)
      · exact (single_thread_allocate_flag_mark cfg host s m).1 (Result.void_thrown _ h)
    | deallocate p =>
      cases v
      · exact (thread_local_deallocate_flag_mark cfg p m).1 h
      · exact absurd h (by simp [step, single_thread_mode.deallocate])
    | reallocate p s host =>
      cases v
      · exact (thread_local_reallocate_flag_mark cfg host p s m).1 (Result.void_thrown _ h)
      · exact (single_thread_reallocate_flag_mark cfg host p s m).1 (Result.void_thrown _ h)
    | merge a =>
      cases v
      · exact (synchronize_counters_flag_mark a m).1 h
      · exact absurd h (by simp [step])
    | set_max_size x => exact absurd h (by simp [step])
    | set_max_alloc_count x => exact absurd h (by simp [step])
    | set_high_watermark x => exact absurd h (by simp [step])
    | exit_when_out_of_memory f t => exact absurd h (by simp [step])
  · intro hflag hop
    cases op with
    | init x =>
      have hi := hop x rfl
      by_cases hx : x = UINT_MAX <;> simp [step, memory.initialize, hi, hflag, hx]
    | fini b => exact (hfini b).2.trans hflag
    | allocate s host =>
      cases v
      · exact (thread_local_allocate_flag_mark cfg host s m).2.1 hflag
      · exact (single_thread_allocate_flag_mark cfg host s m).2.1 hflag
    | deallocate p =>
      cases v
      · exact (thread_local_deallocate_flag_mark cfg p m).2.1 hflag
      · exact hflag
    | reallocate p s host =>
      cases v
      · exact (thread_local_reallocate_flag_mark cfg host p s m).2.1 hflag
      · exact (single_thread_reallocate_flag_mark cfg host p s m).2.1 hflag
    | merge a =>
      cases v
      · exact (synchronize_counters_flag_mark a m).2.1 hflag
      · exact hflag
    | set_max_size x => exact hflag
    | set_max_alloc_count x => exact hflag
    | set_high_watermark x => exact hflag
    | exit_when_out_of_memory f t =>
      cases f <;> cases t <;> exact hflag
  · intro x
    by_cases hi : m.g.g_memory_initialized = true <;> by_cases hs : x = UINT_MAX <;>
      simp [step, memory.initialize, hi, hs]

/-- Witness for `out_of_memory_flag_is_sticky`, with hooks that do nothing,
on an initialized state: an allocate the host allocator cannot serve throws
and sets the flag; a later change of the byte limit and a later initialize
leave the flag set; a finalize leaves it set and the state not initialized;
and the initialize that follows the finalize clears it. -/
theorem out_of_memory_flag_is_sticky_witness :
    (run .single_thread_mode .native Hooks.none
      [.init 0, .allocate 100 none] Mem.init).g.g_memory_out_of_memory = true ∧
    (run .single_thread_mode .native Hooks.none
      [.init 0, .allocate 100 none, .set_max_size 0] Mem.init).g.g_memory_out_of_memory
        = true ∧
    (run .single_thread_mode .native Hooks.none
      [.init 0, .allocate 100 none, .init 0] Mem.init).g.g_memory_out_of_memory = true ∧
    (run .single_thread_mode .native Hooks.none
      [.init 0, .allocate 100 none, .fini false] Mem.init).g.g_memory_out_of_memory = true ∧
    (run .single_thread_mode .native Hooks.none
      [.init 0, .allocate 100 none, .fini false] Mem.init).g.g_memory_initialized = false ∧
    (run .single_thread_mode .native Hooks.none
      [.init 0, .allocate 100 none, .fini false, .init 0] Mem.init).g.g_memory_out_of_memory
        = false :=
  ⟨(out_of_memory_flag_is_sticky .single_thread_mode .native Hooks.none (.allocate 100 none)
      (run .single_thread_mode .native Hooks.none [.init 0] Mem.init)
      (fun _ => ⟨rfl, rfl, rfl, rfl⟩)).1 (by decide),
   (out_of_memory_flag_is_sticky .single_thread_mode .native Hooks.none (.set_max_size 0)
      (run .single_thread_mode .native Hooks.none [.init 0, .allocate 100 none] Mem.init)
      (fun _ => ⟨rfl, rfl, rfl, rfl⟩)).2.1 (by decide) (by intro x hx; cases hx),
   (out_of_memory_flag_is_sticky .single_thread_mode .native Hooks.none (.init 0)
      (run .single_thread_mode .native Hooks.none [.init 0, .allocate 100 none] Mem.init)
      (fun _ => ⟨rfl, rfl, rfl, rfl⟩)).2.1 (by decide) (by intro x _; decide),
   (out_of_memory_flag_is_sticky .single_thread_mode .native Hooks.none (.fini false)
      (run .single_thread_mode .native Hooks.none [.init 0, .allocate 100 none] Mem.init)
      (fun _ => ⟨rfl, rfl, rfl, rfl⟩)).2.1 (by decide) (by intro x hx; cases hx),
   ((out_of_memory_flag_is_sticky .single_thread_mode .native Hooks.none (.fini false)
      (run .single_thread_mode .native Hooks.none [.init 0, .allocate 100 none] Mem.init)
      (fun _ => ⟨rfl, rfl, rfl, rfl⟩)).2.2.2.1 false).1,
   (out_of_memory_flag_is_sticky .single_thread_mode .native Hooks.none (.fini false)
      (run .single_thread_mode .native Hooks.none [.init 0, .allocate 100 none] Mem.init)
      (fun _ => ⟨rfl, rfl, rfl, rfl⟩)).2.2.2.2.1 false 0⟩

/-- Counterexample to C8 as written: on a process that was never initialized
and never finalized, an allocate the host allocator cannot serve throws and
sets the flag, and the first initialize then clears it, although no finalize
came before. -/
theorem first_initialize_clears_flag :
    (step .thread_local_version .native Hooks.none (.allocate 100 none)
      Mem.init).outcome = .thrown ∧
    (run .thread_local_version .native Hooks.none
      [.allocate 100 none] Mem.init).g.g_memory_out_of_memory = true ∧
    (run .thread_local_version .native Hooks.none
      [.allocate 100 none] Mem.init).g.g_memory_initialized = false ∧
    (run .thread_local_version .native Hooks.none
      [.allocate 100 none, .init 0] Mem.init).g.g_memory_out_of_memory = false := by
  decide

/-! ## The high-water mark never decreases (C9) -/

/-- C9: provided the external hooks do not lower it, for every state and
every call into the layer (allocate, deallocate, reallocate, a merge,
initialize, finalize and the setters), in the thread-local version and in the
single-thread mode, under both strategies and whatever the host allocator
answers, max_used_size after the call is at least max_used_size before it;
this includes the calls that end in a throw or an exit. -/
theorem max_used_size_never_decreases (v : Variant) (cfg : SizeRecovery) (hk : Hooks)
    (op : Op) (m : Mem)
    (hhooks : ∀ x : Mem,
      x.g.g_memory_max_used_size ≤ (hk.mem_initialize x).g.g_memory_max_used_size ∧
      x.g.g_memory_max_used_size ≤ (hk.mem_finalize x).g.g_memory_max_used_size ∧
      x.g.g_memory_max_used_size ≤ (hk.scoped_timer_finalize x).g.g_memory_max_used_size) :
    m.g.g_memory_max_used_size ≤ (step v cfg hk op m).state.g.g_memory_max_used_size := by
  cases op with
  | init x =>
    simp only [step, memory.initialize]
    split_ifs
    · exact le_refl _
    · exact (hhooks _).1
    · exact le_refl _
    · exact (hhooks _).1
  | fini b =>
    simp only [step, memory.finalize]
    split_ifs
    · refine le_trans ?_ (hhooks _).2.2
      exact (hhooks _).2.1
    · exact (hhooks _).2.1
    · exact le_refl _
  | allocate s host =>
    cases v
    · exact (thread_local_allocate_flag_mark cfg host s m).2.2
    · exact (single_thread_allocate_flag_mark cfg host s m).2.2
  | deallocate p =>
    cases v
    · exact (thread_local_deallocate_flag_mark cfg p m).2.2
    · exact le_refl _
  | reallocate p s host =>
    cases v
    · exact (thread_local_reallocate_flag_mark cfg host p s m).2.2
    · exact (single_thread_reallocate_flag_mark cfg host p s m).2.2
  | merge a =>
    cases v
    · exact (synchronize_counters_flag_mark a m).2.2
    · exact le_refl _
  | set_max_size x => exact le_refl _
  | set_max_alloc_count x => exact le_refl _
  | set_high_watermark x => exact le_refl _
  | exit_when_out_of_memory f t => cases f <;> cases t <;> exact le_refl _

/-- Witness for `max_used_size_never_decreases`, with hooks that do nothing:
after an allocate of 64 bytes the mark is 64, and the deallocate of that
block does not take it below 64. -/
theorem max_used_size_never_decreases_witness :
    (step .single_thread_mode .native Hooks.none (.allocate 64 (some ⟨4096, 64⟩))
      Mem.init).state.g.g_memory_max_used_size = 64 ∧
    (step .single_thread_mode .native Hooks.none (.allocate 64 (some ⟨4096, 64⟩))
      Mem.init).state.g.g_memory_max_used_size
      ≤ (step .single_thread_mode .native Hooks.none (.deallocate 4096)
          (step .single_thread_mode .native Hooks.none (.allocate 64 (some ⟨4096, 64⟩))
            Mem.init).state).state.g.g_memory_max_used_size :=
  ⟨by decide,
   max_used_size_never_decreases .single_thread_mode .native Hooks.none (.deallocate 4096)
      (step .single_thread_mode .native Hooks.none (.allocate 64 (some ⟨4096, 64⟩))
        Mem.init).state
      (fun _ => ⟨le_refl _, le_refl _, le_refl _⟩)⟩

/-! ## The merge and the high-water mark (C10) -/

/-- C10: for every global state and every pair of thread deltas, in the state
`synchronize_counters` leaves (whether it returns, throws or exits),
max_used_size is the maximum of its previous value and the new alloc_size,
and hence max_used_size ≥ alloc_size. -/
theorem merge_raises_high_water_mark (allocating : Bool) (m : Mem) :
    (synchronize_counters allocating m).state.g.g_memory_max_used_size
      = max m.g.g_memory_max_used_size
          (synchronize_counters allocating m).state.g.g_memory_alloc_size ∧
    (synchronize_counters allocating m).state.g.g_memory_alloc_size
      = wrap64 (m.g.g_memory_alloc_size + m.t.g_memory_thread_alloc_size) ∧
    (synchronize_counters allocating m).state.g.g_memory_max_used_size
      ≥ (synchronize_counters allocating m).state.g.g_memory_alloc_size := by
  cases allocating
  · simp [synchronize_counters_false, merge_state]
  · rw [synchronize_counters_true]
    split_ifs <;> simp [merge_state]

/-! ## The high-watermark query (C11) -/

/-- C11: for every state, `above_high_watermark()` returns false when
watermark = 0, and otherwise returns true exactly when alloc_size > watermark.
So after `set_high_watermark(W)` with 0 < W < 2^63 it is false while
alloc_size ≤ W and true while alloc_size > W, whatever calls moved alloc_size
there (in particular false again once deallocations and a merge have brought
alloc_size back to W or below). The query is a function of the state alone:
it reads the two counters and changes none. -/
theorem above_high_watermark_iff (m : Mem) :
    (m.g.g_memory_watermark = 0 → memory.above_high_watermark m = false) ∧
    (m.g.g_memory_watermark ≠ 0 →
      (memory.above_high_watermark m = true ↔
        m.g.g_memory_alloc_size > m.g.g_memory_watermark)) ∧
    (∀ W : Int, 0 < W → W < two63 →
      (m.g.g_memory_alloc_size ≤ W →
        memory.above_high_watermark (memory.set_high_watermark W m) = false) ∧
      (m.g.g_memory_alloc_size > W →
        memory.above_high_watermark (memory.set_high_watermark W m) = true)) := by
  refine ⟨?_, ?_, ?_⟩
  · intro h
    simp [memory.above_high_watermark, h]
  · intro h
    simp [memory.above_high_watermark, h]
  · intro W h0 h1
    have hw : wrap64 W = W := wrap64_of_range W (by unfold two63; omega) h1
    have hne : W ≠ 0 := ne_of_gt h0
    simp only [memory.above_high_watermark, memory.set_high_watermark, hw, hne, if_false,
      decide_eq_false_iff_not, decide_eq_true_eq, not_lt, gt_iff_lt]
    exact ⟨fun h => h, fun h => h⟩

/-! ## The count limit in the thread-local version (C12) -/

/-- C12, as stated, fails: the thread-local version looks at the count limit
only inside a merge. With count limit K = 1 and no byte limit, from the
initial state, two allocates of 16 bytes both return their blocks: the
(K+1)-th call does not terminate the process, and alloc_count is still 0. -/
theorem count_limit_not_checked_without_merge :
    (memory.set_max_alloc_count 1 Mem.init).g.g_memory_max_alloc_count = 1 ∧
    (memory.set_max_alloc_count 1 Mem.init).g.g_memory_max_size = 0 ∧
    thread_local_version.allocate_outcomes .native
      [((16 : Int), (⟨4096, 16⟩ : HostBlock)), ((16 : Int), (⟨8192, 16⟩ : HostBlock))]
      (memory.set_max_alloc_count 1 Mem.init)
      = [Outcome.returned 4096, Outcome.returned 8192] ∧
    (run .thread_local_version .native Hooks.none
      [.allocate 16 (some ⟨4096, 16⟩), .allocate 16 (some ⟨8192, 16⟩)]
      (memory.set_max_alloc_count 1 Mem.init)).g.g_memory_alloc_count = 0 := by
  decide

/-- C12, amended: in the thread-local version with a count limit K > 0 and no
byte limit, the count ceiling is examined only in the merge an allocate call
triggers. An allocate the host allocator serves terminates the process with
the allocation-count-exceeded status exactly when its charge takes delta_size
above 100000 and the alloc_count of that merge (alloc_count plus the thread's
delta_count, this call included) exceeds K; otherwise it returns its block.
In particular, starting from delta_size = 0, every sequence of allocate calls
whose sizes keep delta_size within 100000 returns a block at every call,
however many calls there are. -/
theorem count_limit_checked_only_in_merge (cfg : SizeRecovery) (K : Int)
    (reqs : List (Int × HostBlock)) (s : Int) (hb : HostBlock) (m : Mem)
    (hK : m.g.g_memory_max_alloc_count = K) (hpos : 0 < K)
    (hbyte : m.g.g_memory_max_size = 0) :
    ((thread_local_version.allocate cfg (some hb) s m).outcome
        = .exited .ERR_ALLOC_EXCEEDED ↔
      (wrap64 (m.t.g_memory_thread_alloc_size + request_size cfg s) > 100000 ∧
        wrap64 (m.g.g_memory_alloc_count + wrap64 (m.t.g_memory_thread_alloc_count + 1))
          > K)) ∧
    ((thread_local_version.allocate cfg (some hb) s m).outcome
        ≠ .exited .ERR_ALLOC_EXCEEDED →
      (thread_local_version.allocate cfg (some hb) s m).outcome
        = .returned (user_pointer cfg hb)) ∧
    (m.t.g_memory_thread_alloc_size = 0 →
      (∀ q ∈ reqs, request_ok q = true) →
      fits cfg 100000 0 reqs = true →
      served_total cfg reqs < two63 →
      thread_local_version.allocate_outcomes cfg reqs m
        = reqs.map (fun q => Outcome.returned (user_pointer cfg q.2))) := by
  have hK0 : m.g.g_memory_max_alloc_count ≠ 0 := by rw [hK]; exact ne_of_gt hpos
  refine ⟨?_, ?_, ?_⟩
  · simp only [thread_local_version.allocate, synchronize_if_above_eq,
      synchronize_counters_true, merge_state, hbyte, hK, SYNCH_THRESHOLD]
    cases cfg <;> split_ifs <;> simp_all [Result.andThen]
  · simp only [thread_local_version.allocate, synchronize_if_above_eq,
      synchronize_counters_true, merge_state, hbyte, hK, SYNCH_THRESHOLD]
    cases cfg <;> split_ifs <;> simp_all [Result.andThen, user_pointer]
  · intro hz hok hfit hrange
    exact thread_local_allocate_outcomes_unmerged cfg reqs m (by rw [hz])
      hok (by rw [hz]; exact hfit) (by rw [hz]; omega)

/-- Witness for `count_limit_checked_only_in_merge`: count limit 2, no byte
limit. Three allocates of 16 bytes all return; after two allocates of 16
bytes a third allocate of 200000 bytes triggers the first merge, which sees
alloc_count 3 > 2 and terminates the process. -/
theorem count_limit_checked_only_in_merge_witness :
    thread_local_version.allocate_outcomes .native
      [((16 : Int), (⟨4096, 16⟩ : HostBlock)), ((16 : Int), (⟨8192, 16⟩ : HostBlock)),
        ((16 : Int), (⟨12288, 16⟩ : HostBlock))]
      (memory.set_max_alloc_count 2 Mem.init)
      = [Outcome.returned 4096, Outcome.returned 8192, Outcome.returned 12288] ∧
    (thread_local_version.allocate .native (some ⟨12288, 200000⟩) 200000
      (run .thread_local_version .native Hooks.none
        [.allocate 16 (some ⟨4096, 16⟩), .allocate 16 (some ⟨8192, 16⟩)]
        (memory.set_max_alloc_count 2 Mem.init))).outcome
      = .exited .ERR_ALLOC_EXCEEDED :=
  ⟨(count_limit_checked_only_in_merge .native 2
      [(16, ⟨4096, 16⟩), (16, ⟨8192, 16⟩), (16, ⟨12288, 16⟩)] 0 ⟨0, 0⟩
      (memory.set_max_alloc_count 2 Mem.init) (by decide) (by decide) (by decide)).2.2
      (by decide) (by decide) (by decide) (by decide),
   (count_limit_checked_only_in_merge .native 2 [] 200000 ⟨12288, 200000⟩
      (run .thread_local_version .native Hooks.none
        [.allocate 16 (some ⟨4096, 16⟩), .allocate 16 (some ⟨8192, 16⟩)]
        (memory.set_max_alloc_count 2 Mem.init)) (by decide) (by decide) (by decide)).1.mpr
      (by decide)⟩

/-! ## The allocation count and frees (C13) -/

/-- C13, as stated, fails: deallocate never touches alloc_count. In the
single-thread mode, from the initial state, an allocate of 16 bytes followed
by the deallocate of the returned block leaves get_allocation_count() = 1
while no block is outstanding. -/
theorem allocation_count_ignores_frees :
    all_served .single_thread_mode .native Hooks.none
      [.allocate 16 (some ⟨4096, 16⟩), .deallocate 4096] Mem.init = true ∧
    memory.get_allocation_count
      (run .single_thread_mode .native Hooks.none
        [.allocate 16 (some ⟨4096, 16⟩), .deallocate 4096] Mem.init) = 1 ∧
    (run .single_thread_mode .native Hooks.none
      [.allocate 16 (some ⟨4096, 16⟩), .deallocate 4096] Mem.init).heap.length = 0 := by
  decide

/-- C13, amended: alloc_count counts allocating calls and is not reduced by
frees. In the single-thread mode, starting from alloc_count = 0, after every
sequence of allocate calls that return a block and deallocate calls on
outstanding blocks, get_allocation_count() equals the number of allocate
calls made (fewer than 2^64), so an allocate followed by the deallocate of
the returned block leaves it one higher. -/
theorem allocation_count_is_number_of_allocates (cfg : SizeRecovery) (hk : Hooks)
    (ops : List Op) (m0 : Mem)
    (hzero : m0.g.g_memory_alloc_count = 0)
    (hserved : all_served .single_thread_mode cfg hk ops m0 = true)
    (hn : (allocate_calls ops : Int) < two64) :
    memory.get_allocation_count (run .single_thread_mode cfg hk ops m0)
      = (allocate_calls ops : Int) := by
  have h := single_thread_run_count cfg hk ops m0 hserved
  rw [hzero] at h
  have hnn : (0 : Int) ≤ (allocate_calls ops : Int) := Int.natCast_nonneg _
  simp only [memory.get_allocation_count, u64, wrap64, two63, two64] at *
  omega

/-- Witness for `allocation_count_is_number_of_allocates`: two allocates and
the deallocate of the first block leave get_allocation_count() = 2. -/
theorem allocation_count_is_number_of_allocates_witness :
    memory.get_allocation_count
      (run .single_thread_mode .native Hooks.none
        [.allocate 16 (some ⟨4096, 16⟩), .allocate 8 (some ⟨8192, 8⟩), .deallocate 4096]
        Mem.init) = 2 :=
  allocation_count_is_number_of_allocates .native Hooks.none
    [.allocate 16 (some ⟨4096, 16⟩), .allocate 8 (some ⟨8192, 8⟩), .deallocate 4096]
    Mem.init (by decide) (by decide) (by decide)

/-! ## Finalize, initialize and alloc_size (C14) -/

/-- C14, as stated, fails: neither finalize nor initialize writes alloc_size.
After an allocate of 64 bytes in the initialized single-thread mode, a
finalize followed by an initialize leaves alloc_size = 64, not 0, although
no thread delta has been merged since that finalize. -/
theorem reinitialize_keeps_alloc_size :
    (single_thread_mode.allocate .native (some ⟨4096, 64⟩) 64
      ( memory.initialize Hooks.none UINT_MAX Mem.init)).state.g.g_memory_alloc_size = 64 ∧
    (single_thread_mode.allocate .native (some ⟨4096, 64⟩) 64
      ( memory.initialize Hooks.none UINT_MAX Mem.init)).state.g.g_memory_initialized = true ∧
    ( memory.initialize Hooks.none UINT_MAX
      (memory.finalize Hooks.none false
        (single_thread_mode.allocate .native (some ⟨4096, 64⟩) 64
          ( memory.initialize Hooks.none UINT_MAX Mem.init)).state)).g.g_memory_alloc_size
      = 64 ∧
    ( memory.initialize Hooks.none UINT_MAX
      (memory.finalize Hooks.none false
        (single_thread_mode.allocate .native (some ⟨4096, 64⟩) 64
          ( memory.initialize Hooks.none UINT_MAX Mem.init)).state)).g.g_memory_initialized
      = true := by
  decide

/-- C14, amended: provided the external hooks leave alloc_size alone, for
every state, finalize and initialize each leave alloc_size unchanged, so
after a finalize followed by an initialize alloc_size is what it was when
finalize was called; a merge after the re-initialization adds the thread's
delta_size to that value. alloc_size is therefore its value at process start
plus the deltas merged since process start, not since the last finalize. -/
theorem finalize_initialize_keep_alloc_size (hk : Hooks) (shutdown : Bool) (max_size : Int)
    (m : Mem)
    (hhooks : ∀ x : Mem,
      (hk.mem_initialize x).g.g_memory_alloc_size = x.g.g_memory_alloc_size ∧
      (hk.mem_finalize x).g.g_memory_alloc_size = x.g.g_memory_alloc_size ∧
      (hk.scoped_timer_finalize x).g.g_memory_alloc_size = x.g.g_memory_alloc_size) :
    (memory.finalize hk shutdown m).g.g_memory_alloc_size = m.g.g_memory_alloc_size ∧
    ( memory.initialize hk max_size m).g.g_memory_alloc_size = m.g.g_memory_alloc_size ∧
    ( memory.initialize hk max_size (memory.finalize hk shutdown m)).g.g_memory_alloc_size
      = m.g.g_memory_alloc_size ∧
    (∀ allocating : Bool,
      (synchronize_counters allocating
        ( memory.initialize hk max_size (memory.finalize hk shutdown m))).state.g.g_memory_alloc_size
        = wrap64 (m.g.g_memory_alloc_size
            + ( memory.initialize hk max_size
                (memory.finalize hk shutdown m)).t.g_memory_thread_alloc_size)) := by
  have hfin : ∀ x : Mem,
      (memory.finalize hk shutdown x).g.g_memory_alloc_size = x.g.g_memory_alloc_size := by
    intro x
    by_cases hi : x.g.g_memory_initialized = true <;> cases shutdown <;>
      simp [memory.finalize, hi, (hhooks _).2.1, (hhooks _).2.2]
  have hini : ∀ x : Mem,
      ( memory.initialize hk max_size x).g.g_memory_alloc_size = x.g.g_memory_alloc_size := by
    intro x
    by_cases hi : x.g.g_memory_initialized = true <;> by_cases hs : max_size = UINT_MAX <;>
      simp [ memory.initialize, hi, hs, (hhooks _).1]
  refine ⟨hfin m, hini m, by rw [hini, hfin], ?_⟩
  intro allocating
  rw [(synchronize_counters_alloc_size allocating _), hini, hfin]

/-- Witness for `finalize_initialize_keep_alloc_size`, with hooks that do
nothing: a state holding 64 bytes keeps alloc_size = 64 through a finalize
with shutdown and an initialize that sets the byte limit to 1000. -/
theorem finalize_initialize_keep_alloc_size_witness :
    ( memory.initialize Hooks.none 1000
      (memory.finalize Hooks.none true
        (single_thread_mode.allocate .native (some ⟨4096, 64⟩) 64
          ( memory.initialize Hooks.none UINT_MAX Mem.init)).state)).g.g_memory_alloc_size
      = 64 :=
  ((finalize_initialize_keep_alloc_size Hooks.none true 1000
      (single_thread_mode.allocate .native (some ⟨4096, 64⟩) 64
        ( memory.initialize Hooks.none UINT_MAX Mem.init)).state
      (fun _ => ⟨rfl, rfl, rfl⟩)).2.2.1).trans (by decide)

/-! ## Matched pairs on several threads (C15) -/

/-- C15: for a process with any number of threads whose deltas are 0 when
they start, and for every interleaving of allocate and deallocate calls of
these threads in which every call returns normally (each allocate is served
at a fresh address, each deallocate frees an outstanding block) and the pairs
are matched, that is, the blocks outstanding at the end are the blocks
outstanding at the start: once every thread's delta_size is 0,
get_allocation_size() equals its value before the threads started. Calls are
the steps of the interleaving: the statics are written only inside
`synchronize_counters`, under the lock, and the merges of different threads
add up to the same alloc_size in either order. -/
theorem matched_pairs_restore_allocation_size (cfg : SizeRecovery) (hk : Hooks)
    (sched : List (Nat × Op)) (P0 : Process)
    (hnd : (P0.heap.map Block.ptr).Nodup)
    (hlo : -two63 ≤ P0.g.g_memory_alloc_size) (hhi : P0.g.g_memory_alloc_size < two63)
    (hstart : ∀ t ∈ P0.threads, t.g_memory_thread_alloc_size = 0)
    (hserved : threads_served cfg hk sched P0 = true)
    (hmatched : (run_threads cfg hk sched P0).heap = P0.heap)
    (hmerged : ∀ t ∈ (run_threads cfg hk sched P0).threads,
      t.g_memory_thread_alloc_size = 0) :
    memory.get_allocation_size ((run_threads cfg hk sched P0).view 0)
      = memory.get_allocation_size (P0.view 0) := by
  have h0 := delta_total_zero P0 hstart
  have h1 := delta_total_zero _ hmerged
  obtain ⟨hbal, hlo', hhi'⟩ := run_threads_balance cfg hk
    (P0.g.g_memory_alloc_size - (P0.heap.map (recovered_size cfg)).sum) sched P0 hnd
    (by rw [h0]; simp) hlo hhi hserved
  rw [h1, hmatched] at hbal
  have heq : (run_threads cfg hk sched P0).g.g_memory_alloc_size
      = P0.g.g_memory_alloc_size := by
    simp only [two63, two64] at *
    omega
  simp only [memory.get_allocation_size, Process.view, heq]

/-- Witness for `matched_pairs_restore_allocation_size`: two threads; thread
0 allocates 200000 bytes, thread 1 allocates 150000 bytes (alloc_size is then
350000), thread 0 frees its block, thread 1 frees its block. Every call
merges, all deltas end at 0 and get_allocation_size() is 0 again. -/
theorem matched_pairs_restore_allocation_size_witness :
    memory.get_allocation_size
      ((run_threads .native Hooks.none
        [(0, .allocate 200000 (some ⟨4096, 200000⟩)),
          (1, .allocate 150000 (some ⟨8192, 150000⟩))]
        ⟨Globals.init, [⟨0, 0⟩, ⟨0, 0⟩], []⟩).view 0) = 350000 ∧
    memory.get_allocation_size
      ((run_threads .native Hooks.none
        [(0, .allocate 200000 (some ⟨4096, 200000⟩)),
          (1, .allocate 150000 (some ⟨8192, 150000⟩)),
          (0, .deallocate 4096), (1, .deallocate 8192)]
        ⟨Globals.init, [⟨0, 0⟩, ⟨0, 0⟩], []⟩).view 0)
      = memory.get_allocation_size
          ((⟨Globals.init, [⟨0, 0⟩, ⟨0, 0⟩], []⟩ : Process).view 0) :=
  ⟨by decide,
   matched_pairs_restore_allocation_size .native Hooks.none
     [(0, .allocate 200000 (some ⟨4096, 200000⟩)),
       (1, .allocate 150000 (some ⟨8192, 150000⟩)),
       (0, .deallocate 4096), (1, .deallocate 8192)]
     ⟨Globals.init, [⟨0, 0⟩, ⟨0, 0⟩], []⟩
     (by decide) (by decide) (by decide) (by decide) (by decide) (by decide) (by decide)⟩

/-! ## The synchronization threshold (C16) -/

/-- C16, as stated, fails at the threshold itself: the comparisons are strict.
An allocate of 100000 bytes from the initial state leaves delta_size = 100000
and alloc_size = 0, so no merge has taken place. After an allocate of 100000
bytes, an allocate of 1 byte (which merges, alloc_size = 100001) and the
deallocate of the first block, delta_size is -100000 and alloc_size is still
100001, so the deallocate has not merged either. -/
theorem threshold_itself_does_not_merge :
    (thread_local_version.allocate .native (some ⟨4096, 100000⟩) 100000
      Mem.init).state.t.g_memory_thread_alloc_size = 100000 ∧
    (thread_local_version.allocate .native (some ⟨4096, 100000⟩) 100000
      Mem.init).state.g.g_memory_alloc_size = 0 ∧
    (run .thread_local_version .native Hooks.none
      [.allocate 100000 (some ⟨4096, 100000⟩), .allocate 1 (some ⟨8192, 1⟩)]
      Mem.init).t.g_memory_thread_alloc_size = 0 ∧
    (run .thread_local_version .native Hooks.none
      [.allocate 100000 (some ⟨4096, 100000⟩), .allocate 1 (some ⟨8192, 1⟩)]
      Mem.init).g.g_memory_alloc_size = 100001 ∧
    (run .thread_local_version .native Hooks.none
      [.allocate 100000 (some ⟨4096, 100000⟩), .allocate 1 (some ⟨8192, 1⟩),
        .deallocate 4096]
      Mem.init).t.g_memory_thread_alloc_size = -100000 ∧
    (run .thread_local_version .native Hooks.none
      [.allocate 100000 (some ⟨4096, 100000⟩), .allocate 1 (some ⟨8192, 1⟩),
        .deallocate 4096]
      Mem.init).g.g_memory_alloc_size = 100001 := by
  decide

/-- C16, amended: in the thread-local version a call merges the thread's
delta into the global counters exactly when delta_size, after the call's size
has been applied, is strictly beyond the threshold. An allocate whose charged
delta is at most 100000 leaves alloc_size, alloc_count and max_used_size as
they were; one whose charged delta exceeds 100000 leaves alloc_size increased
by that delta. A deallocate whose reduced delta is at least -100000 leaves
the global counters as they were and the thread with that delta; one whose
reduced delta is below -100000 leaves alloc_size changed by that delta and
delta_size = 0. -/
theorem merge_only_beyond_threshold (cfg : SizeRecovery) (host : Option HostBlock) (s : Int)
    (p : Nat) (m : Mem) :
    (wrap64 (m.t.g_memory_thread_alloc_size + request_size cfg s) ≤ 100000 →
      (thread_local_version.allocate cfg host s m).state.g.g_memory_alloc_size
        = m.g.g_memory_alloc_size ∧
      (thread_local_version.allocate cfg host s m).state.g.g_memory_alloc_count
        = m.g.g_memory_alloc_count ∧
      (thread_local_version.allocate cfg host s m).state.g.g_memory_max_used_size
        = m.g.g_memory_max_used_size) ∧
    (wrap64 (m.t.g_memory_thread_alloc_size + request_size cfg s) > 100000 →
      (thread_local_version.allocate cfg host s m).state.g.g_memory_alloc_size
        = wrap64 (m.g.g_memory_alloc_size
            + wrap64 (m.t.g_memory_thread_alloc_size + request_size cfg s))) ∧
    (wrap64 (m.t.g_memory_thread_alloc_size - consumed_size cfg m.heap p) ≥ -100000 →
      (thread_local_version.deallocate cfg p m).state.g = m.g ∧
      (thread_local_version.deallocate cfg p m).state.t.g_memory_thread_alloc_size
        = wrap64 (m.t.g_memory_thread_alloc_size - consumed_size cfg m.heap p)) ∧
    (wrap64 (m.t.g_memory_thread_alloc_size - consumed_size cfg m.heap p) < -100000 →
      (thread_local_version.deallocate cfg p m).state.g.g_memory_alloc_size
        = wrap64 (m.g.g_memory_alloc_size
            + wrap64 (m.t.g_memory_thread_alloc_size - consumed_size cfg m.heap p)) ∧
      (thread_local_version.deallocate cfg p m).state.t.g_memory_thread_alloc_size = 0) := by
  refine ⟨?_, ?_, ?_, ?_⟩
  · intro h
    have hn : ¬ (wrap64 (m.t.g_memory_thread_alloc_size + request_size cfg s)
        > SYNCH_THRESHOLD) := by unfold SYNCH_THRESHOLD; omega
    simp only [thread_local_version.allocate, synchronize_if_above_eq, if_neg hn]
    cases host <;> cases cfg <;> simp [Result.andThen]
  · intro h
    have hp : wrap64 (m.t.g_memory_thread_alloc_size + request_size cfg s)
        > SYNCH_THRESHOLD := by unfold SYNCH_THRESHOLD; omega
    simp only [thread_local_version.allocate, synchronize_if_above_eq, if_pos hp,
      synchronize_counters_true]
    cases host <;> cases cfg <;> split_ifs <;>
      simp [Result.andThen, merge_state] <;> split_ifs <;> simp
  · intro h
    have hn : ¬ (wrap64 (m.t.g_memory_thread_alloc_size - consumed_size cfg m.heap p)
        < -SYNCH_THRESHOLD) := by unfold SYNCH_THRESHOLD; omega
    simp only [thread_local_version.deallocate, if_neg hn, and_self]
  · intro h
    have hp : wrap64 (m.t.g_memory_thread_alloc_size - consumed_size cfg m.heap p)
        < -SYNCH_THRESHOLD := by unfold SYNCH_THRESHOLD; omega
    simp only [thread_local_version.deallocate, if_pos hp, synchronize_counters_false,
      merge_state, and_self]

/-! ## What a merge does to the thread's deltas (C17) -/

/-- C17 holds for the size delta and fails for the count delta: in every
state a merge adds delta_size to alloc_size and delta_count to alloc_count
and leaves delta_size = 0, but it leaves delta_count as it was, so the next
merge adds the same allocations again. From the initial state, two allocates
of 200000 bytes (each one merges) leave the thread's delta_count at 1 and
then 2 and alloc_count at 1 and then 3: two allocating calls, alloc_count 3. -/
theorem merge_keeps_thread_alloc_count :
    (∀ (allocating : Bool) (m : Mem),
      (synchronize_counters allocating m).state.g.g_memory_alloc_size
        = wrap64 (m.g.g_memory_alloc_size + m.t.g_memory_thread_alloc_size) ∧
      (synchronize_counters allocating m).state.g.g_memory_alloc_count
        = wrap64 (m.g.g_memory_alloc_count + m.t.g_memory_thread_alloc_count) ∧
      (synchronize_counters allocating m).state.t.g_memory_thread_alloc_size = 0 ∧
      (synchronize_counters allocating m).state.t.g_memory_thread_alloc_count
        = m.t.g_memory_thread_alloc_count) ∧
    (run .thread_local_version .native Hooks.none
      [.allocate 200000 (some ⟨4096, 200000⟩)] Mem.init).t.g_memory_thread_alloc_count = 1 ∧
    (run .thread_local_version .native Hooks.none
      [.allocate 200000 (some ⟨4096, 200000⟩)] Mem.init).g.g_memory_alloc_count = 1 ∧
    all_served .thread_local_version .native Hooks.none
      [.allocate 200000 (some ⟨4096, 200000⟩), .allocate 200000 (some ⟨8192, 200000⟩)]
      Mem.init = true ∧
    (run .thread_local_version .native Hooks.none
      [.allocate 200000 (some ⟨4096, 200000⟩), .allocate 200000 (some ⟨8192, 200000⟩)]
      Mem.init).t.g_memory_thread_alloc_count = 2 ∧
    (run .thread_local_version .native Hooks.none
      [.allocate 200000 (some ⟨4096, 200000⟩), .allocate 200000 (some ⟨8192, 200000⟩)]
      Mem.init).g.g_memory_alloc_count = 3 := by
  refine ⟨?_, by decide, by decide, by decide, by decide, by decide⟩
  intro allocating m
  cases allocating
  · simp [synchronize_counters_false, merge_state]
  · rw [synchronize_counters_true]
    split_ifs <;> simp [merge_state]

/-! ## The signed difference a reallocate accounts for (C18) -/

/-- C18, as stated, fails in the thread-local version when the reallocate
triggers a merge: the merge moves the delta into alloc_size and resets it.
A block of consumed size 16 (delta_size = 16) is reallocated to 200000 bytes
and a block of consumed size 200000 is returned; delta_size goes from 16 to
0, a change of -16 and not of 200000 - 16, while alloc_size goes from 0 to
200000. -/
theorem reallocate_merge_resets_delta :
    (thread_local_version.allocate .native (some ⟨4096, 16⟩) 16
      Mem.init).state.t.g_memory_thread_alloc_size = 16 ∧
    consumed_size .native
      (thread_local_version.allocate .native (some ⟨4096, 16⟩) 16 Mem.init).state.heap 4096
      = 16 ∧
    (thread_local_version.reallocate .native (some ⟨8192, 200000⟩) 4096 200000
      (thread_local_version.allocate .native (some ⟨4096, 16⟩) 16 Mem.init).state).outcome
      = .returned 8192 ∧
    consumed_size .native
      (thread_local_version.reallocate .native (some ⟨8192, 200000⟩) 4096 200000
        (thread_local_version.allocate .native (some ⟨4096, 16⟩) 16
          Mem.init).state).state.heap 8192
      = 200000 ∧
    (thread_local_version.reallocate .native (some ⟨8192, 200000⟩) 4096 200000
      (thread_local_version.allocate .native (some ⟨4096, 16⟩) 16
        Mem.init).state).state.t.g_memory_thread_alloc_size = 0 ∧
    (thread_local_version.reallocate .native (some ⟨8192, 200000⟩) 4096 200000
      (thread_local_version.allocate .native (some ⟨4096, 16⟩) 16
        Mem.init).state).state.g.g_memory_alloc_size = 200000 := by
  decide

/-- C18, amended: for every reallocate call that reaches the host allocator
and returns a block, with new_consumed the size recovered for the returned
block and old_consumed the size recovered for the old one, the unsigned
`size_t` differences add up to the signed difference: in the single-thread
mode alloc_size changes by new_consumed − old_consumed (as a 64-bit value,
and as a number whenever the result is a `long long`); in the thread-local
version alloc_size + delta_size changes by it, and when the call triggers no
merge alloc_size is unchanged and delta_size itself changes by it. This holds
also when the new consumed size is the smaller one. -/
theorem reallocate_accounts_signed_difference (cfg : SizeRecovery) (hb : HostBlock) (p : Nat)
    (s : Int) (m : Mem) (q : Nat)
    (hreach : ¬ (cfg = .native ∧ consumed_size cfg m.heap p ≥ s)) :
    ((single_thread_mode.reallocate cfg (some hb) p s m).outcome = .returned q →
      (single_thread_mode.reallocate cfg (some hb) p s m).state.g.g_memory_alloc_size
        = wrap64 (m.g.g_memory_alloc_size
            + (consumed_size cfg
                (single_thread_mode.reallocate cfg (some hb) p s m).state.heap q
              - consumed_size cfg m.heap p)) ∧
      (-two63 ≤ m.g.g_memory_alloc_size
            + (consumed_size cfg
                (single_thread_mode.reallocate cfg (some hb) p s m).state.heap q
              - consumed_size cfg m.heap p) →
        m.g.g_memory_alloc_size
            + (consumed_size cfg
                (single_thread_mode.reallocate cfg (some hb) p s m).state.heap q
              - consumed_size cfg m.heap p) < two63 →
        (single_thread_mode.reallocate cfg (some hb) p s m).state.g.g_memory_alloc_size
          = m.g.g_memory_alloc_size
            + (consumed_size cfg
                (single_thread_mode.reallocate cfg (some hb) p s m).state.heap q
              - consumed_size cfg m.heap p))) ∧
    ((thread_local_version.reallocate cfg (some hb) p s m).outcome = .returned q →
      wrap64 ((thread_local_version.reallocate cfg (some hb) p s m).state.g.g_memory_alloc_size
          + (thread_local_version.reallocate cfg (some hb) p s
              m).state.t.g_memory_thread_alloc_size)
        = wrap64 (m.g.g_memory_alloc_size + m.t.g_memory_thread_alloc_size
            + (consumed_size cfg
                (thread_local_version.reallocate cfg (some hb) p s m).state.heap q
              - consumed_size cfg m.heap p)) ∧
      (wrap64 (m.t.g_memory_thread_alloc_size
          + u64 (request_size cfg s - consumed_size cfg m.heap p)) ≤ 100000 →
        (thread_local_version.reallocate cfg (some hb) p s m).state.g.g_memory_alloc_size
          = m.g.g_memory_alloc_size ∧
        (thread_local_version.reallocate cfg (some hb) p s
            m).state.t.g_memory_thread_alloc_size
          = wrap64 (m.t.g_memory_thread_alloc_size
              + (consumed_size cfg
                  (thread_local_version.reallocate cfg (some hb) p s m).state.heap q
                - consumed_size cfg m.heap p)) ∧
        (-two63 ≤ m.t.g_memory_thread_alloc_size
              + (consumed_size cfg
                  (thread_local_version.reallocate cfg (some hb) p s m).state.heap q
                - consumed_size cfg m.heap p) →
          m.t.g_memory_thread_alloc_size
              + (consumed_size cfg
                  (thread_local_version.reallocate cfg (some hb) p s m).state.heap q
                - consumed_size cfg m.heap p) < two63 →
          (thread_local_version.reallocate cfg (some hb) p s
              m).state.t.g_memory_thread_alloc_size
            = m.t.g_memory_thread_alloc_size
              + (consumed_size cfg
                  (thread_local_version.reallocate cfg (some hb) p s m).state.heap q
                - consumed_size cfg m.heap p)))) := by
  constructor
  · intro hret
    obtain ⟨_, hnew, hsize⟩ := single_thread_reallocate_returned cfg hb p s m q hreach hret
    rw [hnew, hsize]
    refine ⟨rfl, ?_⟩
    intro hlo hhi
    exact wrap64_of_range _ hlo hhi
  · intro hret
    obtain ⟨_, hnew, hsum⟩ := thread_local_reallocate_returned cfg hb p s m q hreach hret
    rw [hnew]
    constructor
    · simp only [wrap64, two63, two64] at *
      omega
    · intro hle
      obtain ⟨hg, ht⟩ := thread_local_reallocate_unmerged cfg hb p s m hreach hle
      rw [hg, ht]
      refine ⟨rfl, rfl, ?_⟩
      intro hlo hhi
      exact wrap64_of_range _ hlo hhi

/-- Witness for `reallocate_accounts_signed_difference`: a shrinking
reallocate under the header-prefixed strategy in the single-thread mode. A
block obtained by allocate(100) has consumed size 108; reallocated to 20
bytes it has consumed size 28, and alloc_size goes from 108 to 28. -/
theorem reallocate_accounts_signed_difference_witness :
    (single_thread_mode.allocate .header (some ⟨4096, 112⟩) 100
      Mem.init).state.g.g_memory_alloc_size = 108 ∧
    (single_thread_mode.reallocate .header (some ⟨4096, 112⟩) 4104 20
      (single_thread_mode.allocate .header (some ⟨4096, 112⟩) 100
        Mem.init).state).state.g.g_memory_alloc_size = 28 :=
  ⟨by decide,
   (((reallocate_accounts_signed_difference .header ⟨4096, 112⟩ 4104 20
      (single_thread_mode.allocate .header (some ⟨4096, 112⟩) 100 Mem.init).state 4104
      (by decide)).1 (by decide)).2 (by decide) (by decide)).trans (by decide)⟩

/-! ## The high-water mark in the single-thread mode (C19) -/

/-- C19, as stated, fails under the native-query strategy: the mark is raised
before the host call, and the rounding of the host allocator is added to
alloc_size after it. From the initial state, an allocate of 10 bytes served
by a block of usable size 16 leaves alloc_size = 16 and max_used_size = 10. -/
theorem mark_misses_host_rounding :
    (single_thread_mode.allocate .native (some ⟨4096, 16⟩) 10 Mem.init).outcome
      = .returned 4096 ∧
    (single_thread_mode.allocate .native (some ⟨4096, 16⟩) 10
      Mem.init).state.g.g_memory_alloc_size = 16 ∧
    (single_thread_mode.allocate .native (some ⟨4096, 16⟩) 10
      Mem.init).state.g.g_memory_max_used_size = 10 := by
  decide

/-- C19, amended: in the single-thread mode, in every state, after an
allocate or a reallocate that went to the host allocator and returned a
block, max_used_size is at least the alloc_size the call had charged when it
raised the mark. Under the header-prefixed strategy that is the final
alloc_size, so max_used_size ≥ alloc_size; under the native-query strategy
the final alloc_size is that value plus the difference between the usable
size of the new block and the size handed to the host allocator, which the
mark does not include. -/
theorem mark_covers_charged_size (cfg : SizeRecovery) (hb : HostBlock) (p : Nat) (s : Int)
    (m : Mem) :
    (∀ q, (single_thread_mode.allocate cfg (some hb) s m).outcome = .returned q →
      (single_thread_mode.allocate cfg (some hb) s m).state.g.g_memory_max_used_size
        ≥ wrap64 (m.g.g_memory_alloc_size + request_size cfg s) ∧
      (single_thread_mode.allocate cfg (some hb) s m).state.g.g_memory_alloc_size
        = (match cfg with
            | .native =>
              wrap64 (wrap64 (m.g.g_memory_alloc_size + request_size cfg s)
                + u64 (hb.usable - request_size cfg s))
            | .header => wrap64 (m.g.g_memory_alloc_size + request_size cfg s)) ∧
      (cfg = .header →
        (single_thread_mode.allocate cfg (some hb) s m).state.g.g_memory_max_used_size
          ≥ (single_thread_mode.allocate cfg (some hb) s m).state.g.g_memory_alloc_size)) ∧
    (∀ q, ¬ (cfg = .native ∧ consumed_size cfg m.heap p ≥ s) →
      (single_thread_mode.reallocate cfg (some hb) p s m).outcome = .returned q →
      (single_thread_mode.reallocate cfg (some hb) p s m).state.g.g_memory_max_used_size
        ≥ wrap64 (m.g.g_memory_alloc_size
            + u64 (request_size cfg s - consumed_size cfg m.heap p)) ∧
      (single_thread_mode.reallocate cfg (some hb) p s m).state.g.g_memory_alloc_size
        = (match cfg with
            | .native =>
              wrap64 (wrap64 (m.g.g_memory_alloc_size
                  + u64 (request_size cfg s - consumed_size cfg m.heap p))
                + u64 (hb.usable - request_size cfg s))
            | .header =>
              wrap64 (m.g.g_memory_alloc_size
                + u64 (request_size cfg s - consumed_size cfg m.heap p))) ∧
      (cfg = .header →
        (single_thread_mode.reallocate cfg (some hb) p s m).state.g.g_memory_max_used_size
          ≥ (single_thread_mode.reallocate cfg (some hb) p s m).state.g.g_memory_alloc_size)) := by
  constructor
  · intro q
    simp only [single_thread_mode.allocate, check_limits_eq]
    cases cfg <;> split_ifs <;> simp [Result.andThen, raise_mark] <;> split_ifs <;> simp
  · intro q he
    simp only [single_thread_mode.reallocate, if_neg he, check_limits_eq]
    cases cfg <;> split_ifs <;> simp [Result.andThen, raise_mark] <;> split_ifs <;> simp

/-! ## The thread-local version refines the single-thread mode (C20) -/

/-- C20: with no byte limit, no count limit and a host allocator that never
fails, for every sequence of allocate, deallocate and reallocate calls made
by one thread from a state with alloc_size = 0 and delta_size = 0, run once
in the single-thread mode and once in the thread-local version: after the
sequence (so after every call of it) both runs have the same live blocks, and
the single-thread alloc_size equals the thread-local alloc_size plus the
thread's delta_size, as 64-bit values, and as numbers whenever that sum is a
`long long`. -/
theorem thread_local_refines_single_thread (cfg : SizeRecovery) (hk : Hooks)
    (ops : List Op) (m0 : Mem)
    (hsize : m0.g.g_memory_alloc_size = 0)
    (hdelta : m0.t.g_memory_thread_alloc_size = 0)
    (hbyte : m0.g.g_memory_max_size = 0)
    (hcount : m0.g.g_memory_max_alloc_count = 0)
    (hserve : ∀ op ∈ ops, host_serves op = true) :
    (run .single_thread_mode cfg hk ops m0).heap
      = (run .thread_local_version cfg hk ops m0).heap ∧
    (run .single_thread_mode cfg hk ops m0).g.g_memory_alloc_size
      = wrap64 ((run .thread_local_version cfg hk ops m0).g.g_memory_alloc_size
          + (run .thread_local_version cfg hk ops m0).t.g_memory_thread_alloc_size) ∧
    (-two63 ≤ (run .thread_local_version cfg hk ops m0).g.g_memory_alloc_size
        + (run .thread_local_version cfg hk ops m0).t.g_memory_thread_alloc_size →
      (run .thread_local_version cfg hk ops m0).g.g_memory_alloc_size
        + (run .thread_local_version cfg hk ops m0).t.g_memory_thread_alloc_size < two63 →
      (run .single_thread_mode cfg hk ops m0).g.g_memory_alloc_size
        = (run .thread_local_version cfg hk ops m0).g.g_memory_alloc_size
          + (run .thread_local_version cfg hk ops m0).t.g_memory_thread_alloc_size) := by
  have h0 : bytes_agree m0 m0 := by
    refine ⟨rfl, ?_, hbyte, hcount, hbyte, hcount⟩
    rw [hsize, hdelta]
    decide
  obtain ⟨hheap, hagree, _⟩ := run_bytes_agree cfg hk ops m0 m0 h0 hserve
  refine ⟨hheap, hagree, ?_⟩
  intro hlo hhi
  rw [hagree]
  exact wrap64_of_range _ hlo hhi

/-- Witness for `thread_local_refines_single_thread`: allocate 60000,
allocate 50000 (the thread-local version merges 110000 here), reallocate the
first block to 70000, deallocate the second block. The single-thread
alloc_size is 120000 - 50000 = 70000; the thread-local version holds 110000
in alloc_size and -40000 in delta_size. -/
theorem thread_local_refines_single_thread_witness :
    (run .single_thread_mode .native Hooks.none
      [.allocate 60000 (some ⟨4096, 60000⟩), .allocate 50000 (some ⟨8192, 50000⟩),
        .reallocate 4096 70000 (some ⟨12288, 70000⟩), .deallocate 8192]
      Mem.init).g.g_memory_alloc_size = 70000 ∧
    (run .thread_local_version .native Hooks.none
      [.allocate 60000 (some ⟨4096, 60000⟩), .allocate 50000 (some ⟨8192, 50000⟩),
        .reallocate 4096 70000 (some ⟨12288, 70000⟩), .deallocate 8192]
      Mem.init).g.g_memory_alloc_size = 110000 ∧
    (run .thread_local_version .native Hooks.none
      [.allocate 60000 (some ⟨4096, 60000⟩), .allocate 50000 (some ⟨8192, 50000⟩),
        .reallocate 4096 70000 (some ⟨12288, 70000⟩), .deallocate 8192]
      Mem.init).t.g_memory_thread_alloc_size = -40000 ∧
    (run .single_thread_mode .native Hooks.none
      [.allocate 60000 (some ⟨4096, 60000⟩), .allocate 50000 (some ⟨8192, 50000⟩),
        .reallocate 4096 70000 (some ⟨12288, 70000⟩), .deallocate 8192]
      Mem.init).g.g_memory_alloc_size
      = (run .thread_local_version .native Hooks.none
          [.allocate 60000 (some ⟨4096, 60000⟩), .allocate 50000 (some ⟨8192, 50000⟩),
            .reallocate 4096 70000 (some ⟨12288, 70000⟩), .deallocate 8192]
          Mem.init).g.g_memory_alloc_size
        + (run .thread_local_version .native Hooks.none
          [.allocate 60000 (some ⟨4096, 60000⟩), .allocate 50000 (some ⟨8192, 50000⟩),
            .reallocate 4096 70000 (some ⟨12288, 70000⟩), .deallocate 8192]
          Mem.init).t.g_memory_thread_alloc_size :=
  ⟨by decide, by decide, by decide,
   (thread_local_refines_single_thread .native Hooks.none
      [.allocate 60000 (some ⟨4096, 60000⟩), .allocate 50000 (some ⟨8192, 50000⟩),
        .reallocate 4096 70000 (some ⟨12288, 70000⟩), .deallocate 8192]
      Mem.init (by decide) (by decide) (by decide) (by decide) (by decide)).2.2
      (by decide) (by decide)⟩

/-! ## The renaming built by `elim_unused_vars` (C21) -/

/-- C21: in `elim_unused_vars`, for every quantifier with num_decls
declarations and every set of used variable indices (num_decls and the
largest used index plus one being `unsigned` values, so in particular on the
path where some index below num_decls is unused), right before `var_mapping`
is reversed: num_removed is the number of unused indices below num_decls;
the entry of a used index i < num_decls is the variable numbered by the
number of used indices below i; the entry of a used index i ≥ num_decls is
the variable numbered i − num_removed; the entry of every unused index of
the mapping is null, and the mapping has max(num_decls, sz) entries; the
numbers of the non-null entries are strictly increasing; and the number of
declarations kept, `used_decl_sorts.size()`, is num_decls − num_removed. -/
theorem elim_unused_vars_renaming {σ ν : Type} (q : quantifier σ ν) (used : used_vars σ)
    (hdecls : (q.get_num_decls : Int) < 4294967296)
    (hsz : (used.get_max_found_var_idx_plus_1 : Int) < 4294967296)
    (hmax : ∀ i, (used.contains i).isSome = true → i < used.get_max_found_var_idx_plus_1) :
    (elim_unused_vars.build q used).num_removed = (unused_below used q.get_num_decls : Int) ∧
    (∀ i s, used.contains i = some s → i < q.get_num_decls →
      (elim_unused_vars.build q used).var_mapping[i]?
        = some (some ⟨(used_below used i : Int), s⟩)) ∧
    (∀ i s, used.contains i = some s → q.get_num_decls ≤ i →
      (elim_unused_vars.build q used).var_mapping[i]?
        = some (some ⟨(i : Int) - (elim_unused_vars.build q used).num_removed, s⟩)) ∧
    (∀ i, used.contains i = none → i < (elim_unused_vars.build q used).var_mapping.length →
      (elim_unused_vars.build q used).var_mapping[i]? = some none) ∧
    (elim_unused_vars.build q used).var_mapping.length
      = max q.get_num_decls used.get_max_found_var_idx_plus_1 ∧
    (∀ (i j : Nat) (vi vj : var σ), i < j →
      (elim_unused_vars.build q used).var_mapping[i]? = some (some vi) →
      (elim_unused_vars.build q used).var_mapping[j]? = some (some vj) →
      vi.idx < vj.idx) ∧
    ((elim_unused_vars.build q used).used_decl_sorts.length : Int)
      = (q.get_num_decls : Int) - (elim_unused_vars.build q used).num_removed ∧
    (elim_unused_vars.build q used).used_decl_names.length
      = (elim_unused_vars.build q used).used_decl_sorts.length := by
  obtain ⟨hvm, hrem, hsorts, hnames⟩ := build_closed_form q used hdecls hsz
  have hsum := used_add_unused_below used q.get_num_decls
  have hlen : (elim_unused_vars.build q used).var_mapping.length
      = max q.get_num_decls used.get_max_found_var_idx_plus_1 := by
    rw [hvm]
    simp only [List.length_append, List.length_map, List.length_range, List.length_range']
    omega
  refine ⟨hrem, ?_, ?_, ?_, hlen, ?_, ?_, ?_⟩
  · intro i s hc hi
    rw [build_entry q used hdecls hsz i, if_pos (by omega), hc]
    simp [renamed_idx, hi]
  · intro i s hc hi
    have hlt := hmax i (by rw [hc]; rfl)
    rw [build_entry q used hdecls hsz i, if_pos (by omega), hc, hrem]
    simp [renamed_idx, Nat.not_lt.mpr hi]
  · intro i hc hi
    rw [hlen] at hi
    rw [build_entry q used hdecls hsz i, if_pos hi, hc]
    rfl
  · intro i j vi vj hij hi hj
    rw [build_entry q used hdecls hsz i] at hi
    rw [build_entry q used hdecls hsz j] at hj
    split_ifs at hi hj
    cases hci : used.contains i with
    | none => simp [hci] at hi
    | some s =>
      cases hcj : used.contains j with
      | none => simp [hcj] at hj
      | some t =>
        simp only [hci, hcj, Option.map_some', Option.some.injEq] at hi hj
        rw [← hi, ← hj]
        exact renamed_idx_strict used q.get_num_decls i j hij (by rw [hci]; rfl)
  · rw [hsorts, hrem]
    omega
  · rw [hsorts, hnames]

/-- Witness for `elim_unused_vars_renaming`: four declarations, used
variables 1, 3 (bound) and 5 (free). Variables 0 and 2 are removed, 1 and 3
become 0 and 1, and the free variable 5 becomes 5 − 2 = 3; two declarations
are kept. -/
theorem elim_unused_vars_renaming_witness :
    (elim_unused_vars.build
      (⟨4, fun i => 10 + i, fun i => 20 + i⟩ : quantifier Nat Nat)
      (⟨fun i => if i = 1 ∨ i = 3 ∨ i = 5 then some (100 + i) else none, 6⟩ :
        used_vars Nat)).var_mapping
      = [none, some ⟨0, 101⟩, none, some ⟨1, 103⟩, none, some ⟨3, 105⟩] ∧
    ((elim_unused_vars.build
      (⟨4, fun i => 10 + i, fun i => 20 + i⟩ : quantifier Nat Nat)
      (⟨fun i => if i = 1 ∨ i = 3 ∨ i = 5 then some (100 + i) else none, 6⟩ :
        used_vars Nat)).used_decl_sorts.length : Int)
      = (4 : Int) - (elim_unused_vars.build
          (⟨4, fun i => 10 + i, fun i => 20 + i⟩ : quantifier Nat Nat)
          (⟨fun i => if i = 1 ∨ i = 3 ∨ i = 5 then some (100 + i) else none, 6⟩ :
            used_vars Nat)).num_removed :=
  ⟨by decide,
   (elim_unused_vars_renaming
      (⟨4, fun i => 10 + i, fun i => 20 + i⟩ : quantifier Nat Nat)
      (⟨fun i => if i = 1 ∨ i = 3 ∨ i = 5 then some (100 + i) else none, 6⟩ :
        used_vars Nat)
      (by decide) (by decide)
      (fun i h => by
        by_cases hi : i = 1 ∨ i = 3 ∨ i = 5
        · show i < 6
          omega
        · simp [hi] at h)).2.2.2.2.2.2.1⟩
